import Mathlib

/-! DataCollection.

A shallow embedding of `parthenon::DataCollection<T>`
(`interface/data_collection.hpp`, `interface/data_collection.cpp`).

* A `std::shared_ptr<T>` is an optional address into a store of `T` objects, so that
  "the same container" means "the same address".
* `std::map<std::string, std::shared_ptr<T>>` is a list of entries in ascending key order.
  The functions on it do not require the list to be well formed; `StdMap.WF` states it.
* Every operation returns what the call yields (a pointer, or the failure raised) together
  with the state it leaves behind.  Dereferencing a null pointer is undefined in C++; here it
  is the failure `Error.null_dereference`, raised at the point of the dereference.
-/

namespace parthenon

/-! ## Shared pointers and the object store -/

/-- A `std::shared_ptr<T>` value: `none` is the null pointer, `some a` points to the object
at address `a`. -/
abbrev Ptr := Option Nat

/-- The store of `T` objects held through shared pointers; the address of an object is its
position.  Releasing an object when its last owner goes away is not represented. -/
abbrev Heap (T : Type) := List T

/-- The object a pointer points to (`*p`, `p.get()`), `none` for a null pointer. -/
def deref {T : Type} (heap : Heap T) : Ptr → Option T
  | none => none
  | some a => heap.get? a

/-- The call `std::make_shared<T>()` followed by bringing the new object to the value `v`:
the object gets the next free address. -/
def make_shared {T : Type} (heap : Heap T) (v : T) : Heap T × Ptr :=
  (heap ++ [v], some heap.length)

/-! ## `std::map<std::string, std::shared_ptr<T>>` -/

/-- The member `containers_`: the entries of the map, in ascending key order. -/
abbrev Containers := List (String × Ptr)

/-- The order of `std::string` keys: lexicographic on the characters. -/
def keyLt (a b : String) : Prop := a.toList < b.toList

instance (a b : String) : Decidable (keyLt a b) := by
  unfold keyLt
  infer_instance

/-- The keys of a map are strictly ascending (hence pairwise different). -/
def StdMap.WF (m : Containers) : Prop := List.Pairwise keyLt (m.map Prod.fst)

instance (m : Containers) : Decidable (StdMap.WF m) := by
  unfold StdMap.WF
  infer_instance

/-- The call `containers_.find(k)`: the pointer stored under `k`, `none` for `end()`. -/
def StdMap.find : Containers → String → Option Ptr
  | [], _ => none
  | (k', v) :: rest, k => if k' = k then some v else StdMap.find rest k

/-- The assignment `containers_[k] = v`: replaces the pointer stored under `k`, or adds the
entry at its place in the key order. -/
def StdMap.assign : Containers → String → Ptr → Containers
  | [], k, v => [(k, v)]
  | (k', v') :: rest, k, v =>
    if keyLt k k' then (k, v) :: (k', v') :: rest
    else if k' = k then (k, v) :: rest
    else (k', v') :: StdMap.assign rest k v

/-- Reading `containers_[k]`: the pointer stored under `k`; when there is no entry under
`k`, `operator[]` first adds one holding the null pointer. -/
def StdMap.subscript (m : Containers) (k : String) : Containers × Ptr :=
  match StdMap.find m k with
  | some v => (m, v)
  | none => (StdMap.assign m k none, none)

/-! ## The mesh and the container type -/

/-- Modelled from the spec: `MeshBlock` (`mesh/mesh.hpp` is not among the sources).  A block
carries its own local collection `meshblock_data`, a `DataCollection<MeshBlockData<Real>>`;
only the map of that collection is reached from here, through `Set`. -/
structure MeshBlock where
  meshblock_data : Containers
deriving DecidableEq, Repr

/-- Modelled from the spec: `Mesh` (`mesh/mesh.hpp` is not among the sources): the block
list and the mesh-wide default pack size. -/
structure Mesh where
  block_list : List MeshBlock
  DefaultPackSize : Nat
deriving DecidableEq, Repr

/-- What the template argument `T` (`MeshData<Real>` or `MeshBlockData<Real>`, neither among
the sources) supplies to `DataCollection<T>`. -/
structure ContainerOps (T : Type) where
  /-- The constant `std::is_same<T, MeshData<Real>>::value`. -/
  is_MeshData : Bool
  /-- The object `T()` that `std::make_shared<T>()` builds. -/
  default : T
  /-- Whether a container holds a field of the given name. -/
  ContainsField : T → String → Bool
  /-- The effect of `c->Initialize(src, field_names, shallow)` on `c`; `src` is the object
  the raw pointer points to, `none` when it is null. -/
  Initialize : T → Option T → List String → Bool → T
  /-- The call `c->GetBlockData(b)` of the mesh-wide container. -/
  GetBlockData : T → Nat → Ptr
  /-- The effect of `c->Set(blocks, label)` of the mesh-wide container on `c`. -/
  Set : T → List MeshBlock → String → T

/-- Modelled from the spec: `T::Contains(field_names)` (`interface/mesh_data.hpp` and
`interface/meshblock_data.hpp` are not among the sources): the container holds every one of
the field names; an empty list is trivially satisfied. -/
def Contains {T : Type} (ops : ContainerOps T) (c : T) (field_names : List String) : Bool :=
  field_names.all (ops.ContainsField c)

/-- Modelled from the spec: `partition::ToSizeN` (`utils/partition_stl_containers.hpp` is not
among the sources): the list cut into `ceil(size / N)` consecutive chunks of `N` elements,
the last chunk possibly smaller. -/
def ToSizeN {α : Type} (container : List α) (N : Nat) : List (List α) :=
  (List.range ((container.length + N - 1) / N)).map
    (fun i => (container.drop (i * N)).take N)

/-! ## The collection -/

/-- The data members of `DataCollection<T>`. -/
structure DataCollection where
  /-- The member `Mesh *pmy_mesh_`: the mesh pointed to, `none` for `nullptr`. -/
  pmy_mesh_ : Option Mesh
  containers_ : Containers
deriving DecidableEq, Repr

/-- A collection together with the store its shared pointers point into. -/
structure State (T : Type) where
  heap : Heap T
  dc : DataCollection
deriving DecidableEq, Repr

/-- The failures an operation can raise. -/
inductive Error where
  /-- The macro `PARTHENON_THROW(msg)`. -/
  | PARTHENON_THROW (msg : String)
  /-- The statement `throw std::runtime_error(msg)`. -/
  | runtime_error (msg : String)
  /-- The exception `std::out_of_range` of `std::map::at`. -/
  | out_of_range
  /-- A null pointer was dereferenced. -/
  | null_dereference
deriving DecidableEq, Repr

/-- What a call yields and the state it leaves. -/
abbrev Outcome (T : Type) := Except Error Ptr × State T

instance : DecidableEq (Except Error Ptr) := fun a b =>
  match a, b with
  | .ok x, .ok y => if h : x = y then isTrue (by rw [h]) else isFalse (by intro e; cases e; exact h rfl)
  | .error x, .error y =>
    if h : x = y then isTrue (by rw [h]) else isFalse (by intro e; cases e; exact h rfl)
  | .ok _, .error _ => isFalse (by intro e; cases e)
  | .error _, .ok _ => isFalse (by intro e; cases e)

/-- The constructor `DataCollection()`: a map with the one entry "base", pointing to a newly
made `T()`, and a null mesh pointer. -/
def DataCollection.new {T : Type} (ops : ContainerOps T) (heap : Heap T) : State T :=
  let (heap1, base) := make_shared heap ops.default
  { heap := heap1, dc := { pmy_mesh_ := none, containers_ := StdMap.assign [] "base" base } }

/-- The member `SetMeshPointer(pmesh)`. -/
def SetMeshPointer {T : Type} (s : State T) (pmesh : Option Mesh) : State T :=
  { s with dc := { s.dc with pmy_mesh_ := pmesh } }

/-- The member `Stages()`. -/
def Stages {T : Type} (s : State T) : Containers := s.dc.containers_

/-- The member `Get()`: `containers_.at("base")`. -/
def Get_base {T : Type} (s : State T) : Outcome T :=
  match StdMap.find s.dc.containers_ "base" with
  | none => (.error .out_of_range, s)
  | some p => (.ok p, s)

/-- The member `Get(label)`. -/
def Get {T : Type} (s : State T) (label : String) : Outcome T :=
  match StdMap.find s.dc.containers_ label with
  | none => (.error (.runtime_error ("Container " ++ label ++ " does not exist in collection.")), s)
  | some p => (.ok p, s)

/-- The member `Set(name, d)`: `containers_[name] = d`. -/
def Set {T : Type} (s : State T) (name : String) (d : Ptr) : State T :=
  { s with dc := { s.dc with containers_ := StdMap.assign s.dc.containers_ name d } }

/-- The loop of `PurgeNonBase()` over the entries, from `begin()` to `end()`. -/
def PurgeNonBase_loop : Containers → Containers
  | [] => []
  | (k, v) :: rest =>
    if k ≠ "base" then PurgeNonBase_loop rest else (k, v) :: PurgeNonBase_loop rest

/-- The member `PurgeNonBase()`. -/
def PurgeNonBase {T : Type} (s : State T) : State T :=
  { s with dc := { s.dc with containers_ := PurgeNonBase_loop s.dc.containers_ } }

/-- The loop of the mesh-wide `Add` over the block list: block `b` stores under `name`, in
its own collection, the block data `c->GetBlockData(b)` of the new container `c`. -/
def Add_blocks {T : Type} (ops : ContainerOps T) (c : T) (name : String)
    (block_list : List MeshBlock) : List MeshBlock :=
  block_list.mapIdx (fun b blk =>
    { blk with meshblock_data := StdMap.assign blk.meshblock_data name (ops.GetBlockData c b) })

/-- The full `Add(name, src, field_names, shallow)`. -/
def Add {T : Type} (ops : ContainerOps T) (s : State T) (name : String) (src : Ptr)
    (field_names : List String) (shallow : Bool) : Outcome T :=
  match StdMap.find s.dc.containers_ name with
  | some it_second =>
    match deref s.heap it_second with
    | none => (.error .null_dereference, s)
    | some stored =>
      if !(Contains ops stored field_names) then
        (.error (.PARTHENON_THROW
          (name ++ "already exists in collection but does not contain field names")), s)
      else (.ok it_second, s)
  | none =>
    let cval := ops.Initialize ops.default (deref s.heap src) field_names shallow
    let (heap1, c) := make_shared s.heap cval
    let s1 := Set { s with heap := heap1 } name c
    if ops.is_MeshData then
      match s1.dc.pmy_mesh_ with
      | none => (.error .null_dereference, s1)
      | some mesh =>
        let mesh1 := { mesh with block_list := Add_blocks ops cval name mesh.block_list }
        let s2 := { s1 with dc := { s1.dc with pmy_mesh_ := some mesh1 } }
        let (m, r) := StdMap.subscript s2.dc.containers_ name
        (.ok r, { s2 with dc := { s2.dc with containers_ := m } })
    else
      let (m, r) := StdMap.subscript s1.dc.containers_ name
      (.ok r, { s1 with dc := { s1.dc with containers_ := m } })

/-- The overload `Add(label, src, flags)`. -/
def Add_src {T : Type} (ops : ContainerOps T) (s : State T) (label : String) (src : Ptr)
    (flags : List String) : Outcome T :=
  Add ops s label src flags false

/-- The overload `AddShallow(label, src, flags)`. -/
def AddShallow_src {T : Type} (ops : ContainerOps T) (s : State T) (label : String)
    (src : Ptr) (flags : List String) : Outcome T :=
  Add ops s label src flags true

/-- The full `Add` called on the argument `containers_[src_name]`: the argument is
evaluated first, through `operator[]`, and the call then runs on the map it leaves. -/
def Add_from {T : Type} (ops : ContainerOps T) (s : State T) (name src_name : String)
    (field_names : List String) (shallow : Bool) : Outcome T :=
  let (m, src) := StdMap.subscript s.dc.containers_ src_name
  Add ops { s with dc := { s.dc with containers_ := m } } name src field_names shallow

/-- The overload `Add(name, src_name, field_names, shallow)`. -/
def Add_srcName_shallow {T : Type} (ops : ContainerOps T) (s : State T)
    (name src_name : String) (field_names : List String) (_shallow : Bool) : Outcome T :=
  Add_from ops s name src_name field_names false

/-- The overload `Add(name, src_name, field_names)`. -/
def Add_srcName {T : Type} (ops : ContainerOps T) (s : State T) (name src_name : String)
    (field_names : List String) : Outcome T :=
  Add_from ops s name src_name field_names false

/-- The overload `AddShallow(name, src_name, field_names)`. -/
def AddShallow_srcName {T : Type} (ops : ContainerOps T) (s : State T)
    (name src_name : String) (field_names : List String) : Outcome T :=
  Add_from ops s name src_name field_names true

/-- The overload `Add(name, src_name)`. -/
def Add_srcName_only {T : Type} (ops : ContainerOps T) (s : State T)
    (name src_name : String) : Outcome T :=
  Add_from ops s name src_name [] false

/-- The overload `AddShallow(name, src_name)`. -/
def AddShallow_srcName_only {T : Type} (ops : ContainerOps T) (s : State T)
    (name src_name : String) : Outcome T :=
  Add_from ops s name src_name [] true

/-- The overload `Add(name, field_names, shallow)`. -/
def Add_fields_shallow {T : Type} (ops : ContainerOps T) (s : State T) (name : String)
    (field_names : List String) (_shallow : Bool) : Outcome T :=
  Add_from ops s name "base" field_names false

/-- The overload `Add(name, field_names)`. -/
def Add_fields {T : Type} (ops : ContainerOps T) (s : State T) (name : String)
    (field_names : List String) : Outcome T :=
  Add_from ops s name "base" field_names false

/-- The overload `AddShallow(name, field_names)`. -/
def AddShallow_fields {T : Type} (ops : ContainerOps T) (s : State T) (name : String)
    (field_names : List String) : Outcome T :=
  Add_from ops s name "base" field_names true

/-- One round of the loop of `GetOrAddByPartition`: partition `i` gets a newly made
mesh-wide container, bound to its blocks and sourced from `mbd_label`, under the key
`mbd_label + "_part-" + i`. -/
def GetOrAddByPartition_step {T : Type} (ops : ContainerOps T) (mbd_label : String)
    (acc : Heap T × Containers) (ip : Nat × List MeshBlock) : Heap T × Containers :=
  let md_label := mbd_label ++ "_part-" ++ toString ip.1
  let (heap1, c) := make_shared acc.1 (ops.Set ops.default ip.2 mbd_label)
  (heap1, StdMap.assign acc.2 md_label c)

/-- The specialisation `DataCollection<MeshData<Real>>::GetOrAddByPartition`. -/
def GetOrAddByPartition {T : Type} (ops : ContainerOps T) (s : State T) (mbd_label : String)
    (partition_id : Int) : Outcome T :=
  let label := mbd_label ++ "_part-" ++ toString partition_id
  match StdMap.find s.dc.containers_ label with
  | none =>
    match s.dc.pmy_mesh_ with
    | none => (.error .null_dereference, s)
    | some mesh =>
      let partitions := ToSizeN mesh.block_list mesh.DefaultPackSize
      let (heap1, m1) :=
        partitions.enum.foldl (GetOrAddByPartition_step ops mbd_label) (s.heap, s.dc.containers_)
      let (m, r) := StdMap.subscript m1 label
      (.ok r, { heap := heap1, dc := { s.dc with containers_ := m } })
  | some _ =>
    let (m, r) := StdMap.subscript s.dc.containers_ label
    (.ok r, { s with dc := { s.dc with containers_ := m } })

/-- Whether the map has an entry under `k` (`containers_.find(k) != containers_.end()`). -/
def StdMap.contains (m : Containers) (k : String) : Bool := (StdMap.find m k).isSome

/-- The state the full `Add` leaves when it registers a new container `cval` under `name`. -/
def Add_post {T : Type} (ops : ContainerOps T) (s : State T) (name : String) (cval : T) :
    State T :=
  { heap := s.heap ++ [cval]
    dc :=
      { pmy_mesh_ :=
          if ops.is_MeshData then
            s.dc.pmy_mesh_.map
              (fun mesh => { mesh with block_list := Add_blocks ops cval name mesh.block_list })
          else s.dc.pmy_mesh_
        containers_ := StdMap.assign s.dc.containers_ name (some s.heap.length) } }

/-! ## The operations as a transition system -/

/-- A call of one of the operations of a collection, with its arguments. -/
inductive Op where
  | SetMeshPointer (pmesh : Option Mesh)
  | Add (name : String) (src : Ptr) (field_names : List String) (shallow : Bool)
  | Add_src (label : String) (src : Ptr) (flags : List String)
  | AddShallow_src (label : String) (src : Ptr) (flags : List String)
  | Add_srcName_shallow (name src_name : String) (field_names : List String) (shallow : Bool)
  | Add_srcName (name src_name : String) (field_names : List String)
  | AddShallow_srcName (name src_name : String) (field_names : List String)
  | Add_srcName_only (name src_name : String)
  | AddShallow_srcName_only (name src_name : String)
  | Add_fields_shallow (name : String) (field_names : List String) (shallow : Bool)
  | Add_fields (name : String) (field_names : List String)
  | AddShallow_fields (name : String) (field_names : List String)
  | Get_base
  | Get (label : String)
  | Set (name : String) (d : Ptr)
  | GetOrAddByPartition (mbd_label : String) (partition_id : Int)
  | PurgeNonBase

/-- The state a call leaves behind, whether it returned or raised a failure. -/
def Op.run {T : Type} (ops : ContainerOps T) (s : State T) : Op → State T
  | .SetMeshPointer pmesh => parthenon.SetMeshPointer s pmesh
  | .Add name src field_names shallow => (parthenon.Add ops s name src field_names shallow).2
  | .Add_src label src flags => (parthenon.Add_src ops s label src flags).2
  | .AddShallow_src label src flags => (parthenon.AddShallow_src ops s label src flags).2
  | .Add_srcName_shallow name src_name field_names shallow =>
    (parthenon.Add_srcName_shallow ops s name src_name field_names shallow).2
  | .Add_srcName name src_name field_names => (parthenon.Add_srcName ops s name src_name field_names).2
  | .AddShallow_srcName name src_name field_names =>
    (parthenon.AddShallow_srcName ops s name src_name field_names).2
  | .Add_srcName_only name src_name => (parthenon.Add_srcName_only ops s name src_name).2
  | .AddShallow_srcName_only name src_name => (parthenon.AddShallow_srcName_only ops s name src_name).2
  | .Add_fields_shallow name field_names shallow =>
    (parthenon.Add_fields_shallow ops s name field_names shallow).2
  | .Add_fields name field_names => (parthenon.Add_fields ops s name field_names).2
  | .AddShallow_fields name field_names => (parthenon.AddShallow_fields ops s name field_names).2
  | .Get_base => (parthenon.Get_base s).2
  | .Get label => (parthenon.Get s label).2
  | .Set name d => parthenon.Set s name d
  | .GetOrAddByPartition mbd_label partition_id =>
    (parthenon.GetOrAddByPartition ops s mbd_label partition_id).2
  | .PurgeNonBase => parthenon.PurgeNonBase s

/-- The state reached from `s` by a sequence of calls. -/
def runAll {T : Type} (ops : ContainerOps T) (s : State T) (calls : List Op) : State T :=
  calls.foldl (Op.run ops) s

/-! ## A small container type, for evaluating the operations on concrete collections -/

/-- A container reduced to the names of its fields, the flag it was initialised with and
the blocks it is bound to. -/
structure FieldList where
  fields : List String
  shallow : Bool
  nblocks : Nat
deriving DecidableEq, Repr

/-- The operations of `FieldList`: initialising selects the requested names (all fields of
the source for an empty request) and records the flag. -/
def fieldListOps (is_MeshData : Bool) : ContainerOps FieldList where
  is_MeshData := is_MeshData
  default := { fields := [], shallow := false, nblocks := 0 }
  ContainsField := fun c n => decide (n ∈ c.fields)
  Initialize := fun c src field_names shallow =>
    { c with
      fields := if field_names.isEmpty then (src.map (fun x => x.fields)).getD [] else field_names
      shallow := shallow }
  GetBlockData := fun _ b => some b
  Set := fun c blocks _ => { c with nblocks := blocks.length }

/-- A block-level collection: "base" holds the fields A and B, "s1" the field A. -/
def sampleState : State FieldList :=
  { heap := [{ fields := ["A", "B"], shallow := false, nblocks := 0 },
             { fields := ["A"], shallow := false, nblocks := 0 }]
    dc := { pmy_mesh_ := none, containers_ := [("base", some 0), ("s1", some 1)] } }

/-- A mesh of two blocks, each with a "base" entry, and pack size 1. -/
def sampleMesh : Mesh :=
  { block_list := [{ meshblock_data := [("base", some 0)] }, { meshblock_data := [("base", some 1)] }]
    DefaultPackSize := 1 }

/-- A mesh-wide collection over `sampleMesh` with the entries "base" and "s1". -/
def sampleMeshState : State FieldList :=
  { sampleState with dc := { sampleState.dc with pmy_mesh_ := some sampleMesh } }

/-- The state `sampleState` after `Add("s2", base, {"B"})`. -/
def sampleStateS2 : State FieldList :=
  { heap := sampleState.heap ++ [{ fields := ["B"], shallow := false, nblocks := 0 }]
    dc := { pmy_mesh_ := none
            containers_ := [("base", some 0), ("s1", some 1), ("s2", some 2)] } }

/-- The mesh-wide collection `sampleMeshState` after `GetOrAddByPartition("base", 1)`: both
partitions of the two blocks are cached. -/
def samplePartState : State FieldList :=
  { heap := sampleState.heap ++
      [{ fields := [], shallow := false, nblocks := 1 },
       { fields := [], shallow := false, nblocks := 1 }]
    dc := { pmy_mesh_ := some sampleMesh
            containers_ := [("base", some 0), ("base_part-0", some 2),
                            ("base_part-1", some 3), ("s1", some 1)] } }

/-- The number a list of decimal digit characters stands for. -/
def decodeDigits (cs : List Char) : Nat :=
  cs.foldl (fun acc c => acc * 10 + (c.toNat - 48)) 0

/-- A mesh of three blocks and pack size 2: its partitions have 2 blocks and 1 block. -/
def sampleOddMesh : Mesh :=
  { block_list := [{ meshblock_data := [("base", some 0)] },
                   { meshblock_data := [("base", some 1)] },
                   { meshblock_data := [("base", some 2)] }]
    DefaultPackSize := 2 }

/-- A mesh-wide collection over `sampleOddMesh` with the entries "base" and "s1". -/
def sampleOddState : State FieldList :=
  { sampleState with dc := { sampleState.dc with pmy_mesh_ := some sampleOddMesh } }

/-! ## Variables, containers and the update kernels

A shallow embedding of `interface/Variable.hpp` and `interface/Update.cpp`.

* The variables live in a store indexed by address; a container lists the addresses of its
  variables, so that two containers can share a variable.
* `Real` is a type `R` with the operations a kernel uses.  The theorems on the values
  written take `R` to be a field: arithmetic is exact.  `Double` is `Real` with the special
  values of IEEE 754.
* An array is read and written with the four indices `(l, k, j, i)` used by the kernels;
  indices outside the allocated extent are not represented.
-/

/-- The loop `for (int x = s; x <= e; x++) body`, run on the state `init`. -/
def forRange {σ : Type} (s e : Int) (body : Int → σ → σ) (init : σ) : σ :=
  (List.range (e + 1 - s).toNat).foldl (fun st (n : Nat) => body (s + (n : Int)) st) init

/-- Modelled from the spec: the flags of `Metadata` (`Metadata.hpp` is not among the
sources): tags such as independent, derived, sparse. -/
inductive MetadataFlag where
  | Independent
  | Derived
  | Sparse
deriving DecidableEq, Repr

/-- Modelled from the spec: `Metadata` (`Metadata.hpp` is not among the sources): the set
of flags attached to a variable. -/
structure Metadata where
  flags : List MetadataFlag
deriving DecidableEq, Repr

/-- The query `Metadata::IsSet(bit)`. -/
def Metadata.IsSet (m : Metadata) (bit : MetadataFlag) : Bool := m.flags.contains bit

/-- Modelled from the spec: `ParArrayND<T>` (`parthenon_arrays.hpp` is not among the
sources): a dense array with its dimension sizes `GetDim(1..6)` and its elements, read as
`a(l, k, j, i)`. -/
structure ParArrayND (R : Type) where
  dim : Nat → Int
  val : Int → Int → Int → Int → R

/-- The class `CellVariable<T>` (called `Variable<Real>` in `Update.cpp`): the data array,
the three flux arrays, the metadata and the label. -/
structure CellVariable (R : Type) where
  data : ParArrayND R
  flux : Nat → ParArrayND R
  _m : Metadata
  _label : String

/-- The accessor `GetDim(i)`: `data.GetDim(i)`. -/
def CellVariable.GetDim {R : Type} (v : CellVariable R) (i : Nat) : Int := v.data.dim i

/-- The accessor `GetDim4()` used by the kernels: the size of the 4th dimension. -/
def CellVariable.GetDim4 {R : Type} (v : CellVariable R) : Int := v.GetDim 4

/-- The query `isSet(bit)`: `_m.IsSet(bit)`. -/
def CellVariable.isSet {R : Type} (v : CellVariable R) (bit : MetadataFlag) : Bool :=
  v._m.IsSet bit

/-- The variables held through shared pointers, by address. -/
abbrev VarStore (R : Type) := Nat → CellVariable R

/-- The assignment `q(l, k, j, i) = v` to the data array of the variable at address `a`. -/
def writeData {R : Type} (st : VarStore R) (a : Nat) (l k j i : Int) (v : R) : VarStore R :=
  Function.update st a
    { st a with
      data := { (st a).data with
        val := fun l2 k2 j2 i2 =>
          if l2 = l ∧ k2 = k ∧ j2 = j ∧ i2 = i then v else (st a).data.val l2 k2 j2 i2 } }

/-- The struct `IndexRange`: the first and the last index of a range, both included. -/
structure IndexRange where
  s : Int
  e : Int
deriving DecidableEq, Repr

/-- Modelled from the spec: the member `cellbounds` of a block (`mesh/mesh.hpp` is not among
the sources): `GetBoundsI`, `GetBoundsJ`, `GetBoundsK` are the ranges of the interior
domain, `ncellsi` the number of cells of the entire domain along `i`. -/
structure IndexShape where
  GetBoundsI : IndexRange
  GetBoundsJ : IndexRange
  GetBoundsK : IndexRange
  ncellsi : Int
deriving DecidableEq, Repr

/-- Modelled from the spec: the geometry `pcoord` of a block (`coordinates/coordinates.hpp`
is not among the sources): the face areas and the cell volume at `(k, j, i)`. -/
structure Coordinates (R : Type) where
  Face1Area : Int → Int → Int → R
  Face2Area : Int → Int → Int → R
  Face3Area : Int → Int → Int → R
  CellVolume : Int → Int → Int → R

/-- Modelled from the spec: a geometry call such as
`pcoord->Face1Area(k, j, is, ie, area)` (`coordinates/coordinates.hpp` is not among the
sources): it stores in `area(i)`, for `is <= i <= ie`, the quantity `g i` of the row. -/
def fillRow {R : Type} (g : Int → R) (is ie : Int) (area : Int → R) : Int → R :=
  fun i => if is ≤ i ∧ i ≤ ie then g i else area i

/-- Modelled from the spec: what `Update.cpp` reads through the pointer `pmy_block` of a
container (`mesh/mesh.hpp` is not among the sources): the cell bounds, the geometry and the
dimensionality `pmy_mesh->ndim`.  The package registry of the block is passed to
`EstimateTimestep` and `FillDerived` separately. -/
structure Block (R : Type) where
  cellbounds : IndexShape
  pcoord : Coordinates R
  ndim : Int

/-- Modelled from the spec: `Container<Real>` (`interface/Container.hpp` is not among the
sources): the block it belongs to and its variables, listed by address in a fixed order. -/
structure Container (R : Type) where
  pmy_block : Block R
  vars : List Nat

/-- Modelled from the spec: the member `vars` of `ContainerIterator<Real>(c, flags)`
(`interface/ContainerIterator.hpp` is not among the sources): the variables of the
container whose metadata has one of the flags, in the order of the container. -/
def ContainerIterator {R : Type} (st : VarStore R) (c : Container R)
    (flags : List MetadataFlag) : List Nat :=
  c.vars.filter (fun a => flags.any (fun f => (st a).isSet f))

/-- The kernel `Update::UpdateContainer(in, dudt_cont, dt, out)`.  It yields `none` when an
iterator would be indexed past its end (`nvars` is the size of the iterator of `out`).
The bound `qout.GetDim4()` is read once per variable: no write changes a dimension. -/
def Update.UpdateContainer {R : Type} [HAdd R R R] [HMul R R R] (st : VarStore R)
    (in_ dudt_cont : Container R) (dt : R) (out : Container R) : Option (VarStore R) :=
  let pmb := in_.pmy_block
  let ib := pmb.cellbounds.GetBoundsI
  let jb := pmb.cellbounds.GetBoundsJ
  let kb := pmb.cellbounds.GetBoundsK
  let cin_iter := ContainerIterator st in_ [MetadataFlag.Independent]
  let cout_iter := ContainerIterator st out [MetadataFlag.Independent]
  let du_iter := ContainerIterator st dudt_cont [MetadataFlag.Independent]
  let nvars : Int := cout_iter.length
  if cout_iter.length ≤ cin_iter.length ∧ cout_iter.length ≤ du_iter.length then
    some (forRange 0 (nvars - 1) (fun n st =>
      let qin := cin_iter.getD n.toNat 0
      let dudt := du_iter.getD n.toNat 0
      let qout := cout_iter.getD n.toNat 0
      forRange 0 ((st qout).GetDim4 - 1) (fun l st =>
        forRange kb.s kb.e (fun k st =>
          forRange jb.s jb.e (fun j st =>
            forRange ib.s ib.e (fun i st =>
              writeData st qout l k j i
                ((st qin).data.val l k j i + dt * (st dudt).data.val l k j i)) st) st) st) st)
      st)
  else none

/-- The kernel `Update::AverageContainers(c1, c2, wgt1)`.  It yields `none` when the
iterator of `c1` would be indexed past its end (`nvars` is the size of the iterator of
`c2`). -/
def Update.AverageContainers {R : Type} [HAdd R R R] [HMul R R R] [HSub R R R] [One R]
    (st : VarStore R) (c1 c2 : Container R)
    (wgt1 : R) : Option (VarStore R) :=
  let pmb := c1.pmy_block
  let ib := pmb.cellbounds.GetBoundsI
  let jb := pmb.cellbounds.GetBoundsJ
  let kb := pmb.cellbounds.GetBoundsK
  let c1_iter := ContainerIterator st c1 [MetadataFlag.Independent]
  let c2_iter := ContainerIterator st c2 [MetadataFlag.Independent]
  let nvars : Int := c2_iter.length
  if c2_iter.length ≤ c1_iter.length then
    some (forRange 0 (nvars - 1) (fun n st =>
      let q1 := c1_iter.getD n.toNat 0
      let q2 := c2_iter.getD n.toNat 0
      forRange 0 ((st q1).GetDim4 - 1) (fun l st =>
        forRange kb.s kb.e (fun k st =>
          forRange jb.s jb.e (fun j st =>
            forRange ib.s ib.e (fun i st =>
              writeData st q1 l k j i
                (wgt1 * (st q1).data.val l k j i + (1 - wgt1) * (st q2).data.val l k j i))
              st) st) st) st)
      st)
  else none

/-! ### Devices for reasoning about the loops -/

/-- One element of the data array of one variable. -/
structure Cell where
  a : Nat
  l : Int
  k : Int
  j : Int
  i : Int
deriving DecidableEq, Repr

/-- The element of the store at a cell. -/
def rdCell {R : Type} (st : VarStore R) (c : Cell) : R := (st c.a).data.val c.l c.k c.j c.i

/-- A variable without the elements of its data array: what no kernel writes. -/
def skeleton {R : Type} [Zero R] (v : CellVariable R) : CellVariable R :=
  { v with data := { v.data with val := fun _ _ _ _ => 0 } }

/-- The store without the elements of the data arrays. -/
def skelStore {R : Type} [Zero R] (st : VarStore R) : Nat → CellVariable R :=
  fun a => skeleton (st a)

/-- The state `st2` comes from `st1` by writing `f c` to every cell `c` of `W` and nothing
else: `rd` reads a cell, `skel` is the part of a state that holds no cell. -/
structure Writes {σ C V S : Type} (rd : σ → C → V) (skel : σ → S) (st2 st1 : σ)
    (W : C → Prop) (f : C → V) : Prop where
  skel_eq : skel st2 = skel st1
  inside : ∀ c, W c → rd st2 c = f c
  outside : ∀ c, ¬ W c → rd st2 c = rd st1 c

/-- The four loops over `l`, `k`, `j`, `i` of a kernel, writing `val` to the variable at
`qout`. -/
def pointLoops {R : Type} (kb jb ib : IndexRange) (dim4 : Int) (qout : Nat)
    (val : VarStore R → Int → Int → Int → Int → R) (st : VarStore R) : VarStore R :=
  forRange 0 (dim4 - 1) (fun l st =>
    forRange kb.s kb.e (fun k st =>
      forRange jb.s jb.e (fun j st =>
        forRange ib.s ib.e (fun i st =>
          writeData st qout l k j i (val st l k j i)) st) st) st) st

/-- The loops of `UpdateContainer` and `AverageContainers` in one form: variable `n` of
`tgt` receives, at every index of the ranges, `g` of the elements of variable `n` of
`srcA` and of `srcB` at that index. -/
def mapKernel {R : Type} (kb jb ib : IndexRange) (tgt srcA srcB : List Nat) (nvars : Int)
    (g : R → R → R) (st : VarStore R) : VarStore R :=
  forRange 0 (nvars - 1) (fun n st =>
    let qa := srcA.getD n.toNat 0
    let qb := srcB.getD n.toNat 0
    let qt := tgt.getD n.toNat 0
    forRange 0 ((st qt).GetDim4 - 1) (fun l st =>
      forRange kb.s kb.e (fun k st =>
        forRange jb.s jb.e (fun j st =>
          forRange ib.s ib.e (fun i st =>
            writeData st qt l k j i
              (g ((st qa).data.val l k j i) ((st qb).data.val l k j i))) st) st) st) st) st

/-- The cells of variable `n` of `tgt` that a kernel writes: the components below the 4th
dimension at the interior indices. -/
def mapRegion {R : Type} (kb jb ib : IndexRange) (tgt : List Nat) (st0 : VarStore R)
    (n : Nat) (c : Cell) : Prop :=
  c.a = tgt.getD n 0 ∧ (0 ≤ c.l ∧ c.l ≤ (st0 (tgt.getD n 0)).GetDim4 - 1) ∧
    (kb.s ≤ c.k ∧ c.k ≤ kb.e) ∧ (jb.s ≤ c.j ∧ c.j ≤ jb.e) ∧ (ib.s ≤ c.i ∧ c.i ≤ ib.e)

/-- A variable over the rationals with 2 components along the 4th dimension, for evaluating
the kernels on a concrete store; every flux array holds `i` at `(l, k, j, i)`. -/
def sampleVar (flags : List MetadataFlag) (label : String)
    (val : Int → Int → Int → Int → ℚ) : CellVariable ℚ :=
  { data := { dim := fun d => if d = 4 then 2 else 1, val := val }
    flux := fun _ => { dim := fun d => if d = 4 then 2 else 1, val := fun _ _ _ i => (i : ℚ) }
    _m := { flags := flags }
    _label := label }

/-- A store: 0 is the independent variable "u" (holding `i` at index `i`), 1 an independent
rate that is zero, 2 an independent variable "u_out", 3 a derived variable "aux", 4 an
independent rate that is 3 everywhere. -/
def sampleVars : VarStore ℚ := fun a =>
  match a with
  | 0 => sampleVar [MetadataFlag.Independent] "u" (fun _ _ _ i => (i : ℚ))
  | 1 => sampleVar [MetadataFlag.Independent] "dudt0" (fun _ _ _ _ => 0)
  | 2 => sampleVar [MetadataFlag.Independent] "u_out" (fun _ _ _ _ => 7)
  | 3 => sampleVar [MetadataFlag.Derived] "aux" (fun _ _ _ _ => 5)
  | 4 => sampleVar [MetadataFlag.Independent] "dudt" (fun _ _ _ _ => 3)
  | _ => sampleVar [] "" (fun _ _ _ _ => 0)

/-- A block of dimensionality 1 with interior `i = 2 .. 5`, `j = 0`, `k = 0`, unit face
areas and unit cell volumes. -/
def sampleBlock : Block ℚ :=
  { cellbounds := { GetBoundsI := { s := 2, e := 5 }, GetBoundsJ := { s := 0, e := 0 },
                    GetBoundsK := { s := 0, e := 0 }, ncellsi := 8 }
    pcoord := { Face1Area := fun _ _ _ => 1, Face2Area := fun _ _ _ => 1,
                Face3Area := fun _ _ _ => 1, CellVolume := fun _ _ _ => 1 }
    ndim := 1 }

/-- The container of "u" and "aux". -/
def sampleIn : Container ℚ := { pmy_block := sampleBlock, vars := [0, 3] }

/-- The container of the zero rate. -/
def sampleZeroRate : Container ℚ := { pmy_block := sampleBlock, vars := [1] }

/-- The container of the rate 3. -/
def sampleRate : Container ℚ := { pmy_block := sampleBlock, vars := [4] }

/-- The container of "u_out" and "aux". -/
def sampleOut : Container ℚ := { pmy_block := sampleBlock, vars := [2, 3] }

/-! ### Packages: timestep estimate and derived fill -/

/-- Modelled from the spec: the descriptor of a physics package (`StateDescriptor`, not
among the sources), reduced to its two optional callbacks; `none` is a null function
pointer.  A callback receives the container by reference: it is a function of the state
`C` of the container (and of all it reaches), returning the state it leaves. -/
structure StateDescriptor (C R : Type) where
  FillDerived : Option (C → C)
  EstimateTimestep : Option (C → R × C)

/-- The function `Update::EstimateTimestep(rc)`: it returns `dt_min` (and the container as
the callbacks left it).  `packages` reads the registry `rc.pmy_block->packages`, in the
order of its iteration; `numeric_limits_max` is `std::numeric_limits<Real>::max()`. -/
def Update.EstimateTimestep {C R : Type} [LinearOrder R]
    (packages : C → List (String × StateDescriptor C R)) (numeric_limits_max : R) (rc : C) :
    R × C :=
  (packages rc).foldl
    (fun (acc : R × C) pkg =>
      let desc := pkg.2
      match desc.EstimateTimestep with
      | some estimate => (min acc.1 (estimate acc.2).1, (estimate acc.2).2)
      | none => acc)
    (numeric_limits_max, rc)

/-- The values the timestep estimators of a list of packages return when they are called
one after the other on the container, packages without an estimator being skipped. -/
def returnedEstimates {C R : Type} : List (String × StateDescriptor C R) → C → List R
  | [], _ => []
  | pkg :: rest, rc =>
    match pkg.2.EstimateTimestep with
    | some estimate => (estimate rc).1 :: returnedEstimates rest (estimate rc).2
    | none => returnedEstimates rest rc

/-- The two file-level slots `_pre_package_fill` and `_post_package_fill`. -/
structure FillDerivedVariables.Slots (C : Type) where
  _pre_package_fill : Option (C → C)
  _post_package_fill : Option (C → C)

/-- The slots as the program starts: both null. -/
def FillDerivedVariables.Slots.initial (C : Type) : FillDerivedVariables.Slots C :=
  { _pre_package_fill := none, _post_package_fill := none }

/-- The function `FillDerivedVariables::SetFillDerivedFunctions(pre, post)`. -/
def FillDerivedVariables.SetFillDerivedFunctions {C : Type}
    (_slots : FillDerivedVariables.Slots C) (pre post : Option (C → C)) :
    FillDerivedVariables.Slots C :=
  { _pre_package_fill := pre, _post_package_fill := post }

/-- The function `FillDerivedVariables::FillDerived(rc)`: the container as the callbacks
leave it.  `packages` reads the registry `rc.pmy_block->packages`, in the order of its
iteration. -/
def FillDerivedVariables.FillDerived {C R : Type} (slots : FillDerivedVariables.Slots C)
    (packages : C → List (String × StateDescriptor C R)) (rc : C) : C :=
  let rc1 :=
    match slots._pre_package_fill with
    | some pre => pre rc
    | none => rc
  let rc2 := (packages rc1).foldl
    (fun rc pkg =>
      let desc := pkg.2
      match desc.FillDerived with
      | some fill => fill rc
      | none => rc)
    rc1
  match slots._post_package_fill with
  | some post => post rc2
  | none => rc2

/-- The callbacks `FillDerived` is to invoke, in order: the pre callback if set, the
derived-fill callback of each package that has one, in the order of the registry, and the
post callback if set. -/
def FillDerivedVariables.callSequence {C R : Type} (slots : FillDerivedVariables.Slots C)
    (registry : List (String × StateDescriptor C R)) : List (C → C) :=
  slots._pre_package_fill.toList ++ registry.filterMap (fun pkg => pkg.2.FillDerived)
    ++ slots._post_package_fill.toList

/-- A registry of three packages over a container state that is the log of the callbacks
invoked: "a" and "c" have a derived-fill callback, "b" has none. -/
def sampleRegistry : List (String × StateDescriptor (List String) ℚ) :=
  [("a", { FillDerived := some (fun log => log ++ ["a"]),
           EstimateTimestep := some (fun log => (3 / 2, log ++ ["dt a"])) }),
   ("b", { FillDerived := none, EstimateTimestep := none }),
   ("c", { FillDerived := some (fun log => log ++ ["c"]),
           EstimateTimestep := some (fun log => (1 / 2, log ++ ["dt c"])) })]

/-! ### `FluxDivergence` -/

/-- The store together with the local arrays of `FluxDivergence` (each an
`AthenaArray<Real>` indexed by `i`). -/
structure FluxState (R : Type) where
  st : VarStore R
  x1area : Int → R
  x2area0 : Int → R
  x2area1 : Int → R
  x3area0 : Int → R
  x3area1 : Int → R
  vol : Int → R
  du : Int → R

/-- The first loop over `i` in `FluxDivergence`: `du(i)` receives the difference of the
area-weighted `x1` fluxes. -/
def Update.FluxDivergence_x1 {R : Type} [Field R] (ib : IndexRange) (q : Nat) (l k j : Int)
    (s : FluxState R) : FluxState R :=
  forRange ib.s ib.e (fun i s =>
    { s with
      du := (Function.update s.du i
        (s.x1area (i + 1) * ((s.st q).flux 0).val l k j (i + 1)
          - s.x1area i * ((s.st q).flux 0).val l k j i)) }) s

/-- The second loop over `i` in `FluxDivergence`, run when the dimensionality is at least
2: the difference of the area-weighted `x2` fluxes is added to `du(i)`. -/
def Update.FluxDivergence_x2 {R : Type} [Field R] (ndim : Int) (ib : IndexRange) (q : Nat)
    (l k j : Int) (s : FluxState R) : FluxState R :=
  if ndim ≥ 2 then
    forRange ib.s ib.e (fun i s =>
      { s with
        du := (Function.update s.du i
          (s.du i + (s.x2area1 i * ((s.st q).flux 1).val l k (j + 1) i
            - s.x2area0 i * ((s.st q).flux 1).val l k j i))) }) s
  else s

/-- The third loop over `i` in `FluxDivergence`, run when the dimensionality is at least
3: the difference of the area-weighted `x3` fluxes is added to `du(i)`. -/
def Update.FluxDivergence_x3 {R : Type} [Field R] (ndim : Int) (ib : IndexRange) (q : Nat)
    (l k j : Int) (s : FluxState R) : FluxState R :=
  if ndim ≥ 3 then
    forRange ib.s ib.e (fun i s =>
      { s with
        du := (Function.update s.du i
          (s.du i + (s.x3area1 i * ((s.st q).flux 2).val l (k + 1) j i
            - s.x3area0 i * ((s.st q).flux 2).val l k j i))) }) s
  else s

/-- The last loop over `i` in `FluxDivergence`: `dudt(l, k, j, i) = -du(i) / vol(i)`. -/
def Update.FluxDivergence_store {R : Type} [Field R] (ib : IndexRange) (dudt : Nat)
    (l k j : Int) (s : FluxState R) : FluxState R :=
  forRange ib.s ib.e (fun i s =>
    { s with st := writeData s.st dudt l k j i (-(s.du i) / s.vol i) }) s

/-- The body of the loop over `l` in `FluxDivergence`, for the input variable at `q`, the
output variable at `dudt` and the row `(k, j)`: `du` is cleared (`du.ZeroClear()`), the
three flux differences are accumulated and the result is stored. -/
def Update.FluxDivergence_row {R : Type} [Field R] (ndim : Int) (ib : IndexRange)
    (q dudt : Nat) (l k j : Int) (s : FluxState R) : FluxState R :=
  Update.FluxDivergence_store ib dudt l k j
    (Update.FluxDivergence_x3 ndim ib q l k j
      (Update.FluxDivergence_x2 ndim ib q l k j
        (Update.FluxDivergence_x1 ib q l k j { s with du := fun _ => 0 })))

/-- The geometry calls at the head of the loop over `j` in `FluxDivergence`. -/
def Update.FluxDivergence_areas {R : Type} (pmb : Block R) (k j : Int) (s : FluxState R) :
    FluxState R :=
  let ib := pmb.cellbounds.GetBoundsI
  let s := { s with x1area := fillRow (pmb.pcoord.Face1Area k j) ib.s (ib.e + 1) s.x1area }
  let s := { s with vol := fillRow (pmb.pcoord.CellVolume k j) ib.s ib.e s.vol }
  let s :=
    if pmb.ndim ≥ 2 then
      { s with
        x2area0 := fillRow (pmb.pcoord.Face2Area k j) ib.s ib.e s.x2area0,
        x2area1 := fillRow (pmb.pcoord.Face2Area k (j + 1)) ib.s ib.e s.x2area1 }
    else s
  if pmb.ndim ≥ 3 then
    { s with
      x3area0 := fillRow (pmb.pcoord.Face3Area k j) ib.s ib.e s.x3area0,
      x3area1 := fillRow (pmb.pcoord.Face3Area (k + 1) j) ib.s ib.e s.x3area1 }
  else s

/-- The kernel `Update::FluxDivergence(in, dudt_cont)`.  It yields `none` when the iterator
of `in` would be indexed past its end (`nvars` is the size of the iterator of
`dudt_cont`).  The local arrays start zeroed. -/
def Update.FluxDivergence {R : Type} [Field R] (st : VarStore R)
    (in_ dudt_cont : Container R) : Option (VarStore R) :=
  let pmb := in_.pmy_block
  let jb := pmb.cellbounds.GetBoundsJ
  let kb := pmb.cellbounds.GetBoundsK
  let cin_iter := ContainerIterator st in_ [MetadataFlag.Independent]
  let cout_iter := ContainerIterator st dudt_cont [MetadataFlag.Independent]
  let nvars : Int := cout_iter.length
  let init : FluxState R :=
    { st := st, x1area := fun _ => 0, x2area0 := fun _ => 0, x2area1 := fun _ => 0,
      x3area0 := fun _ => 0, x3area1 := fun _ => 0, vol := fun _ => 0, du := fun _ => 0 }
  if cout_iter.length ≤ cin_iter.length then
    some (forRange kb.s kb.e (fun k s =>
      forRange jb.s jb.e (fun j s =>
        forRange 0 (nvars - 1) (fun n s =>
          let q := cin_iter.getD n.toNat 0
          let dudt := cout_iter.getD n.toNat 0
          forRange 0 ((s.st q).GetDim4 - 1) (fun l s =>
            Update.FluxDivergence_row pmb.ndim pmb.cellbounds.GetBoundsI q dudt l k j s) s)
          (Update.FluxDivergence_areas pmb k j s)) s) init).st
  else none

/-- The difference `D1` of the area-weighted `x1` fluxes across cell `(k, j, i)`. -/
def fluxDifference1 {R : Type} [Field R] (pmb : Block R) (q : CellVariable R)
    (l k j i : Int) : R :=
  pmb.pcoord.Face1Area k j (i + 1) * (q.flux 0).val l k j (i + 1)
    - pmb.pcoord.Face1Area k j i * (q.flux 0).val l k j i

/-- The difference `D2` of the area-weighted `x2` fluxes across cell `(k, j, i)`. -/
def fluxDifference2 {R : Type} [Field R] (pmb : Block R) (q : CellVariable R)
    (l k j i : Int) : R :=
  pmb.pcoord.Face2Area k (j + 1) i * (q.flux 1).val l k (j + 1) i
    - pmb.pcoord.Face2Area k j i * (q.flux 1).val l k j i

/-- The difference `D3` of the area-weighted `x3` fluxes across cell `(k, j, i)`. -/
def fluxDifference3 {R : Type} [Field R] (pmb : Block R) (q : CellVariable R)
    (l k j i : Int) : R :=
  pmb.pcoord.Face3Area (k + 1) j i * (q.flux 2).val l (k + 1) j i
    - pmb.pcoord.Face3Area k j i * (q.flux 2).val l k j i

/-- The flux divergence as the specification states it: `-(D1 + D2 + D3) / vol`, where `D2`
and `D3` count only when the dimensionality is at least 2 and 3, and are zero otherwise. -/
def fluxDivergenceFormula {R : Type} [Field R] (pmb : Block R) (q : CellVariable R)
    (l k j i : Int) : R :=
  -(fluxDifference1 pmb q l k j i
      + (if pmb.ndim ≥ 2 then fluxDifference2 pmb q l k j i else 0)
      + (if pmb.ndim ≥ 3 then fluxDifference3 pmb q l k j i else 0))
    / pmb.pcoord.CellVolume k j i

/-- The element of the store of a `FluxState` at a cell. -/
def rdF {R : Type} (s : FluxState R) (c : Cell) : R := rdCell s.st c

/-- The store of a `FluxState` without the elements of the data arrays. -/
def skelSt {R : Type} [Zero R] (s : FluxState R) : Nat → CellVariable R := skelStore s.st

/-- A `FluxState` without the elements of the data arrays and without `du`. -/
def skelAreas {R : Type} [Zero R] (s : FluxState R) :
    (Nat → CellVariable R) × (Int → R) × (Int → R) × (Int → R) × (Int → R) × (Int → R)
      × (Int → R) :=
  (skelStore s.st, s.x1area, s.x2area0, s.x2area1, s.x3area0, s.x3area1, s.vol)

/-- A `FluxState` without the elements of the data arrays. -/
def skelFull {R : Type} [Zero R] (s : FluxState R) :
    ((Nat → CellVariable R) × (Int → R) × (Int → R) × (Int → R) × (Int → R) × (Int → R)
      × (Int → R)) × (Int → R) :=
  (skelAreas s, s.du)

/-- A `FluxState` without `du`. -/
def skelNoDu {R : Type} (s : FluxState R) :
    VarStore R × (Int → R) × (Int → R) × (Int → R) × (Int → R) × (Int → R) × (Int → R) :=
  (s.st, s.x1area, s.x2area0, s.x2area1, s.x3area0, s.x3area1, s.vol)

/-- The cells of variable `n` of the output that `FluxDivergence` writes in the row
`(k, j)`. -/
def fluxSlice {R : Type} (ib : IndexRange) (cin cout : List Nat) (st0 : VarStore R)
    (k j : Int) (n : Nat) (c : Cell) : Prop :=
  c.a = cout.getD n 0 ∧ (0 ≤ c.l ∧ c.l ≤ (st0 (cin.getD n 0)).GetDim4 - 1) ∧
    c.k = k ∧ c.j = j ∧ (ib.s ≤ c.i ∧ c.i ≤ ib.e)

/-- The cells of variable `n` of the output that `FluxDivergence` writes: the components
below the 4th dimension of the input variable `n`, at the interior indices. -/
def fluxRegion {R : Type} (kb jb ib : IndexRange) (cin cout : List Nat) (st0 : VarStore R)
    (n : Nat) (c : Cell) : Prop :=
  c.a = cout.getD n 0 ∧ (0 ≤ c.l ∧ c.l ≤ (st0 (cin.getD n 0)).GetDim4 - 1) ∧
    (kb.s ≤ c.k ∧ c.k ≤ kb.e) ∧ (jb.s ≤ c.j ∧ c.j ≤ jb.e) ∧ (ib.s ≤ c.i ∧ c.i ≤ ib.e)

/-- The value `FluxDivergence_row` writes at index `i`, in terms of the local arrays. -/
def rowValue {R : Type} [Field R] (ndim : Int) (q : CellVariable R) (s : FluxState R)
    (l k j i : Int) : R :=
  -((s.x1area (i + 1) * (q.flux 0).val l k j (i + 1) - s.x1area i * (q.flux 0).val l k j i)
      + (if ndim ≥ 2 then
          s.x2area1 i * (q.flux 1).val l k (j + 1) i - s.x2area0 i * (q.flux 1).val l k j i
        else 0)
      + (if ndim ≥ 3 then
          s.x3area1 i * (q.flux 2).val l (k + 1) j i - s.x3area0 i * (q.flux 2).val l k j i
        else 0)) / s.vol i

/-! ## Face variables (`Variable.hpp`) -/

/-- Modelled from the spec: `FaceArray<T>` (the `FaceField` structure is not among the
sources): the three directional component arrays `x1f`, `x2f`, `x3f`. -/
structure FaceArray (R : Type) where
  x1f : ParArrayND R
  x2f : ParArrayND R
  x3f : ParArrayND R

/-- The class `FaceVariable<T>`: the member `data` and the private members `_dims`
(`std::array<int,6>`), `_m` and `_label`. -/
structure FaceVariable (R : Type) where
  data : FaceArray R
  _dims : List Int
  _m : Metadata
  _label : String

/-- The effect of a failed `assert`: the diagnostic names the expression and the program is
aborted. -/
inductive Abort where
  | assertion_failed (expr : String)
deriving DecidableEq, Repr

/-- The macro `assert(cond)` of `<cassert>`: when the translation unit is compiled with
`NDEBUG` defined the macro expands to nothing; otherwise a false condition aborts. -/
def assert (NDEBUG : Bool) (expr : String) (cond : Bool) : Except Abort Unit :=
  if NDEBUG then .ok ()
  else if cond then .ok ()
  else .error (.assertion_failed expr)

/-- The accessor `FaceVariable::Get(int i)`:
`assert( 1 <= i && i <= 3 ); if (i == 1) return (data.x1f); if (i == 2) return (data.x2f);
else return (data.x3f);` (the `throw` after the last `return` is commented out in the
source). -/
def FaceVariable.Get {R : Type} (NDEBUG : Bool) (v : FaceVariable R) (i : Int) :
    Except Abort (ParArrayND R) :=
  match assert NDEBUG "1 <= i && i <= 3" (decide (1 ≤ i) && decide (i ≤ 3)) with
  | .error e => .error e
  | .ok _ =>
    if i = 1 then .ok v.data.x1f
    else if i = 2 then .ok v.data.x2f
    else .ok v.data.x3f

/-- The accessor `FaceVariable::operator()(int dir, Args... args)`:
`assert( 1 <= dir && dir <= 3 ); if (dir == 1) return data.x1f(args...);
if (dir == 2) return data.x2f(args...); else return data.x3f(args...);`. The forwarded
arguments are the element indices `(l, k, j, i)` of the component array. -/
def FaceVariable.call {R : Type} (NDEBUG : Bool) (v : FaceVariable R) (dir : Int)
    (l k j i : Int) : Except Abort R :=
  match assert NDEBUG "1 <= dir && dir <= 3" (decide (1 ≤ dir) && decide (dir ≤ 3)) with
  | .error e => .error e
  | .ok _ =>
    if dir = 1 then .ok (v.data.x1f.val l k j i)
    else if dir = 2 then .ok (v.data.x2f.val l k j i)
    else .ok (v.data.x3f.val l k j i)

/-- A face variable whose three components are told apart by their elements: every element
of `x1f` is `1`, of `x2f` is `2` and of `x3f` is `3`. -/
def sampleFace : FaceVariable Int :=
  { data :=
      { x1f := { dim := fun _ => 4, val := fun _ _ _ _ => 1 },
        x2f := { dim := fun _ => 4, val := fun _ _ _ _ => 2 },
        x3f := { dim := fun _ => 4, val := fun _ _ _ _ => 3 } },
    _dims := [4, 4, 4, 1, 1, 1],
    _m := { flags := [] },
    _label := "B" }

/-- The store `st` differs from `st0` at most in the elements of the data arrays at the
cells of `W`: dimensions, flux arrays, metadata and labels are those of `st0`, and so is
every element at a cell outside `W`. -/
def FrameOf {R : Type} [Zero R] (W : Cell → Prop) (st0 st : VarStore R) : Prop :=
  skelStore st = skelStore st0 ∧ ∀ c, ¬ W c → rdCell st c = rdCell st0 c

/-! ### `Real` with the special values of IEEE 754 -/

/-- Modelled from the spec: the values of `Real` (`double`; `basic_types.hpp` is not among
the sources) with the special values of IEEE 754: a finite value, an infinity with its
sign, or NaN.  Finite arithmetic is kept exact: rounding, overflow and the sign of zero are
not represented. -/
inductive Double where
  | finite (q : ℚ)
  | inf (negative : Bool)
  | nan
deriving DecidableEq

/-- The sum of two doubles: NaN propagates, infinities of opposite signs give NaN. -/
def Double.add : Double → Double → Double
  | .nan, _ => .nan
  | _, .nan => .nan
  | .finite p, .finite q => .finite (p + q)
  | .finite _, .inf s => .inf s
  | .inf s, .finite _ => .inf s
  | .inf s, .inf t => if s = t then .inf s else .nan

/-- The opposite of a double. -/
def Double.neg : Double → Double
  | .finite q => .finite (-q)
  | .inf s => .inf (!s)
  | .nan => .nan

/-- The product of two doubles: NaN propagates, an infinity times zero is NaN, and the
sign of an infinite product is the product of the signs. -/
def Double.mul : Double → Double → Double
  | .nan, _ => .nan
  | _, .nan => .nan
  | .finite p, .finite q => .finite (p * q)
  | .finite p, .inf s => if p = 0 then .nan else .inf (xor s (decide (p < 0)))
  | .inf s, .finite q => if q = 0 then .nan else .inf (xor s (decide (q < 0)))
  | .inf s, .inf t => .inf (xor s t)

instance : Zero Double := ⟨.finite 0⟩

instance : One Double := ⟨.finite 1⟩

instance : HAdd Double Double Double := ⟨Double.add⟩

instance : HMul Double Double Double := ⟨Double.mul⟩

instance : HSub Double Double Double := ⟨fun x y => Double.add x (Double.neg y)⟩

/-- An independent variable over `Double` with 2 components along the 4th dimension. -/
def doubleVar (label : String) (val : Int → Int → Int → Int → Double) : CellVariable Double :=
  { data := { dim := fun d => if d = 4 then 2 else 1, val := val }
    flux := fun _ => { dim := fun d => if d = 4 then 2 else 1, val := fun _ _ _ _ => 0 }
    _m := { flags := [MetadataFlag.Independent] }
    _label := label }

/-- A store over `Double`: 0 is "u" (7 everywhere), 1 a rate that is zero, 2 is "u_out"
(1 everywhere), every other address holds `+inf` everywhere. -/
def doubleVars : VarStore Double := fun a =>
  match a with
  | 0 => doubleVar "u" (fun _ _ _ _ => .finite 7)
  | 1 => doubleVar "dudt0" (fun _ _ _ _ => 0)
  | 2 => doubleVar "u_out" (fun _ _ _ _ => .finite 1)
  | _ => doubleVar "big" (fun _ _ _ _ => .inf false)

/-- The container over `Double` of the variables at the given addresses, on a block with
the cell bounds of `sampleBlock`. -/
def doubleContainer (vars : List Nat) : Container Double :=
  { pmy_block :=
      { cellbounds := sampleBlock.cellbounds
        pcoord := { Face1Area := fun _ _ _ => 1, Face2Area := fun _ _ _ => 1,
                    Face3Area := fun _ _ _ => 1, CellVolume := fun _ _ _ => 1 }
        ndim := 1 }
    vars := vars }

end parthenon

/-! ## Facts about the map -/

namespace parthenon

theorem StdMap.find_assign_same (m : Containers) (k : String) (v : Ptr) :
    StdMap.find (StdMap.assign m k v) k = some v := by
  induction m with
  | nil => simp [StdMap.assign, StdMap.find]
  | cons e rest ih =>
    obtain ⟨k1, v1⟩ := e
    by_cases h1 : keyLt k k1
    · simp [StdMap.assign, StdMap.find, h1]
    · by_cases h2 : k1 = k
      · subst h2
        simp [StdMap.assign, StdMap.find, h1]
      · simp [StdMap.assign, StdMap.find, h1, h2, ih]

theorem StdMap.find_assign_other (m : Containers) (k : String) (v : Ptr) (k2 : String)
    (h : k2 ≠ k) : StdMap.find (StdMap.assign m k v) k2 = StdMap.find m k2 := by
  have hk : ¬ k = k2 := fun e => h e.symm
  induction m with
  | nil => simp [StdMap.assign, StdMap.find, hk]
  | cons e rest ih =>
    obtain ⟨k1, v1⟩ := e
    by_cases h1 : keyLt k k1
    · simp [StdMap.assign, StdMap.find, h1, hk]
    · by_cases h2 : k1 = k
      · subst h2
        simp [StdMap.assign, StdMap.find, h1, hk]
      · by_cases h3 : k1 = k2
        · subst h3
          simp [StdMap.assign, StdMap.find, h1, h2]
        · simp [StdMap.assign, StdMap.find, h1, h2, h3, ih]

theorem StdMap.length_assign_absent (m : Containers) (k : String) (v : Ptr)
    (h : StdMap.find m k = none) : (StdMap.assign m k v).length = m.length + 1 := by
  induction m with
  | nil => simp [StdMap.assign]
  | cons e rest ih =>
    obtain ⟨k1, v1⟩ := e
    by_cases h2 : k1 = k
    · simp [StdMap.find, h2] at h
    · simp only [StdMap.find, h2, if_false] at h
      by_cases h1 : keyLt k k1
      · simp [StdMap.assign, h1]
      · simp [StdMap.assign, h1, h2, ih h]

theorem StdMap.subscript_of_find {m : Containers} {k : String} {v : Ptr}
    (h : StdMap.find m k = some v) : StdMap.subscript m k = (m, v) := by
  simp [StdMap.subscript, h]

theorem StdMap.subscript_assign (m : Containers) (k : String) (v : Ptr) :
    StdMap.subscript (StdMap.assign m k v) k = (StdMap.assign m k v, v) :=
  StdMap.subscript_of_find (StdMap.find_assign_same m k v)

theorem deref_append {T : Type} (heap : Heap T) (v : T) (p : Ptr) (t : T)
    (h : deref heap p = some t) : deref (heap ++ [v]) p = some t := by
  cases p with
  | none => simp [deref] at h
  | some a =>
    simp only [deref] at h ⊢
    have hlt : a < heap.length := by
      by_contra hge
      rw [List.get?_eq_none.mpr (Nat.le_of_not_lt hge)] at h
      cases h
    rw [List.get?_eq_getElem?] at h ⊢
    rw [List.getElem?_append_left hlt]
    exact h

theorem deref_fresh {T : Type} (heap : Heap T) (v : T) :
    deref heap (some heap.length) = none ∧ deref (heap ++ [v]) (some heap.length) = some v := by
  constructor
  · simp [deref]
  · simp [deref]

/-! ## Unfolding `Add` -/

theorem Add_of_found {T : Type} (ops : ContainerOps T) (s : State T) (name : String)
    (src : Ptr) (field_names : List String) (shallow : Bool) (p : Ptr) (stored : T)
    (hfind : StdMap.find s.dc.containers_ name = some p) (hobj : deref s.heap p = some stored) :
    Add ops s name src field_names shallow =
      if Contains ops stored field_names then (.ok p, s)
      else (.error (.PARTHENON_THROW
        (name ++ "already exists in collection but does not contain field names")), s) := by
  unfold Add
  rw [hfind]
  simp only [hobj]
  cases Contains ops stored field_names <;> simp

theorem Add_of_absent {T : Type} (ops : ContainerOps T) (s : State T) (name : String)
    (src : Ptr) (field_names : List String) (shallow : Bool)
    (hnew : StdMap.find s.dc.containers_ name = none)
    (hmesh : ops.is_MeshData = true → s.dc.pmy_mesh_ ≠ none) :
    Add ops s name src field_names shallow =
      (.ok (some s.heap.length),
        Add_post ops s name (ops.Initialize ops.default (deref s.heap src) field_names shallow)) := by
  unfold Add
  rw [hnew]
  cases hm : ops.is_MeshData with
  | false =>
    simp [make_shared, Set, Add_post, hm, StdMap.subscript_assign]
  | true =>
    cases hp : s.dc.pmy_mesh_ with
    | none => exact absurd hp (hmesh hm)
    | some mesh =>
      simp [make_shared, Set, Add_post, hm, hp, StdMap.subscript_assign]

/-! ## The full `Add` -/

/-- C1 (idempotent Add): when a first call `Add(name, src, fields)` returns the container `p`
and leaves the state `s1`, and the arguments are compatible with that entry (the container
`p` points to holds the requested fields), then the same call repeated on `s1` returns the
same pointer `p` and leaves `s1` as it is: the map, the store and the mesh are those left by
the first call.  It holds for either value of the flag; the three-argument form is the case
`shallow = false`. -/
theorem Add_idempotent {T : Type} (ops : ContainerOps T) (s s1 : State T) (name : String)
    (src : Ptr) (field_names : List String) (shallow : Bool) (p : Ptr)
    (hfirst : Add ops s name src field_names shallow = (.ok p, s1))
    (hcompat : ∀ stored, deref s1.heap p = some stored →
      Contains ops stored field_names = true) :
    Add ops s1 name src field_names shallow = (.ok p, s1) ∧
    (shallow = false → Add_src ops s1 name src field_names = (.ok p, s1)) ∧
    (Add ops s1 name src field_names shallow).2.dc.containers_ = s1.dc.containers_ := by
  have key : Add ops s1 name src field_names shallow = (.ok p, s1) := by
    have hstep : ∃ stored, StdMap.find s1.dc.containers_ name = some p ∧
        deref s1.heap p = some stored := by
      cases hf : StdMap.find s.dc.containers_ name with
      | some q =>
        cases hd : deref s.heap q with
        | none =>
          unfold Add at hfirst
          rw [hf] at hfirst
          simp [hd] at hfirst
        | some stored =>
          rw [Add_of_found ops s name src field_names shallow q stored hf hd] at hfirst
          by_cases hc : Contains ops stored field_names = true
          · rw [if_pos hc] at hfirst
            simp only [Prod.mk.injEq, Except.ok.injEq] at hfirst
            obtain ⟨hq, hs⟩ := hfirst
            subst hq
            subst hs
            exact ⟨stored, hf, hd⟩
          · rw [if_neg hc] at hfirst
            simp at hfirst
      | none =>
        by_cases hmesh : ops.is_MeshData = true → s.dc.pmy_mesh_ ≠ none
        · rw [Add_of_absent ops s name src field_names shallow hf hmesh] at hfirst
          simp only [Prod.mk.injEq, Except.ok.injEq] at hfirst
          obtain ⟨hq, hs⟩ := hfirst
          subst hq
          subst hs
          exact ⟨_, StdMap.find_assign_same _ _ _, (deref_fresh s.heap _).2⟩
        · have hm : ops.is_MeshData = true := by
            by_contra hc
            exact hmesh (fun h => absurd h hc)
          have hp : s.dc.pmy_mesh_ = none := by
            by_contra hc
            exact hmesh (fun _ => hc)
          unfold Add at hfirst
          rw [hf] at hfirst
          simp [make_shared, Set, hm, hp] at hfirst
    obtain ⟨stored, hf1, hd1⟩ := hstep
    rw [Add_of_found ops s1 name src field_names shallow p stored hf1 hd1,
      if_pos (hcompat stored hd1)]
  refine ⟨key, ?_, ?_⟩
  · intro hsh
    subst hsh
    exact key
  · rw [key]

theorem Add_idempotent_witness :
    Add (fieldListOps false) sampleStateS2 "s2" (some 0) ["B"] false
        = (.ok (some 2), sampleStateS2) ∧
    (false = false →
      Add_src (fieldListOps false) sampleStateS2 "s2" (some 0) ["B"] = (.ok (some 2), sampleStateS2)) ∧
    (Add (fieldListOps false) sampleStateS2 "s2" (some 0) ["B"] false).2.dc.containers_
        = sampleStateS2.dc.containers_ :=
  Add_idempotent (fieldListOps false) sampleState sampleStateS2 "s2" (some 0) ["B"] false
    (some 2) (by decide)
    (by
      intro stored h
      have h2 : some ({ fields := ["B"], shallow := false, nblocks := 0 } : FieldList)
          = some stored := h
      cases h2
      decide)

/-- C2 (naming collision): when the map has an entry under `name` and the container stored
there does not hold the requested field names, `Add(name, src, fields, shallow)` raises the
naming-collision failure for every `src` and every `shallow`, and leaves the state (map,
store and mesh) exactly as it was. -/
theorem Add_collision {T : Type} (ops : ContainerOps T) (s : State T) (name : String)
    (src : Ptr) (field_names : List String) (shallow : Bool) (p : Ptr) (stored : T)
    (hfind : StdMap.find s.dc.containers_ name = some p)
    (hobj : deref s.heap p = some stored)
    (hlacks : Contains ops stored field_names = false) :
    Add ops s name src field_names shallow =
      (.error (.PARTHENON_THROW
        (name ++ "already exists in collection but does not contain field names")), s) ∧
    (Add ops s name src field_names shallow).2.dc.containers_ = s.dc.containers_ := by
  have key := Add_of_found ops s name src field_names shallow p stored hfind hobj
  rw [hlacks] at key
  simp only [Bool.false_eq_true, if_false] at key
  exact ⟨key, by rw [key]⟩

theorem Add_collision_witness :
    Add (fieldListOps false) sampleStateS2 "s1" (some 0) ["C"] true =
      (.error (.PARTHENON_THROW
        ("s1" ++ "already exists in collection but does not contain field names")),
        sampleStateS2) ∧
    (Add (fieldListOps false) sampleStateS2 "s1" (some 0) ["C"] true).2.dc.containers_
      = sampleStateS2.dc.containers_ :=
  Add_collision (fieldListOps false) sampleStateS2 "s1" (some 0) ["C"] true (some 1)
    { fields := ["A"], shallow := false, nblocks := 0 } (by decide) (by decide) (by decide)

/-- C3 (existing name, compatible request): when the map has an entry `p` under `name`,
pointing to a container, then for every `src` and every `shallow` the call
`Add(name, src, fields, shallow)` returns `p` itself and leaves the state (map, store and
mesh) unchanged, both for every field-name list the stored container holds and for the
empty list. -/
theorem Add_existing_compatible {T : Type} (ops : ContainerOps T) (s : State T)
    (name : String) (src : Ptr) (field_names : List String) (shallow : Bool) (p : Ptr)
    (stored : T)
    (hfind : StdMap.find s.dc.containers_ name = some p)
    (hobj : deref s.heap p = some stored) :
    (Contains ops stored field_names = true →
      Add ops s name src field_names shallow = (.ok p, s)) ∧
    Contains ops stored [] = true ∧
    Add ops s name src [] shallow = (.ok p, s) := by
  refine ⟨?_, ?_, ?_⟩
  · intro hc
    rw [Add_of_found ops s name src field_names shallow p stored hfind hobj, if_pos hc]
  · simp [Contains]
  · rw [Add_of_found ops s name src [] shallow p stored hfind hobj]
    simp [Contains]

theorem Add_existing_compatible_witness :
    (Contains (fieldListOps false) { fields := ["A", "B"], shallow := false, nblocks := 0 }
        ["B", "A"] = true →
      Add (fieldListOps false) sampleStateS2 "base" none ["B", "A"] true
        = (.ok (some 0), sampleStateS2)) ∧
    Contains (fieldListOps false) { fields := ["A", "B"], shallow := false, nblocks := 0 } []
      = true ∧
    Add (fieldListOps false) sampleStateS2 "base" none [] true = (.ok (some 0), sampleStateS2) :=
  Add_existing_compatible (fieldListOps false) sampleStateS2 "base" none ["B", "A"] true
    (some 0) { fields := ["A", "B"], shallow := false, nblocks := 0 } (by decide) (by decide)

/-- C4 (new name): when the map has no entry under `name` (and, for the mesh-wide container
type, the mesh pointer has been set), `Add(name, src, fields, shallow)` returns a pointer `c`
to a container at an address not in use before, whose value is `Initialize` applied to a
new `T()` with the object `src` points to, exactly the given field names and the given flag;
no container that existed before is changed; `c` is registered under `name`, so `Get(name)`
afterwards returns `c`; the entry under every other name is as before; and the map has
exactly one entry more. -/
theorem Add_new_name {T : Type} (ops : ContainerOps T) (s : State T) (name : String)
    (src : Ptr) (field_names : List String) (shallow : Bool)
    (hnew : StdMap.find s.dc.containers_ name = none)
    (hmesh : ops.is_MeshData = true → s.dc.pmy_mesh_ ≠ none) :
    ∃ s1 : State T,
      Add ops s name src field_names shallow = (.ok (some s.heap.length), s1) ∧
      deref s.heap (some s.heap.length) = none ∧
      deref s1.heap (some s.heap.length)
        = some (ops.Initialize ops.default (deref s.heap src) field_names shallow) ∧
      (∀ q t, deref s.heap q = some t → deref s1.heap q = some t) ∧
      s1.dc.containers_ = StdMap.assign s.dc.containers_ name (some s.heap.length) ∧
      StdMap.find s1.dc.containers_ name = some (some s.heap.length) ∧
      Get s1 name = (.ok (some s.heap.length), s1) ∧
      (∀ other, other ≠ name →
        StdMap.find s1.dc.containers_ other = StdMap.find s.dc.containers_ other) ∧
      s1.dc.containers_.length = s.dc.containers_.length + 1 := by
  refine ⟨_, Add_of_absent ops s name src field_names shallow hnew hmesh, ?_⟩
  refine ⟨(deref_fresh s.heap ops.default).1, (deref_fresh s.heap _).2, ?_, rfl, ?_, ?_, ?_, ?_⟩
  · intro q t hq
    exact deref_append s.heap _ q t hq
  · exact StdMap.find_assign_same _ _ _
  · simp [Get, Add_post, StdMap.find_assign_same]
  · intro other hne
    exact StdMap.find_assign_other _ _ _ other hne
  · exact StdMap.length_assign_absent _ _ _ hnew

theorem Add_new_name_witness :
    ∃ s1 : State FieldList,
      Add (fieldListOps true) sampleMeshState "s2" (some 0) ["B"] true
        = (.ok (some sampleMeshState.heap.length), s1) ∧
      deref sampleMeshState.heap (some sampleMeshState.heap.length) = none ∧
      deref s1.heap (some sampleMeshState.heap.length)
        = some ((fieldListOps true).Initialize (fieldListOps true).default
            (deref sampleMeshState.heap (some 0)) ["B"] true) ∧
      (∀ q t, deref sampleMeshState.heap q = some t → deref s1.heap q = some t) ∧
      s1.dc.containers_
        = StdMap.assign sampleMeshState.dc.containers_ "s2" (some sampleMeshState.heap.length) ∧
      StdMap.find s1.dc.containers_ "s2" = some (some sampleMeshState.heap.length) ∧
      Get s1 "s2" = (.ok (some sampleMeshState.heap.length), s1) ∧
      (∀ other, other ≠ "s2" →
        StdMap.find s1.dc.containers_ other
          = StdMap.find sampleMeshState.dc.containers_ other) ∧
      s1.dc.containers_.length = sampleMeshState.dc.containers_.length + 1 :=
  Add_new_name (fieldListOps true) sampleMeshState "s2" (some 0) ["B"] true (by decide)
    (by decide)

/-! ## The overloads of `Add` and `AddShallow` -/

theorem Add_from_of_find {T : Type} (ops : ContainerOps T) (s : State T)
    (name src_name : String) (field_names : List String) (shallow : Bool) (p : Ptr)
    (hsrc : StdMap.find s.dc.containers_ src_name = some p) :
    Add_from ops s name src_name field_names shallow
      = Add ops s name p field_names shallow := by
  unfold Add_from
  rw [StdMap.subscript_of_find hsrc]

/-- C5 (the flag of the forms that take it), at a concrete call: on `sampleState`, where
"s2" is new and "base" is stored, `Add("s2", "base", {"B"}, true)` and
`Add("s2", {"B"}, true)` build the container with the flag `false`: they equal the full
`Add("s2", containers_["base"], {"B"}, false)` and differ from the full call with `true`. -/
theorem Add_shallow_flag_dropped :
    Add_srcName_shallow (fieldListOps false) sampleState "s2" "base" ["B"] true
      = Add (fieldListOps false) sampleState "s2" (some 0) ["B"] false ∧
    Add_srcName_shallow (fieldListOps false) sampleState "s2" "base" ["B"] true
      ≠ Add (fieldListOps false) sampleState "s2" (some 0) ["B"] true ∧
    Add_fields_shallow (fieldListOps false) sampleState "s2" ["B"] true
      = Add (fieldListOps false) sampleState "s2" (some 0) ["B"] false ∧
    Add_fields_shallow (fieldListOps false) sampleState "s2" ["B"] true
      ≠ Add (fieldListOps false) sampleState "s2" (some 0) ["B"] true ∧
    AddShallow_srcName (fieldListOps false) sampleState "s2" "base" ["B"]
      = Add (fieldListOps false) sampleState "s2" (some 0) ["B"] true := by
  decide

/-- C6 (convenience overloads): on a collection that stores `p` under the source name and
`b` under "base", every overload returns the same result and leaves the same state as the
full `Add` it stands for: the `AddShallow` forms with `shallow = true`, the `Add` forms
without a flag with `shallow = false`, the forms without a source with the entry under
"base", and the forms without field names with the empty list. -/
theorem overloads_eq_full_Add {T : Type} (ops : ContainerOps T) (s : State T)
    (name src_name : String) (src : Ptr) (field_names : List String) (p b : Ptr)
    (hsrc : StdMap.find s.dc.containers_ src_name = some p)
    (hbase : StdMap.find s.dc.containers_ "base" = some b) :
    Add_src ops s name src field_names = Add ops s name src field_names false ∧
    AddShallow_src ops s name src field_names = Add ops s name src field_names true ∧
    Add_srcName ops s name src_name field_names = Add ops s name p field_names false ∧
    AddShallow_srcName ops s name src_name field_names = Add ops s name p field_names true ∧
    Add_srcName_only ops s name src_name = Add ops s name p [] false ∧
    AddShallow_srcName_only ops s name src_name = Add ops s name p [] true ∧
    Add_fields ops s name field_names = Add ops s name b field_names false ∧
    AddShallow_fields ops s name field_names = Add ops s name b field_names true := by
  refine ⟨rfl, rfl, ?_, ?_, ?_, ?_, ?_, ?_⟩
  · exact Add_from_of_find ops s name src_name field_names false p hsrc
  · exact Add_from_of_find ops s name src_name field_names true p hsrc
  · exact Add_from_of_find ops s name src_name [] false p hsrc
  · exact Add_from_of_find ops s name src_name [] true p hsrc
  · exact Add_from_of_find ops s name "base" field_names false b hbase
  · exact Add_from_of_find ops s name "base" field_names true b hbase

theorem overloads_eq_full_Add_witness :
    Add_src (fieldListOps true) sampleMeshState "s2" (some 0) ["A"]
      = Add (fieldListOps true) sampleMeshState "s2" (some 0) ["A"] false ∧
    AddShallow_src (fieldListOps true) sampleMeshState "s2" (some 0) ["A"]
      = Add (fieldListOps true) sampleMeshState "s2" (some 0) ["A"] true ∧
    Add_srcName (fieldListOps true) sampleMeshState "s2" "s1" ["A"]
      = Add (fieldListOps true) sampleMeshState "s2" (some 1) ["A"] false ∧
    AddShallow_srcName (fieldListOps true) sampleMeshState "s2" "s1" ["A"]
      = Add (fieldListOps true) sampleMeshState "s2" (some 1) ["A"] true ∧
    Add_srcName_only (fieldListOps true) sampleMeshState "s2" "s1"
      = Add (fieldListOps true) sampleMeshState "s2" (some 1) [] false ∧
    AddShallow_srcName_only (fieldListOps true) sampleMeshState "s2" "s1"
      = Add (fieldListOps true) sampleMeshState "s2" (some 1) [] true ∧
    Add_fields (fieldListOps true) sampleMeshState "s2" ["A"]
      = Add (fieldListOps true) sampleMeshState "s2" (some 0) ["A"] false ∧
    AddShallow_fields (fieldListOps true) sampleMeshState "s2" ["A"]
      = Add (fieldListOps true) sampleMeshState "s2" (some 0) ["A"] true :=
  overloads_eq_full_Add (fieldListOps true) sampleMeshState "s2" "s1" (some 0) ["A"] (some 1)
    (some 0) (by decide) (by decide)

/-! ## `Get` -/

/-- C7 (exact lookup): `Get(label)` raises its lookup failure exactly when no entry is
stored under `label`, and otherwise returns the stored pointer; `Get()` returns the pointer
stored under "base" (and raises `std::out_of_range` when there is none); neither changes
the state, so an absent label is never inserted. -/
theorem Get_exact_lookup {T : Type} (s : State T) (label : String) :
    ((∃ e, (Get s label).1 = .error e) ↔ StdMap.find s.dc.containers_ label = none) ∧
    (StdMap.find s.dc.containers_ label = none →
      (Get s label).1
        = .error (.runtime_error ("Container " ++ label ++ " does not exist in collection."))) ∧
    (∀ p, StdMap.find s.dc.containers_ label = some p → (Get s label).1 = .ok p) ∧
    (Get s label).2 = s ∧
    (∀ p, StdMap.find s.dc.containers_ "base" = some p → Get_base s = (.ok p, s)) ∧
    (StdMap.find s.dc.containers_ "base" = none → (Get_base s).1 = .error .out_of_range) ∧
    (Get_base s).2 = s := by
  refine ⟨?_, ?_, ?_, ?_, ?_, ?_, ?_⟩
  · cases h : StdMap.find s.dc.containers_ label <;> simp [Get, h]
  · intro h
    simp [Get, h]
  · intro p h
    simp [Get, h]
  · cases h : StdMap.find s.dc.containers_ label <;> simp [Get, h]
  · intro p h
    simp [Get_base, h]
  · intro h
    simp [Get_base, h]
  · cases h : StdMap.find s.dc.containers_ "base" <;> simp [Get_base, h]

/-- C8 (absent source name), at concrete calls on `sampleState`, which stores no "ghost":
`Add("s1", "ghost")`, with "s1" stored, raises nothing, returns the entry of "s1" and leaves
a null entry under "ghost"; `Add("s2", "ghost", {"B"})`, with "s2" new, raises nothing
either and leaves both "ghost" (null) and "s2" registered; `Get("ghost")` on the same state
raises the lookup failure. -/
theorem Add_absent_source_inserts_null :
    Add_srcName_only (fieldListOps false) sampleState "s1" "ghost"
      = (.ok (some 1),
          { sampleState with
            dc := { pmy_mesh_ := none
                    containers_ := [("base", some 0), ("ghost", none), ("s1", some 1)] } }) ∧
    StdMap.find sampleState.dc.containers_ "ghost" = none ∧
    (Add_srcName (fieldListOps false) sampleState "s2" "ghost" ["B"]).1 = .ok (some 2) ∧
    (Add_srcName (fieldListOps false) sampleState "s2" "ghost" ["B"]).2.dc.containers_
      = [("base", some 0), ("ghost", none), ("s1", some 1), ("s2", some 2)] ∧
    Get sampleState "ghost"
      = (.error (.runtime_error ("Container " ++ "ghost" ++ " does not exist in collection.")),
          sampleState) := by
  decide

/-! ## Keys are never lost, and the "base" entry -/

theorem StdMap.contains_assign (m : Containers) (k : String) (v : Ptr) (key : String)
    (h : StdMap.contains m key = true) : StdMap.contains (StdMap.assign m k v) key = true := by
  unfold StdMap.contains at h ⊢
  by_cases hk : key = k
  · subst hk
    rw [StdMap.find_assign_same]
    rfl
  · rw [StdMap.find_assign_other m k v key hk]
    exact h

theorem StdMap.subscript_preserves (P : Containers → Prop)
    (hassign : ∀ m k v, P m → P (StdMap.assign m k v)) (m : Containers) (k : String)
    (h : P m) : P (StdMap.subscript m k).1 := by
  unfold StdMap.subscript
  cases StdMap.find m k with
  | some v => exact h
  | none => exact hassign m k none h

theorem Add_preserves {T : Type} (P : Containers → Prop)
    (hassign : ∀ m k v, P m → P (StdMap.assign m k v)) (ops : ContainerOps T) (s : State T)
    (name : String) (src : Ptr) (field_names : List String) (shallow : Bool)
    (h : P s.dc.containers_) :
    P (Add ops s name src field_names shallow).2.dc.containers_ := by
  cases hf : StdMap.find s.dc.containers_ name with
  | some q =>
    cases hd : deref s.heap q with
    | none =>
      unfold Add
      rw [hf]
      simpa [hd] using h
    | some stored =>
      rw [Add_of_found ops s name src field_names shallow q stored hf hd]
      by_cases hc : Contains ops stored field_names = true
      · rw [if_pos hc]
        exact h
      · rw [if_neg hc]
        exact h
  | none =>
    by_cases hmesh : ops.is_MeshData = true → s.dc.pmy_mesh_ ≠ none
    · rw [Add_of_absent ops s name src field_names shallow hf hmesh]
      exact hassign _ _ _ h
    · have hm : ops.is_MeshData = true := by
        by_contra hc
        exact hmesh (fun h => absurd h hc)
      have hp : s.dc.pmy_mesh_ = none := by
        by_contra hc
        exact hmesh (fun _ => hc)
      unfold Add
      rw [hf]
      simp only [make_shared, Set, hm, hp, if_true]
      exact hassign _ _ _ h

theorem Add_from_preserves {T : Type} (P : Containers → Prop)
    (hassign : ∀ m k v, P m → P (StdMap.assign m k v)) (ops : ContainerOps T) (s : State T)
    (name src_name : String) (field_names : List String) (shallow : Bool)
    (h : P s.dc.containers_) :
    P (Add_from ops s name src_name field_names shallow).2.dc.containers_ := by
  unfold Add_from
  exact Add_preserves P hassign ops _ name _ field_names shallow
    (StdMap.subscript_preserves P hassign s.dc.containers_ src_name h)

theorem GetOrAddByPartition_fold_preserves {T : Type} (P : Containers → Prop)
    (hassign : ∀ m k v, P m → P (StdMap.assign m k v)) (ops : ContainerOps T)
    (mbd_label : String) (l : List (Nat × List MeshBlock))
    (acc : Heap T × Containers) (h : P acc.2) :
    P (l.foldl (GetOrAddByPartition_step ops mbd_label) acc).2 := by
  induction l generalizing acc with
  | nil => exact h
  | cons ip rest ih =>
    rw [List.foldl_cons]
    apply ih
    exact hassign _ _ _ h

theorem GetOrAddByPartition_preserves {T : Type} (P : Containers → Prop)
    (hassign : ∀ m k v, P m → P (StdMap.assign m k v)) (ops : ContainerOps T) (s : State T)
    (mbd_label : String) (partition_id : Int) (h : P s.dc.containers_) :
    P (GetOrAddByPartition ops s mbd_label partition_id).2.dc.containers_ := by
  cases hf : StdMap.find s.dc.containers_ (mbd_label ++ "_part-" ++ toString partition_id) with
  | some q =>
    have hit : GetOrAddByPartition ops s mbd_label partition_id = (.ok q, s) := by
      simp [GetOrAddByPartition, hf, StdMap.subscript]
    rw [hit]
    exact h
  | none =>
    cases hp : s.dc.pmy_mesh_ with
    | none =>
      have hnull : GetOrAddByPartition ops s mbd_label partition_id
          = (.error .null_dereference, s) := by
        simp [GetOrAddByPartition, hf, hp]
      rw [hnull]
      exact h
    | some mesh =>
      simp only [GetOrAddByPartition, hf, hp]
      exact StdMap.subscript_preserves P hassign _ _
        (GetOrAddByPartition_fold_preserves P hassign ops mbd_label _
          (s.heap, s.dc.containers_) h)

theorem PurgeNonBase_loop_find_base (m : Containers) :
    StdMap.find (PurgeNonBase_loop m) "base" = StdMap.find m "base" := by
  induction m with
  | nil => rfl
  | cons e rest ih =>
    obtain ⟨k, v⟩ := e
    by_cases hk : k = "base"
    · simp [PurgeNonBase_loop, StdMap.find, hk]
    · simp [PurgeNonBase_loop, StdMap.find, hk, ih]

/-- A property of the map that assignments and the purge keep is kept by every operation. -/
theorem run_preserves {T : Type} (P : Containers → Prop)
    (hassign : ∀ m k v, P m → P (StdMap.assign m k v))
    (hpurge : ∀ m, P m → P (PurgeNonBase_loop m)) (ops : ContainerOps T) (s : State T)
    (op : Op) (h : P s.dc.containers_) : P (Op.run ops s op).dc.containers_ := by
  cases op with
  | SetMeshPointer pmesh => exact h
  | Add name src field_names shallow =>
    exact Add_preserves P hassign ops s name src field_names shallow h
  | Add_src label src flags => exact Add_preserves P hassign ops s label src flags false h
  | AddShallow_src label src flags => exact Add_preserves P hassign ops s label src flags true h
  | Add_srcName_shallow name src_name field_names shallow =>
    exact Add_from_preserves P hassign ops s name src_name field_names false h
  | Add_srcName name src_name field_names =>
    exact Add_from_preserves P hassign ops s name src_name field_names false h
  | AddShallow_srcName name src_name field_names =>
    exact Add_from_preserves P hassign ops s name src_name field_names true h
  | Add_srcName_only name src_name =>
    exact Add_from_preserves P hassign ops s name src_name [] false h
  | AddShallow_srcName_only name src_name =>
    exact Add_from_preserves P hassign ops s name src_name [] true h
  | Add_fields_shallow name field_names shallow =>
    exact Add_from_preserves P hassign ops s name "base" field_names false h
  | Add_fields name field_names =>
    exact Add_from_preserves P hassign ops s name "base" field_names false h
  | AddShallow_fields name field_names =>
    exact Add_from_preserves P hassign ops s name "base" field_names true h
  | Get_base =>
    show P (parthenon.Get_base s).2.dc.containers_
    unfold parthenon.Get_base
    cases StdMap.find s.dc.containers_ "base" <;> exact h
  | Get label =>
    show P (parthenon.Get s label).2.dc.containers_
    unfold parthenon.Get
    cases StdMap.find s.dc.containers_ label <;> exact h
  | Set name d => exact hassign _ name d h
  | GetOrAddByPartition mbd_label partition_id =>
    exact GetOrAddByPartition_preserves P hassign ops s mbd_label partition_id h
  | PurgeNonBase => exact hpurge _ h

theorem runAll_preserves {T : Type} (P : Containers → Prop)
    (hassign : ∀ m k v, P m → P (StdMap.assign m k v))
    (hpurge : ∀ m, P m → P (PurgeNonBase_loop m)) (ops : ContainerOps T) (calls : List Op)
    (s : State T) (h : P s.dc.containers_) : P (runAll ops s calls).dc.containers_ := by
  induction calls generalizing s with
  | nil => exact h
  | cons op rest ih =>
    unfold runAll
    rw [List.foldl_cons]
    exact ih _ (run_preserves P hassign hpurge ops s op h)

theorem PurgeNonBase_loop_contains_base (m : Containers)
    (h : StdMap.contains m "base" = true) :
    StdMap.contains (PurgeNonBase_loop m) "base" = true := by
  unfold StdMap.contains at h ⊢
  rw [PurgeNonBase_loop_find_base]
  exact h

/-- C9 (the "base" invariant): the map of a newly constructed collection is the single
entry "base", pointing to the newly made container; every operation (`SetMeshPointer`, the
full `Add`, each `Add` and `AddShallow` overload, `Get`, `Set`, `GetOrAddByPartition`,
`PurgeNonBase`), whether it returns or raises a failure, leaves a map with an entry under
"base" when it started from one; hence the map has the key "base" in every state reached
from construction by any sequence of these operations. -/
theorem base_invariant {T : Type} (ops : ContainerOps T) :
    (∀ heap : Heap T,
      Stages (DataCollection.new ops heap) = [("base", some heap.length)] ∧
      deref (DataCollection.new ops heap).heap (some heap.length) = some ops.default) ∧
    (∀ (s : State T) (op : Op), StdMap.contains s.dc.containers_ "base" = true →
      StdMap.contains (Op.run ops s op).dc.containers_ "base" = true) ∧
    (∀ (heap : Heap T) (calls : List Op),
      StdMap.contains (runAll ops (DataCollection.new ops heap) calls).dc.containers_ "base"
        = true) := by
  refine ⟨?_, ?_, ?_⟩
  · intro heap
    exact ⟨rfl, (deref_fresh heap ops.default).2⟩
  · intro s op h
    exact run_preserves (fun m => StdMap.contains m "base" = true)
      (fun m k v hm => StdMap.contains_assign m k v "base" hm)
      PurgeNonBase_loop_contains_base ops s op h
  · intro heap calls
    exact runAll_preserves (fun m => StdMap.contains m "base" = true)
      (fun m k v hm => StdMap.contains_assign m k v "base" hm)
      PurgeNonBase_loop_contains_base ops calls _ rfl

/-! ## Well-formed maps and `PurgeNonBase` -/

theorem keyLt_irrefl (a : String) : ¬ keyLt a a := by
  unfold keyLt
  exact lt_irrefl _

theorem keyLt_trans {a b c : String} (hab : keyLt a b) (hbc : keyLt b c) : keyLt a c := by
  unfold keyLt at *
  exact lt_trans hab hbc

theorem keyLt_of_not_lt_of_ne {a b : String} (h1 : ¬ keyLt a b) (h2 : ¬ b = a) :
    keyLt b a := by
  unfold keyLt at *
  rcases lt_trichotomy a.toList b.toList with h | h | h
  · exact absurd h h1
  · exact absurd (String.ext h).symm h2
  · exact h

theorem StdMap.keys_assign (m : Containers) (k : String) (v : Ptr) (x : String)
    (hx : x ∈ (StdMap.assign m k v).map Prod.fst) : x = k ∨ x ∈ m.map Prod.fst := by
  induction m with
  | nil =>
    simp [StdMap.assign] at hx
    exact Or.inl hx
  | cons e rest ih =>
    obtain ⟨k1, v1⟩ := e
    by_cases h1 : keyLt k k1
    · simp only [StdMap.assign, h1, if_true, List.map_cons, List.mem_cons] at hx
      rcases hx with hx | hx | hx
      · exact Or.inl hx
      · exact Or.inr (by simp [hx])
      · exact Or.inr (by simp [hx])
    · by_cases h2 : k1 = k
      · subst h2
        simp only [StdMap.assign, h1, if_true, if_false, List.map_cons,
          List.mem_cons] at hx
        rcases hx with hx | hx
        · exact Or.inl hx
        · exact Or.inr (by simp [hx])
      · simp only [StdMap.assign, h1, h2, if_false, List.map_cons, List.mem_cons] at hx
        rcases hx with hx | hx
        · exact Or.inr (by simp [hx])
        · rcases ih hx with h | h
          · exact Or.inl h
          · exact Or.inr (by simp [h])

/-- An assignment keeps the keys strictly ascending. -/
theorem StdMap.assign_WF (m : Containers) (k : String) (v : Ptr) (h : StdMap.WF m) :
    StdMap.WF (StdMap.assign m k v) := by
  induction m with
  | nil => simp [StdMap.assign, StdMap.WF]
  | cons e rest ih =>
    obtain ⟨k1, v1⟩ := e
    have hw : (∀ x ∈ rest.map Prod.fst, keyLt k1 x) ∧ StdMap.WF rest := by
      simpa [StdMap.WF] using h
    by_cases h1 : keyLt k k1
    · simp only [StdMap.assign, h1, if_true, StdMap.WF, List.map_cons, List.pairwise_cons]
      refine ⟨?_, ?_, hw.2⟩
      · intro x hx
        rcases List.mem_cons.mp hx with hx | hx
        · rw [hx]
          exact h1
        · exact keyLt_trans h1 (hw.1 x hx)
      · exact hw.1
    · by_cases h2 : k1 = k
      · subst h2
        simp only [StdMap.assign, h1, if_true, if_false, StdMap.WF, List.map_cons,
          List.pairwise_cons]
        exact ⟨hw.1, hw.2⟩
      · simp only [StdMap.assign, h1, h2, if_false, StdMap.WF, List.map_cons,
          List.pairwise_cons]
        refine ⟨?_, ih hw.2⟩
        intro x hx
        rcases StdMap.keys_assign rest k v x hx with hx | hx
        · rw [hx]
          exact keyLt_of_not_lt_of_ne h1 h2
        · exact hw.1 x hx

theorem PurgeNonBase_loop_keys (m : Containers) (x : String)
    (hx : x ∈ (PurgeNonBase_loop m).map Prod.fst) : x ∈ m.map Prod.fst := by
  induction m with
  | nil => simp [PurgeNonBase_loop] at hx
  | cons e rest ih =>
    obtain ⟨k, v⟩ := e
    by_cases hk : k = "base"
    · simp only [PurgeNonBase_loop, hk, ne_eq, not_true_eq_false, if_false, List.map_cons,
        List.mem_cons] at hx
      rcases hx with hx | hx
      · simp [hx, hk]
      · simp [ih hx]
    · simp only [PurgeNonBase_loop, hk, ne_eq, not_false_eq_true, if_true] at hx
      simp [ih hx]

/-- The purge keeps the keys strictly ascending. -/
theorem PurgeNonBase_loop_WF (m : Containers) (h : StdMap.WF m) :
    StdMap.WF (PurgeNonBase_loop m) := by
  induction m with
  | nil => simp [PurgeNonBase_loop, StdMap.WF]
  | cons e rest ih =>
    obtain ⟨k, v⟩ := e
    have hw : (∀ x ∈ rest.map Prod.fst, keyLt k x) ∧ StdMap.WF rest := by
      simpa [StdMap.WF] using h
    by_cases hk : k = "base"
    · simp only [PurgeNonBase_loop, hk, ne_eq, not_true_eq_false, if_false, StdMap.WF,
        List.map_cons, List.pairwise_cons]
      refine ⟨?_, ih hw.2⟩
      intro x hx
      rw [← hk]
      exact hw.1 x (PurgeNonBase_loop_keys rest x hx)
    · simp only [PurgeNonBase_loop, hk, ne_eq, not_false_eq_true, if_true]
      exact ih hw.2

/-- The map of every state reached from construction has strictly ascending keys. -/
theorem reachable_WF {T : Type} (ops : ContainerOps T) (heap : Heap T) (calls : List Op) :
    StdMap.WF (runAll ops (DataCollection.new ops heap) calls).dc.containers_ :=
  runAll_preserves StdMap.WF StdMap.assign_WF PurgeNonBase_loop_WF ops calls _
    (by simp [DataCollection.new, make_shared, StdMap.assign, StdMap.WF])

theorem PurgeNonBase_loop_of_no_base (m : Containers)
    (h : ∀ x ∈ m.map Prod.fst, x ≠ "base") : PurgeNonBase_loop m = [] := by
  induction m with
  | nil => rfl
  | cons e rest ih =>
    obtain ⟨k, v⟩ := e
    have hk : k ≠ "base" := h k (by simp)
    simp only [PurgeNonBase_loop, hk, ne_eq, not_false_eq_true, if_true]
    exact ih (fun x hx => h x (by simp [hx]))

theorem PurgeNonBase_loop_of_base (m : Containers) (p : Ptr) (hwf : StdMap.WF m)
    (hbase : StdMap.find m "base" = some p) : PurgeNonBase_loop m = [("base", p)] := by
  induction m with
  | nil => simp [StdMap.find] at hbase
  | cons e rest ih =>
    obtain ⟨k, v⟩ := e
    have hw : (∀ x ∈ rest.map Prod.fst, keyLt k x) ∧ StdMap.WF rest := by
      simpa [StdMap.WF] using hwf
    by_cases hk : k = "base"
    · subst hk
      simp only [StdMap.find, if_true, Option.some.injEq] at hbase
      subst hbase
      have hrest : PurgeNonBase_loop rest = [] :=
        PurgeNonBase_loop_of_no_base rest (fun x hx hxb => by
          have hlt := hw.1 x hx
          rw [hxb] at hlt
          exact keyLt_irrefl _ hlt)
      simp [PurgeNonBase_loop, hrest]
    · simp only [StdMap.find, hk, if_false] at hbase
      simp only [PurgeNonBase_loop, hk, ne_eq, not_false_eq_true, if_true]
      exact ih hw.2 hbase

theorem PurgeNonBase_loop_idem (m : Containers) :
    PurgeNonBase_loop (PurgeNonBase_loop m) = PurgeNonBase_loop m := by
  induction m with
  | nil => rfl
  | cons e rest ih =>
    obtain ⟨k, v⟩ := e
    by_cases hk : k = "base"
    · simp [PurgeNonBase_loop, hk, ih]
    · simp [PurgeNonBase_loop, hk, ih]

/-- C10 (PurgeNonBase): for a collection whose map (keys strictly ascending, as in every
`std::map`) stores `p` under "base", however many other entries it holds, `Stages()` after
`PurgeNonBase()` is exactly the one entry "base", still pointing to `p`; the store and the
mesh pointer are untouched; and purging twice equals purging once. -/
theorem PurgeNonBase_only_base {T : Type} (s : State T) (p : Ptr)
    (hwf : StdMap.WF s.dc.containers_)
    (hbase : StdMap.find s.dc.containers_ "base" = some p) :
    Stages (PurgeNonBase s) = [("base", p)] ∧
    (Stages (PurgeNonBase s)).length = 1 ∧
    (PurgeNonBase s).heap = s.heap ∧
    (PurgeNonBase s).dc.pmy_mesh_ = s.dc.pmy_mesh_ ∧
    PurgeNonBase (PurgeNonBase s) = PurgeNonBase s := by
  have h1 : Stages (PurgeNonBase s) = [("base", p)] :=
    PurgeNonBase_loop_of_base s.dc.containers_ p hwf hbase
  refine ⟨h1, by rw [h1]; rfl, rfl, rfl, ?_⟩
  simp [PurgeNonBase, PurgeNonBase_loop_idem]

theorem PurgeNonBase_only_base_witness :
    Stages (PurgeNonBase sampleStateS2) = [("base", some 0)] ∧
    (Stages (PurgeNonBase sampleStateS2)).length = 1 ∧
    (PurgeNonBase sampleStateS2).heap = sampleStateS2.heap ∧
    (PurgeNonBase sampleStateS2).dc.pmy_mesh_ = sampleStateS2.dc.pmy_mesh_ ∧
    PurgeNonBase (PurgeNonBase sampleStateS2) = PurgeNonBase sampleStateS2 :=
  PurgeNonBase_only_base sampleStateS2 (some 0) (by decide) (by decide)

/-! ## The partition cache: hits -/

theorem StdMap.find_subscript (m : Containers) (k : String) :
    StdMap.find (StdMap.subscript m k).1 k = some (StdMap.subscript m k).2 := by
  unfold StdMap.subscript
  cases h : StdMap.find m k with
  | some v => exact h
  | none => exact StdMap.find_assign_same m k none

theorem GetOrAddByPartition_of_hit {T : Type} (ops : ContainerOps T) (s : State T)
    (mbd_label : String) (partition_id : Int) (p : Ptr)
    (hhit : StdMap.find s.dc.containers_ (mbd_label ++ "_part-" ++ toString partition_id)
      = some p) :
    GetOrAddByPartition ops s mbd_label partition_id = (.ok p, s) := by
  simp [GetOrAddByPartition, hhit, StdMap.subscript]

theorem GetOrAddByPartition_of_miss {T : Type} (ops : ContainerOps T) (s : State T)
    (mbd_label : String) (partition_id : Int) (mesh : Mesh)
    (hmiss : StdMap.find s.dc.containers_ (mbd_label ++ "_part-" ++ toString partition_id)
      = none)
    (hmesh : s.dc.pmy_mesh_ = some mesh) :
    GetOrAddByPartition ops s mbd_label partition_id =
      (.ok (StdMap.subscript
          ((ToSizeN mesh.block_list mesh.DefaultPackSize).enum.foldl
            (GetOrAddByPartition_step ops mbd_label) (s.heap, s.dc.containers_)).2
          (mbd_label ++ "_part-" ++ toString partition_id)).2,
        { heap := ((ToSizeN mesh.block_list mesh.DefaultPackSize).enum.foldl
            (GetOrAddByPartition_step ops mbd_label) (s.heap, s.dc.containers_)).1
          dc := { pmy_mesh_ := some mesh
                  containers_ := (StdMap.subscript
                    ((ToSizeN mesh.block_list mesh.DefaultPackSize).enum.foldl
                      (GetOrAddByPartition_step ops mbd_label) (s.heap, s.dc.containers_)).2
                    (mbd_label ++ "_part-" ++ toString partition_id)).1 } }) := by
  simp [GetOrAddByPartition, hmiss, hmesh]

/-- C12 (partition cache hit): when the map stores `p` under the key
`label + "_part-" + k`, `GetOrAddByPartition(label, k)` returns exactly `p` and leaves the
state (map, store and mesh) unchanged; and whenever a call with some `label` and `k`
returns a pointer `r`, the same call repeated on the state it left returns the same `r` and
changes nothing. -/
theorem GetOrAddByPartition_cache_hit {T : Type} (ops : ContainerOps T) (s : State T)
    (mbd_label : String) (partition_id : Int) (p : Ptr)
    (hhit : StdMap.find s.dc.containers_ (mbd_label ++ "_part-" ++ toString partition_id)
      = some p) :
    GetOrAddByPartition ops s mbd_label partition_id = (.ok p, s) ∧
    (GetOrAddByPartition ops s mbd_label partition_id).2.dc.containers_ = s.dc.containers_ ∧
    (∀ (s0 s1 : State T) (r : Ptr),
      GetOrAddByPartition ops s0 mbd_label partition_id = (.ok r, s1) →
      GetOrAddByPartition ops s1 mbd_label partition_id = (.ok r, s1)) := by
  have hit := GetOrAddByPartition_of_hit ops s mbd_label partition_id p hhit
  refine ⟨hit, by rw [hit], ?_⟩
  intro s0 s1 r hfirst
  apply GetOrAddByPartition_of_hit
  cases hf : StdMap.find s0.dc.containers_
      (mbd_label ++ "_part-" ++ toString partition_id) with
  | some q =>
    rw [GetOrAddByPartition_of_hit ops s0 mbd_label partition_id q hf] at hfirst
    simp only [Prod.mk.injEq, Except.ok.injEq] at hfirst
    obtain ⟨hq, hs⟩ := hfirst
    subst hq
    subst hs
    exact hf
  | none =>
    cases hp : s0.dc.pmy_mesh_ with
    | none =>
      have hnull : GetOrAddByPartition ops s0 mbd_label partition_id
          = (.error .null_dereference, s0) := by
        simp [GetOrAddByPartition, hf, hp]
      rw [hnull] at hfirst
      simp at hfirst
    | some mesh =>
      rw [GetOrAddByPartition_of_miss ops s0 mbd_label partition_id mesh hf hp] at hfirst
      simp only [Prod.mk.injEq, Except.ok.injEq] at hfirst
      obtain ⟨hq, hs⟩ := hfirst
      subst hq
      subst hs
      exact StdMap.find_subscript _ _

theorem GetOrAddByPartition_cache_hit_witness :
    GetOrAddByPartition (fieldListOps true) samplePartState "base" 1
      = (.ok (some 3), samplePartState) ∧
    (GetOrAddByPartition (fieldListOps true) samplePartState "base" 1).2.dc.containers_
      = samplePartState.dc.containers_ ∧
    (∀ (s0 s1 : State FieldList) (r : Ptr),
      GetOrAddByPartition (fieldListOps true) s0 "base" 1 = (.ok r, s1) →
      GetOrAddByPartition (fieldListOps true) s1 "base" 1 = (.ok r, s1)) :=
  GetOrAddByPartition_cache_hit (fieldListOps true) samplePartState "base" 1 (some 3)
    (by decide)

/-! ## The mesh-wide `Add`: propagation to the blocks -/

theorem Add_blocks_length {T : Type} (ops : ContainerOps T) (c : T) (name : String)
    (block_list : List MeshBlock) :
    (Add_blocks ops c name block_list).length = block_list.length := by
  simp [Add_blocks]

theorem Add_blocks_getElem? {T : Type} (ops : ContainerOps T) (c : T) (name : String)
    (block_list : List MeshBlock) (b : Nat) :
    (Add_blocks ops c name block_list)[b]? =
      (block_list[b]?).map (fun blk =>
        { blk with meshblock_data :=
            StdMap.assign blk.meshblock_data name (ops.GetBlockData c b) }) := by
  simp [Add_blocks, List.getElem?_mapIdx]

/-- C13 (mesh-wide propagation): in a mesh-wide collection whose mesh pointer is set and
whose map has no entry under `name`, `Add(name, src, fields, shallow)` returns the new
container `c` and leaves a mesh with the same number of blocks in which, for every index
`b` of the block list, block `b` stores under `name` the block data `GetBlockData(b)` of the
new container and stores under every other name what it stored before. -/
theorem Add_propagates_to_blocks {T : Type} (ops : ContainerOps T) (s : State T)
    (name : String) (src : Ptr) (field_names : List String) (shallow : Bool) (mesh : Mesh)
    (hT : ops.is_MeshData = true)
    (hmesh : s.dc.pmy_mesh_ = some mesh)
    (hnew : StdMap.find s.dc.containers_ name = none) :
    ∃ (s1 : State T) (mesh1 : Mesh) (cval : T),
      Add ops s name src field_names shallow = (.ok (some s.heap.length), s1) ∧
      deref s1.heap (some s.heap.length) = some cval ∧
      s1.dc.pmy_mesh_ = some mesh1 ∧
      mesh1.DefaultPackSize = mesh.DefaultPackSize ∧
      mesh1.block_list.length = mesh.block_list.length ∧
      ∀ (b : Nat) (blk : MeshBlock), mesh.block_list[b]? = some blk →
        ∃ blk1, mesh1.block_list[b]? = some blk1 ∧
          StdMap.find blk1.meshblock_data name = some (ops.GetBlockData cval b) ∧
          ∀ other, other ≠ name →
            StdMap.find blk1.meshblock_data other = StdMap.find blk.meshblock_data other := by
  have hm : ops.is_MeshData = true → s.dc.pmy_mesh_ ≠ none := by
    intro _
    rw [hmesh]
    simp
  refine ⟨_, Mesh.mk (Add_blocks ops
      (ops.Initialize ops.default (deref s.heap src) field_names shallow) name
      mesh.block_list) mesh.DefaultPackSize,
    ops.Initialize ops.default (deref s.heap src) field_names shallow,
    Add_of_absent ops s name src field_names shallow hnew hm, (deref_fresh s.heap _).2, ?_,
    rfl, Add_blocks_length _ _ _ _, ?_⟩
  · simp [Add_post, hT, hmesh]
  · intro b blk hb
    refine ⟨_, ?_, StdMap.find_assign_same blk.meshblock_data name _, ?_⟩
    · show (Add_blocks ops _ name mesh.block_list)[b]? = _
      rw [Add_blocks_getElem?, hb]
      rfl
    · intro other hne
      exact StdMap.find_assign_other _ _ _ other hne

theorem Add_propagates_to_blocks_witness :
    ∃ (s1 : State FieldList) (mesh1 : Mesh) (cval : FieldList),
      Add (fieldListOps true) sampleMeshState "s2" (some 0) ["B"] true
        = (.ok (some sampleMeshState.heap.length), s1) ∧
      deref s1.heap (some sampleMeshState.heap.length) = some cval ∧
      s1.dc.pmy_mesh_ = some mesh1 ∧
      mesh1.DefaultPackSize = sampleMesh.DefaultPackSize ∧
      mesh1.block_list.length = sampleMesh.block_list.length ∧
      ∀ (b : Nat) (blk : MeshBlock), sampleMesh.block_list[b]? = some blk →
        ∃ blk1, mesh1.block_list[b]? = some blk1 ∧
          StdMap.find blk1.meshblock_data "s2" = some ((fieldListOps true).GetBlockData cval b) ∧
          ∀ other, other ≠ "s2" →
            StdMap.find blk1.meshblock_data other = StdMap.find blk.meshblock_data other :=
  Add_propagates_to_blocks (fieldListOps true) sampleMeshState "s2" (some 0) ["B"] true
    sampleMesh (by decide) (by decide) (by decide)

/-! ## The partition cache: keys and chunks -/

theorem decodeDigits_append (pre : List Char) (c : Char) :
    decodeDigits (pre ++ [c]) = decodeDigits pre * 10 + (c.toNat - 48) := by
  simp [decodeDigits, List.foldl_append]

theorem digitChar_decode (d : Nat) (h : d < 10) : (Nat.digitChar d).toNat - 48 = d := by
  interval_cases d <;> rfl

theorem toDigitsCore_decode (fuel : Nat) :
    ∀ (n : Nat) (ds : List Char), n < fuel →
      ∃ pre, Nat.toDigitsCore 10 fuel n ds = pre ++ ds ∧ decodeDigits pre = n := by
  induction fuel with
  | zero => intro n ds h; omega
  | succ fuel ih =>
    intro n ds h
    by_cases h0 : n / 10 = 0
    · refine ⟨[Nat.digitChar (n % 10)], ?_, ?_⟩
      · simp [Nat.toDigitsCore, h0]
      · have hn : n < 10 := by omega
        simp [decodeDigits, digitChar_decode (n % 10) (Nat.mod_lt _ (by norm_num))]
        omega
    · have hlt : n / 10 < fuel := by omega
      obtain ⟨pre, hpre, hdec⟩ := ih (n / 10) (Nat.digitChar (n % 10) :: ds) hlt
      refine ⟨pre ++ [Nat.digitChar (n % 10)], ?_, ?_⟩
      · simp [Nat.toDigitsCore, h0, hpre]
      · rw [decodeDigits_append, hdec, digitChar_decode (n % 10) (Nat.mod_lt _ (by norm_num))]
        omega

theorem toString_nat_injective (i j : Nat) (h : toString i = toString j) : i = j := by
  have hi := toDigitsCore_decode (i + 1) i [] (by omega)
  have hj := toDigitsCore_decode (j + 1) j [] (by omega)
  obtain ⟨pi, hpi, hdi⟩ := hi
  obtain ⟨pj, hpj, hdj⟩ := hj
  have hdata : (toString i).data = (toString j).data := by rw [h]
  have e1 : (toString i).data = pi := by
    show (Nat.toDigits 10 i).asString.data = pi
    simp [Nat.toDigits, hpi, List.asString]
  have e2 : (toString j).data = pj := by
    show (Nat.toDigits 10 j).asString.data = pj
    simp [Nat.toDigits, hpj, List.asString]
  rw [e1, e2] at hdata
  rw [← hdi, ← hdj, hdata]

theorem partLabel_injective (label : String) (i j : Nat)
    (h : label ++ "_part-" ++ toString i = label ++ "_part-" ++ toString j) : i = j := by
  apply toString_nat_injective
  have hd := congrArg String.data h
  simp only [String.data_append, List.append_cancel_left_eq] at hd
  exact String.ext hd

theorem ToSizeN_length {α : Type} (container : List α) (N : Nat) :
    (ToSizeN container N).length = (container.length + N - 1) / N := by
  simp [ToSizeN]

theorem ToSizeN_getElem? {α : Type} (container : List α) (N i : Nat)
    (hi : i < (container.length + N - 1) / N) :
    (ToSizeN container N)[i]? = some ((container.drop (i * N)).take N) := by
  simp [ToSizeN, List.getElem?_map, List.getElem?_range hi]

theorem ToSizeN_pos_of_lt {M N i : Nat} (hi : i < (M + N - 1) / N) : 0 < N := by
  rcases Nat.eq_zero_or_pos N with h | h
  · subst h
    simp at hi
  · exact h

theorem ToSizeN_start_lt {α : Type} (container : List α) (N i : Nat)
    (hi : i < (container.length + N - 1) / N) : i * N < container.length := by
  have hN : 0 < N := ToSizeN_pos_of_lt hi
  have h1 : (i + 1) * N ≤ (container.length + N - 1) / N * N := Nat.mul_le_mul_right N hi
  have h2 : (container.length + N - 1) / N * N ≤ container.length + N - 1 :=
    Nat.div_mul_le_self _ _
  have h3 : (i + 1) * N = i * N + N := Nat.succ_mul i N
  omega

theorem ToSizeN_chunk_length {α : Type} (container : List α) (N i : Nat)
    (hi : i < (container.length + N - 1) / N) :
    1 ≤ ((container.drop (i * N)).take N).length ∧
    ((container.drop (i * N)).take N).length ≤ N ∧
    ((container.drop (i * N)).take N).length = min N (container.length - i * N) := by
  have hlt := ToSizeN_start_lt container N i hi
  have hN : 0 < N := ToSizeN_pos_of_lt hi
  refine ⟨?_, ?_, ?_⟩
  · rw [List.length_take, List.length_drop]
    apply Nat.le_min.mpr
    constructor <;> omega
  · rw [List.length_take]
    exact Nat.min_le_left _ _
  · rw [List.length_take, List.length_drop]

theorem ToSizeN_count_of_rem {M N : Nat} (hN : 0 < N) (hrem : M % N ≠ 0) :
    (M + N - 1) / N = M / N + 1 := by
  have hdm := Nat.div_add_mod M N
  have hmod := Nat.mod_lt M hN
  have hcomm : N * (M / N) = M / N * N := Nat.mul_comm _ _
  apply Nat.div_eq_of_lt_le
  · have : (M / N + 1) * N = M / N * N + N := Nat.succ_mul _ _
    omega
  · have : (M / N + 1 + 1) * N = M / N * N + N + N := by
      rw [Nat.succ_mul, Nat.succ_mul]
    omega

theorem ToSizeN_last_length {α : Type} (container : List α) (N : Nat) (hN : 0 < N)
    (hrem : container.length % N ≠ 0) :
    ((container.drop (((container.length + N - 1) / N - 1) * N)).take N).length
      = container.length % N := by
  rw [ToSizeN_count_of_rem hN hrem]
  have hdm := Nat.div_add_mod container.length N
  have hmod := Nat.mod_lt container.length hN
  have hcomm : N * (container.length / N) = container.length / N * N := Nat.mul_comm _ _
  simp only [Nat.add_sub_cancel, List.length_take, List.length_drop]
  have hsub : container.length - container.length / N * N = container.length % N := by omega
  rw [hsub]
  exact Nat.min_eq_right (Nat.le_of_lt hmod)

theorem ToSizeN_flatten_aux {α : Type} (container : List α) (N m : Nat) :
    ((List.range m).map (fun i => (container.drop (i * N)).take N)).flatten
      = container.take (m * N) := by
  induction m with
  | zero => simp
  | succ m ih =>
    rw [List.range_succ, List.map_append, List.flatten_append, ih, Nat.succ_mul,
      List.take_add]
    simp

theorem ToSizeN_flatten {α : Type} (container : List α) (N : Nat) (hN : 1 ≤ N) :
    (ToSizeN container N).flatten = container := by
  unfold ToSizeN
  rw [ToSizeN_flatten_aux]
  apply List.take_of_length_le
  have hdm := Nat.div_add_mod (container.length + N - 1) N
  have hmod := Nat.mod_lt (container.length + N - 1) hN
  have hcomm : N * ((container.length + N - 1) / N) = (container.length + N - 1) / N * N :=
    Nat.mul_comm _ _
  omega

theorem StdMap.find_subscript_of_some (m : Containers) (k k2 : String) (v : Ptr)
    (h : StdMap.find m k2 = some v) : StdMap.find (StdMap.subscript m k).1 k2 = some v := by
  by_cases hk : k2 = k
  · subst hk
    rw [StdMap.subscript_of_find h]
    exact h
  · unfold StdMap.subscript
    cases StdMap.find m k with
    | some w => exact h
    | none =>
      show StdMap.find (StdMap.assign m k none) k2 = some v
      rw [StdMap.find_assign_other m k none k2 hk]
      exact h

theorem StdMap.find_subscript_other (m : Containers) (k k2 : String) (hk : k2 ≠ k) :
    StdMap.find (StdMap.subscript m k).1 k2 = StdMap.find m k2 := by
  unfold StdMap.subscript
  cases StdMap.find m k with
  | some w => rfl
  | none => exact StdMap.find_assign_other m k none k2 hk

/-- The loop of `GetOrAddByPartition` over the partitions numbered from `n0`: the store
grows by one container per partition, partition `n0 + i` is registered under its key, and
no other key is touched. -/
theorem GetOrAddByPartition_fold_spec {T : Type} (ops : ContainerOps T) (mbd_label : String)
    (l : List (List MeshBlock)) :
    ∀ (n0 : Nat) (acc : Heap T × Containers),
      ((l.enumFrom n0).foldl (GetOrAddByPartition_step ops mbd_label) acc).1
        = acc.1 ++ l.map (fun chunk => ops.Set ops.default chunk mbd_label) ∧
      (∀ i, i < l.length →
        StdMap.find ((l.enumFrom n0).foldl (GetOrAddByPartition_step ops mbd_label) acc).2
          (mbd_label ++ "_part-" ++ toString (n0 + i)) = some (some (acc.1.length + i))) ∧
      (∀ key, (∀ i, i < l.length → key ≠ mbd_label ++ "_part-" ++ toString (n0 + i)) →
        StdMap.find ((l.enumFrom n0).foldl (GetOrAddByPartition_step ops mbd_label) acc).2 key
          = StdMap.find acc.2 key) := by
  induction l with
  | nil =>
    intro n0 acc
    simp
  | cons chunk rest ih =>
    intro n0 acc
    rw [List.enumFrom_cons, List.foldl_cons]
    obtain ⟨ih1, ih2, ih3⟩ := ih (n0 + 1)
      (GetOrAddByPartition_step ops mbd_label acc (n0, chunk))
    have hstep1 : (GetOrAddByPartition_step ops mbd_label acc (n0, chunk)).1
        = acc.1 ++ [ops.Set ops.default chunk mbd_label] := rfl
    have hstep2 : (GetOrAddByPartition_step ops mbd_label acc (n0, chunk)).2
        = StdMap.assign acc.2 (mbd_label ++ "_part-" ++ toString n0) (some acc.1.length) := rfl
    refine ⟨?_, ?_, ?_⟩
    · rw [ih1, hstep1]
      simp
    · intro i hi
      cases i with
      | zero =>
        rw [ih3, hstep2]
        · exact StdMap.find_assign_same _ _ _
        · intro i _ heq
          have := partLabel_injective mbd_label _ _ heq
          omega
      | succ i =>
        have hi2 : i < rest.length := by
          simp only [List.length_cons] at hi
          omega
        have h := ih2 i hi2
        rw [hstep1] at h
        have e1 : n0 + 1 + i = n0 + (i + 1) := by omega
        have e2 : (acc.1 ++ [ops.Set ops.default chunk mbd_label]).length + i
            = acc.1.length + (i + 1) := by
          simp only [List.length_append, List.length_singleton]
          omega
        rw [e1, e2] at h
        exact h
    · intro key hkey
      rw [ih3, hstep2]
      · apply StdMap.find_assign_other
        have := hkey 0 (by simp)
        simpa using this
      · intro i hi
        have := hkey (i + 1) (by simp only [List.length_cons]; omega)
        have e1 : n0 + 1 + i = n0 + (i + 1) := by omega
        rw [e1]
        exact this

/-- C11 (partition completeness): for a mesh with `N` blocks and default pack size
`P >= 1`, a call `GetOrAddByPartition(label, k)` that misses the cache returns and leaves,
in that one call, all `ceil(N/P) = (N + P - 1) / P` partitions: for every
`i < ceil(N/P)` the key `label + "_part-" + i` points to a container newly made in this
call (at the address `heap.length + i`, not in use before), bound by `Set` to the chunk
`i` of the block list and sourced from `label`; the chunk has between 1 and `P` blocks;
the last chunk has `N mod P` blocks when that is not zero; the chunks concatenated in the
order of `i` are the block list; containers that existed before are unchanged; a key that
is neither one of these nor the requested one stores what it stored before; and when `k`
is one of `0 .. ceil(N/P) - 1` the call returns partition `k` and the keys of the
partitions are the only ones changed. -/
theorem GetOrAddByPartition_materializes {T : Type} (ops : ContainerOps T) (s : State T)
    (mbd_label : String) (partition_id : Int) (mesh : Mesh)
    (hmiss : StdMap.find s.dc.containers_ (mbd_label ++ "_part-" ++ toString partition_id)
      = none)
    (hmesh : s.dc.pmy_mesh_ = some mesh)
    (hP : 1 ≤ mesh.DefaultPackSize) :
    ∃ (r : Ptr) (s1 : State T),
      GetOrAddByPartition ops s mbd_label partition_id = (.ok r, s1) ∧
      (ToSizeN mesh.block_list mesh.DefaultPackSize).length
        = (mesh.block_list.length + mesh.DefaultPackSize - 1) / mesh.DefaultPackSize ∧
      (∀ i, i < (mesh.block_list.length + mesh.DefaultPackSize - 1) / mesh.DefaultPackSize →
        ∃ chunk : List MeshBlock,
          (ToSizeN mesh.block_list mesh.DefaultPackSize)[i]? = some chunk ∧
          chunk = (mesh.block_list.drop (i * mesh.DefaultPackSize)).take mesh.DefaultPackSize ∧
          1 ≤ chunk.length ∧ chunk.length ≤ mesh.DefaultPackSize ∧
          StdMap.find s1.dc.containers_ (mbd_label ++ "_part-" ++ toString i)
            = some (some (s.heap.length + i)) ∧
          deref s.heap (some (s.heap.length + i)) = none ∧
          deref s1.heap (some (s.heap.length + i))
            = some (ops.Set ops.default chunk mbd_label)) ∧
      (mesh.block_list.length % mesh.DefaultPackSize ≠ 0 →
        ∃ last : List MeshBlock,
          (ToSizeN mesh.block_list mesh.DefaultPackSize)[
            (mesh.block_list.length + mesh.DefaultPackSize - 1) / mesh.DefaultPackSize - 1]?
            = some last ∧
          last.length = mesh.block_list.length % mesh.DefaultPackSize) ∧
      (ToSizeN mesh.block_list mesh.DefaultPackSize).flatten = mesh.block_list ∧
      (∀ q t, deref s.heap q = some t → deref s1.heap q = some t) ∧
      (∀ key,
        (∀ i, i < (mesh.block_list.length + mesh.DefaultPackSize - 1) / mesh.DefaultPackSize →
          key ≠ mbd_label ++ "_part-" ++ toString i) →
        key ≠ mbd_label ++ "_part-" ++ toString partition_id →
        StdMap.find s1.dc.containers_ key = StdMap.find s.dc.containers_ key) ∧
      (∀ k : Nat, partition_id = (k : Int) →
        k < (mesh.block_list.length + mesh.DefaultPackSize - 1) / mesh.DefaultPackSize →
        r = some (s.heap.length + k) ∧
        ∀ key,
          (∀ i, i < (mesh.block_list.length + mesh.DefaultPackSize - 1) / mesh.DefaultPackSize →
            key ≠ mbd_label ++ "_part-" ++ toString i) →
          StdMap.find s1.dc.containers_ key = StdMap.find s.dc.containers_ key) := by
  have hlen := ToSizeN_length mesh.block_list mesh.DefaultPackSize
  obtain ⟨f1, f2, f3⟩ := GetOrAddByPartition_fold_spec ops mbd_label
    (ToSizeN mesh.block_list mesh.DefaultPackSize) 0 (s.heap, s.dc.containers_)
  rw [hlen] at f2 f3
  simp only [Nat.zero_add] at f2 f3
  refine ⟨_, _, GetOrAddByPartition_of_miss ops s mbd_label partition_id mesh hmiss hmesh,
    hlen, ?_, ?_, ToSizeN_flatten _ _ hP, ?_, ?_, ?_⟩
  · intro i hi
    have hchunk := ToSizeN_getElem? mesh.block_list mesh.DefaultPackSize i hi
    have hcl := ToSizeN_chunk_length mesh.block_list mesh.DefaultPackSize i hi
    refine ⟨_, hchunk, rfl, hcl.1, hcl.2.1, ?_, ?_, ?_⟩
    · exact StdMap.find_subscript_of_some _ _ _ _ (f2 i hi)
    · simp [deref]
    · show deref ((ToSizeN mesh.block_list mesh.DefaultPackSize).enum.foldl
        (GetOrAddByPartition_step ops mbd_label) (s.heap, s.dc.containers_)).1 _ = _
      rw [List.enum, f1]
      simp only [deref, List.get?_eq_getElem?]
      rw [List.getElem?_append_right (Nat.le_add_right _ _), Nat.add_sub_cancel_left,
        List.getElem?_map, hchunk]
      rfl
  · intro hrem
    have hcount := ToSizeN_count_of_rem (Nat.lt_of_lt_of_le Nat.zero_lt_one hP) hrem
    refine ⟨_, ToSizeN_getElem? mesh.block_list mesh.DefaultPackSize _
      (by rw [hcount]; exact Nat.lt_succ_of_le (Nat.le_refl _)), ?_⟩
    exact ToSizeN_last_length mesh.block_list mesh.DefaultPackSize
      (Nat.lt_of_lt_of_le Nat.zero_lt_one hP) hrem
  · intro q t hq
    show deref ((ToSizeN mesh.block_list mesh.DefaultPackSize).enum.foldl
      (GetOrAddByPartition_step ops mbd_label) (s.heap, s.dc.containers_)).1 q = some t
    rw [List.enum, f1]
    cases q with
    | none => simp [deref] at hq
    | some a =>
      simp only [deref, List.get?_eq_getElem?] at hq ⊢
      have hlt : a < s.heap.length := by
        by_contra hge
        rw [List.getElem?_eq_none (Nat.le_of_not_lt hge)] at hq
        cases hq
      rw [List.getElem?_append_left hlt]
      exact hq
  · intro key hkey hne
    show StdMap.find (StdMap.subscript _ _).1 key = _
    rw [StdMap.find_subscript_other _ _ _ hne]
    exact f3 key hkey
  · intro k hk hlt
    subst hk
    have hfound := f2 k hlt
    refine ⟨?_, ?_⟩
    · show (StdMap.subscript _ _).2 = _
      have hsub := StdMap.subscript_of_find hfound
      exact congrArg Prod.snd hsub
    · intro key hkey
      show StdMap.find (StdMap.subscript _ _).1 key = _
      have hne : key ≠ mbd_label ++ "_part-" ++ toString ((k : Nat) : Int) := hkey k hlt
      rw [StdMap.find_subscript_other _ _ _ hne]
      exact f3 key hkey

theorem GetOrAddByPartition_materializes_witness :
    ∃ (r : Ptr) (s1 : State FieldList),
      GetOrAddByPartition (fieldListOps true) sampleOddState "base" (0 : Int) = (.ok r, s1) ∧
      (ToSizeN sampleOddMesh.block_list sampleOddMesh.DefaultPackSize).length
        = (sampleOddMesh.block_list.length + sampleOddMesh.DefaultPackSize - 1)
          / sampleOddMesh.DefaultPackSize ∧
      (∀ i, i < (sampleOddMesh.block_list.length + sampleOddMesh.DefaultPackSize - 1)
          / sampleOddMesh.DefaultPackSize →
        ∃ chunk : List MeshBlock,
          (ToSizeN sampleOddMesh.block_list sampleOddMesh.DefaultPackSize)[i]? = some chunk ∧
          chunk = (sampleOddMesh.block_list.drop (i * sampleOddMesh.DefaultPackSize)).take
            sampleOddMesh.DefaultPackSize ∧
          1 ≤ chunk.length ∧ chunk.length ≤ sampleOddMesh.DefaultPackSize ∧
          StdMap.find s1.dc.containers_ ("base" ++ "_part-" ++ toString i)
            = some (some (sampleOddState.heap.length + i)) ∧
          deref sampleOddState.heap (some (sampleOddState.heap.length + i)) = none ∧
          deref s1.heap (some (sampleOddState.heap.length + i))
            = some ((fieldListOps true).Set (fieldListOps true).default chunk "base")) ∧
      (sampleOddMesh.block_list.length % sampleOddMesh.DefaultPackSize ≠ 0 →
        ∃ last : List MeshBlock,
          (ToSizeN sampleOddMesh.block_list sampleOddMesh.DefaultPackSize)[
            (sampleOddMesh.block_list.length + sampleOddMesh.DefaultPackSize - 1)
          / sampleOddMesh.DefaultPackSize - 1]?
            = some last ∧
          last.length = sampleOddMesh.block_list.length % sampleOddMesh.DefaultPackSize) ∧
      (ToSizeN sampleOddMesh.block_list sampleOddMesh.DefaultPackSize).flatten = sampleOddMesh.block_list ∧
      (∀ q t, deref sampleOddState.heap q = some t → deref s1.heap q = some t) ∧
      (∀ key,
        (∀ i, i < (sampleOddMesh.block_list.length + sampleOddMesh.DefaultPackSize - 1)
          / sampleOddMesh.DefaultPackSize →
          key ≠ "base" ++ "_part-" ++ toString i) →
        key ≠ "base" ++ "_part-" ++ toString (0 : Int) →
        StdMap.find s1.dc.containers_ key = StdMap.find sampleOddState.dc.containers_ key) ∧
      (∀ k : Nat, (0 : Int) = (k : Int) →
        k < (sampleOddMesh.block_list.length + sampleOddMesh.DefaultPackSize - 1)
          / sampleOddMesh.DefaultPackSize →
        r = some (sampleOddState.heap.length + k) ∧
        ∀ key,
          (∀ i, i < (sampleOddMesh.block_list.length + sampleOddMesh.DefaultPackSize - 1)
          / sampleOddMesh.DefaultPackSize →
            key ≠ "base" ++ "_part-" ++ toString i) →
          StdMap.find s1.dc.containers_ key = StdMap.find sampleOddState.dc.containers_ key) :=
  GetOrAddByPartition_materializes (fieldListOps true) sampleOddState "base" 0 sampleOddMesh
    (by decide) (by decide) (by decide)

/-! ## The loops of the update kernels -/

theorem Writes.congr {σ C V S : Type} {rd : σ → C → V} {skel : σ → S} {st2 st1 : σ}
    {W W2 : C → Prop} {f f2 : C → V} (h : Writes rd skel st2 st1 W f)
    (hW : ∀ c, W2 c ↔ W c) (hf : ∀ c, W c → f c = f2 c) : Writes rd skel st2 st1 W2 f2 where
  skel_eq := h.skel_eq
  inside := fun c hc => by rw [h.inside c ((hW c).mp hc), hf c ((hW c).mp hc)]
  outside := fun c hc => h.outside c (fun hc2 => hc ((hW c).mpr hc2))

theorem forRange_prefix_writes {σ C V S : Type} (rd : σ → C → V) (skel : σ → S)
    (s : Int) (body : Int → σ → σ) (Slice : Int → C → Prop) (H : σ → C → V) (st0 : σ)
    (m : Nat)
    (hbody : ∀ x, s ≤ x → x < s + m → ∀ st, skel st = skel st0 →
      Writes rd skel (body x st) st (Slice x) (H st))
    (hdisj : ∀ x y c, s ≤ x → x < s + m → s ≤ y → y < s + m → x ≠ y → Slice x c → ¬ Slice y c)
    (hins : ∀ x, s ≤ x → x < s + m → ∀ st, skel st = skel st0 →
      (∀ c, (∀ y, s ≤ y → y < s + m → y ≠ x → ¬ Slice y c) → rd st c = rd st0 c) →
      ∀ c, Slice x c → H st c = H st0 c) :
    Writes rd skel ((List.range m).foldl (fun st (n : Nat) => body (s + (n : Int)) st) st0) st0
      (fun c => ∃ x, s ≤ x ∧ x < s + m ∧ Slice x c) (H st0) := by
  induction m with
  | zero =>
    refine ⟨rfl, ?_, fun c _ => rfl⟩
    intro c hc
    obtain ⟨x, h1, h2, _⟩ := hc
    simp at h2
    omega
  | succ m ih =>
    have ih2 := ih
      (fun x h1 h2 => hbody x h1 (by push_cast; omega))
      (fun x y c h1 h2 h3 h4 => hdisj x y c h1 (by push_cast; omega) h3 (by push_cast; omega))
      (fun x h1 h2 st hsk hag c hc => by
        apply hins x h1 (by push_cast; omega) st hsk _ c hc
        intro c2 hc2
        apply hag
        intro y hy1 hy2 hne
        exact hc2 y hy1 (by push_cast; omega) hne)
    rw [List.range_succ, List.foldl_append]
    simp only [List.foldl_cons, List.foldl_nil]
    have hx1 : s ≤ s + (m : Int) := by omega
    have hx2 : s + (m : Int) < s + ((m + 1 : Nat) : Int) := by push_cast; omega
    have hb := hbody (s + m) hx1 hx2 _ ih2.skel_eq
    have hagree : ∀ c, (∀ y, s ≤ y → y < s + ((m + 1 : Nat) : Int) → y ≠ s + (m : Int) →
        ¬ Slice y c) →
        rd ((List.range m).foldl (fun st (n : Nat) => body (s + (n : Int)) st) st0) c = rd st0 c := by
      intro c hc
      apply ih2.outside
      rintro ⟨y, hy1, hy2, hy3⟩
      exact hc y hy1 (by push_cast; omega) (by omega) hy3
    refine ⟨hb.skel_eq.trans ih2.skel_eq, ?_, ?_⟩
    · rintro c ⟨x, h1, h2, h3⟩
      by_cases hx : x = s + (m : Int)
      · subst hx
        rw [hb.inside c h3]
        exact hins _ hx1 hx2 _ ih2.skel_eq hagree c h3
      · have hlt : x < s + (m : Int) := by push_cast at h2; omega
        rw [hb.outside c (hdisj x _ c h1 h2 hx1 hx2 hx h3)]
        exact ih2.inside c ⟨x, h1, hlt, h3⟩
    · intro c hc
      have h1 : ¬ Slice (s + (m : Int)) c := fun h => hc ⟨_, hx1, hx2, h⟩
      rw [hb.outside c h1]
      apply ih2.outside
      rintro ⟨x, hx1, hx2, hx3⟩
      exact hc ⟨x, hx1, by push_cast; omega, hx3⟩

/-- A loop whose rounds write disjoint sets of cells, each round with values that do not
depend on what the other rounds write, writes the union of these sets with the values
computed from the initial state. -/
theorem forRange_writes {σ C V S : Type} (rd : σ → C → V) (skel : σ → S)
    (s e : Int) (body : Int → σ → σ) (Slice : Int → C → Prop) (H : σ → C → V) (st0 : σ)
    (hbody : ∀ x, s ≤ x → x ≤ e → ∀ st, skel st = skel st0 →
      Writes rd skel (body x st) st (Slice x) (H st))
    (hdisj : ∀ x y c, s ≤ x → x ≤ e → s ≤ y → y ≤ e → x ≠ y → Slice x c → ¬ Slice y c)
    (hins : ∀ x, s ≤ x → x ≤ e → ∀ st, skel st = skel st0 →
      (∀ c, (∀ y, s ≤ y → y ≤ e → y ≠ x → ¬ Slice y c) → rd st c = rd st0 c) →
      ∀ c, Slice x c → H st c = H st0 c) :
    Writes rd skel (forRange s e body st0) st0
      (fun c => ∃ x, s ≤ x ∧ x ≤ e ∧ Slice x c) (H st0) := by
  have key := forRange_prefix_writes rd skel s body Slice H st0 (e + 1 - s).toNat
    (fun x h1 h2 => hbody x h1 (by omega))
    (fun x y c h1 h2 h3 h4 => hdisj x y c h1 (by omega) h3 (by omega))
    (fun x h1 h2 st hsk hag c hc => by
      apply hins x h1 (by omega) st hsk _ c hc
      intro c2 hc2
      apply hag
      intro y hy1 hy2 hne
      exact hc2 y hy1 (by omega) hne)
  unfold forRange
  refine key.congr ?_ (fun _ _ => rfl)
  intro c
  constructor
  · rintro ⟨x, h1, h2, h3⟩
    exact ⟨x, h1, by omega, h3⟩
  · rintro ⟨x, h1, h2, h3⟩
    exact ⟨x, h1, by omega, h3⟩

/-- The form of `forRange_writes` for a loop whose round `x` writes only cells with
coordinate `x`, with values that depend only on the cells of the same coordinate. -/
theorem forRange_writes_proj {σ C V S : Type} (rd : σ → C → V) (skel : σ → S)
    (s e : Int) (body : Int → σ → σ) (Slice : Int → C → Prop) (H : σ → C → V) (st0 : σ)
    (proj : C → Int)
    (hbody : ∀ x, s ≤ x → x ≤ e → ∀ st, skel st = skel st0 →
      Writes rd skel (body x st) st (Slice x) (H st))
    (hproj : ∀ x c, Slice x c → proj c = x)
    (hlocal : ∀ st c, skel st = skel st0 →
      (∀ c2, proj c2 = proj c → rd st c2 = rd st0 c2) → H st c = H st0 c) :
    Writes rd skel (forRange s e body st0) st0
      (fun c => ∃ x, s ≤ x ∧ x ≤ e ∧ Slice x c) (H st0) := by
  apply forRange_writes rd skel s e body Slice H st0 hbody
  · intro x y c _ _ _ _ hne hx hy
    exact hne ((hproj x c hx).symm.trans (hproj y c hy))
  · intro x _ _ st hsk hag c hc
    apply hlocal st c hsk
    intro c2 hc2
    apply hag
    intro y _ _ hne hy
    have := hproj y c2 hy
    have := hproj x c hc
    omega

theorem writeData_writes {R : Type} [Zero R] (st : VarStore R) (a : Nat) (l k j i : Int)
    (v : R) :
    Writes rdCell skelStore (writeData st a l k j i v) st (fun c => c = ⟨a, l, k, j, i⟩)
      (fun _ => v) := by
  refine ⟨?_, ?_, ?_⟩
  · funext b
    by_cases hb : b = a
    · subst hb
      simp [skelStore, writeData, skeleton]
    · simp [skelStore, writeData, Function.update_noteq hb]
  · intro c hc
    subst hc
    simp [rdCell, writeData]
  · intro c hc
    by_cases hb : c.a = a
    · have hne : ¬ (c.l = l ∧ c.k = k ∧ c.j = j ∧ c.i = i) := by
        rintro ⟨h1, h2, h3, h4⟩
        apply hc
        cases c
        simp_all
      unfold rdCell writeData
      rw [hb, Function.update_same]
      simp only [hne, if_false]
    · simp [rdCell, writeData, Function.update_noteq hb]

theorem skelStore_dim {R : Type} [Zero R] {st st2 : VarStore R}
    (h : skelStore st = skelStore st2) (a : Nat) :
    (st a).data.dim = (st2 a).data.dim ∧ (st a).flux = (st2 a).flux ∧
      (st a)._m = (st2 a)._m ∧ (st a)._label = (st2 a)._label := by
  have ha := congrFun h a
  simp only [skelStore, skeleton] at ha
  injection ha with h1 h2 h3 h4
  injection h1 with h5 h6
  exact ⟨h5, h2, h3, h4⟩

/-- The four loops over `l`, `k`, `j`, `i` that write `val` to every cell of the variable
`qout` in the index ranges: when `val` at an index depends only on the elements of the
variables at that same index, the value written is `val` of the state before the loops. -/
theorem pointLoops_writes {R : Type} [Zero R] (kb jb ib : IndexRange) (dim4 : Int)
    (qout : Nat) (val : VarStore R → Int → Int → Int → Int → R)
    (hval : ∀ (st st2 : VarStore R) (l k j i : Int), skelStore st = skelStore st2 →
      (∀ b, (st b).data.val l k j i = (st2 b).data.val l k j i) →
      val st l k j i = val st2 l k j i)
    (st0 : VarStore R) :
    Writes rdCell skelStore (pointLoops kb jb ib dim4 qout val st0) st0
      (fun c => c.a = qout ∧ (0 ≤ c.l ∧ c.l ≤ dim4 - 1) ∧ (kb.s ≤ c.k ∧ c.k ≤ kb.e) ∧
        (jb.s ≤ c.j ∧ c.j ≤ jb.e) ∧ (ib.s ≤ c.i ∧ c.i ≤ ib.e))
      (fun c => val st0 c.l c.k c.j c.i) := by
  have hloc : ∀ (proj : Cell → Int), (∀ c b, proj ⟨b, c.l, c.k, c.j, c.i⟩ = proj c) →
      ∀ (st1 st : VarStore R) (c : Cell), skelStore st = skelStore st1 →
      (∀ c2, proj c2 = proj c → rdCell st c2 = rdCell st1 c2) →
      val st c.l c.k c.j c.i = val st1 c.l c.k c.j c.i := by
    intro proj hproj st1 st c hsk hag
    apply hval st st1 _ _ _ _ hsk
    intro b
    exact hag ⟨b, c.l, c.k, c.j, c.i⟩ (hproj c b)
  have hi : ∀ (l k j : Int) (st1 : VarStore R),
      Writes rdCell skelStore
        (forRange ib.s ib.e (fun i st => writeData st qout l k j i (val st l k j i)) st1) st1
        (fun c => ∃ i, ib.s ≤ i ∧ i ≤ ib.e ∧ c = ⟨qout, l, k, j, i⟩)
        (fun c => val st1 c.l c.k c.j c.i) := by
    intro l k j st1
    apply forRange_writes_proj rdCell skelStore ib.s ib.e _ _
      (fun st c => val st c.l c.k c.j c.i) st1 Cell.i
    · intro i _ _ st _
      exact (writeData_writes st qout l k j i _).congr (fun _ => Iff.rfl)
        (fun c hc => by subst hc; rfl)
    · intro i c hc
      subst hc
      rfl
    · intro st c hsk hag
      exact hloc Cell.i (fun _ _ => rfl) st1 st c hsk hag
  have hj : ∀ (l k : Int) (st1 : VarStore R),
      Writes rdCell skelStore
        (forRange jb.s jb.e (fun j st =>
          forRange ib.s ib.e (fun i st => writeData st qout l k j i (val st l k j i)) st) st1)
        st1
        (fun c => ∃ j, jb.s ≤ j ∧ j ≤ jb.e ∧ ∃ i, ib.s ≤ i ∧ i ≤ ib.e ∧ c = ⟨qout, l, k, j, i⟩)
        (fun c => val st1 c.l c.k c.j c.i) := by
    intro l k st1
    apply forRange_writes_proj rdCell skelStore jb.s jb.e _ _
      (fun st c => val st c.l c.k c.j c.i) st1 Cell.j
    · intro j _ _ st _
      exact hi l k j st
    · rintro j c ⟨i, _, _, hc⟩
      subst hc
      rfl
    · intro st c hsk hag
      exact hloc Cell.j (fun _ _ => rfl) st1 st c hsk hag
  have hk : ∀ (l : Int) (st1 : VarStore R),
      Writes rdCell skelStore
        (forRange kb.s kb.e (fun k st =>
          forRange jb.s jb.e (fun j st =>
            forRange ib.s ib.e (fun i st => writeData st qout l k j i (val st l k j i)) st) st)
          st1)
        st1
        (fun c => ∃ k, kb.s ≤ k ∧ k ≤ kb.e ∧ ∃ j, jb.s ≤ j ∧ j ≤ jb.e ∧
          ∃ i, ib.s ≤ i ∧ i ≤ ib.e ∧ c = ⟨qout, l, k, j, i⟩)
        (fun c => val st1 c.l c.k c.j c.i) := by
    intro l st1
    apply forRange_writes_proj rdCell skelStore kb.s kb.e _ _
      (fun st c => val st c.l c.k c.j c.i) st1 Cell.k
    · intro k _ _ st _
      exact hj l k st
    · rintro k c ⟨j, _, _, i, _, _, hc⟩
      subst hc
      rfl
    · intro st c hsk hag
      exact hloc Cell.k (fun _ _ => rfl) st1 st c hsk hag
  have hl := forRange_writes_proj rdCell skelStore 0 (dim4 - 1)
    (fun l st =>
      forRange kb.s kb.e (fun k st =>
        forRange jb.s jb.e (fun j st =>
          forRange ib.s ib.e (fun i st => writeData st qout l k j i (val st l k j i)) st) st)
        st)
    (fun l c => ∃ k, kb.s ≤ k ∧ k ≤ kb.e ∧ ∃ j, jb.s ≤ j ∧ j ≤ jb.e ∧
      ∃ i, ib.s ≤ i ∧ i ≤ ib.e ∧ c = ⟨qout, l, k, j, i⟩)
    (fun st c => val st c.l c.k c.j c.i) st0 Cell.l
    (fun l _ _ st _ => hk l st)
    (by
      rintro l c ⟨k, _, _, j, _, _, i, _, _, hc⟩
      subst hc
      rfl)
    (fun st c hsk hag => hloc Cell.l (fun _ _ => rfl) st0 st c hsk hag)
  refine hl.congr ?_ (fun _ _ => rfl)
  intro c
  constructor
  · rintro ⟨ha, ⟨hl1, hl2⟩, ⟨hk1, hk2⟩, ⟨hj1, hj2⟩, ⟨hi1, hi2⟩⟩
    refine ⟨c.l, hl1, hl2, c.k, hk1, hk2, c.j, hj1, hj2, c.i, hi1, hi2, ?_⟩
    cases c
    simp_all
  · rintro ⟨l, hl1, hl2, k, hk1, hk2, j, hj1, hj2, i, hi1, hi2, hc⟩
    subst hc
    exact ⟨rfl, ⟨hl1, hl2⟩, ⟨hk1, hk2⟩, ⟨hj1, hj2⟩, ⟨hi1, hi2⟩⟩

theorem getD_inj_of_nodup {l : List Nat} (h : l.Nodup) {n m : Nat} (hn : n < l.length)
    (hm : m < l.length) (heq : l.getD n 0 = l.getD m 0) : n = m := by
  rw [List.getD_eq_getElem l 0 hn, List.getD_eq_getElem l 0 hm] at heq
  exact (h.getElem_inj_iff).mp heq

theorem indexOf_getD_of_nodup {l : List Nat} (h : l.Nodup) {n : Nat} (hn : n < l.length) :
    l.indexOf (l.getD n 0) = n := by
  rw [List.getD_eq_getElem l 0 hn]
  exact List.indexOf_getElem h n hn

/-- The loop over the variables of a kernel that writes, to every element of the first
`nvars` target variables in the index ranges, `g` of the elements of the two source
variables of the same position at the same index: the values are those of the state before
the kernel, provided the targets are distinct variables and a target is not a source of
another position. -/
theorem mapKernel_writes {R : Type} [Zero R] (kb jb ib : IndexRange)
    (tgt srcA srcB : List Nat) (nvars : Nat) (g : R → R → R) (st0 : VarStore R)
    (hlen : nvars ≤ tgt.length) (hnodup : tgt.Nodup)
    (halias : ∀ n m, n < nvars → m < nvars → n ≠ m →
      tgt.getD n 0 ≠ srcA.getD m 0 ∧ tgt.getD n 0 ≠ srcB.getD m 0) :
    Writes rdCell skelStore (mapKernel kb jb ib tgt srcA srcB (nvars : Int) g st0) st0
      (fun c => ∃ n, n < nvars ∧ mapRegion kb jb ib tgt st0 n c)
      (fun c => g
        ((st0 (srcA.getD (tgt.indexOf c.a) 0)).data.val c.l c.k c.j c.i)
        ((st0 (srcB.getD (tgt.indexOf c.a) 0)).data.val c.l c.k c.j c.i)) := by
  have key := forRange_writes rdCell skelStore 0 ((nvars : Int) - 1)
    (fun n st =>
      let qa := srcA.getD n.toNat 0
      let qb := srcB.getD n.toNat 0
      let qt := tgt.getD n.toNat 0
      forRange 0 ((st qt).GetDim4 - 1) (fun l st =>
        forRange kb.s kb.e (fun k st =>
          forRange jb.s jb.e (fun j st =>
            forRange ib.s ib.e (fun i st =>
              writeData st qt l k j i
                (g ((st qa).data.val l k j i) ((st qb).data.val l k j i))) st) st) st) st)
    (fun n c => mapRegion kb jb ib tgt st0 n.toNat c)
    (fun st c => g
      ((st (srcA.getD (tgt.indexOf c.a) 0)).data.val c.l c.k c.j c.i)
      ((st (srcB.getD (tgt.indexOf c.a) 0)).data.val c.l c.k c.j c.i)) st0
    (by
      intro n hn1 hn2 st hsk
      have hnlt : n.toNat < tgt.length := by omega
      have hdim : (st (tgt.getD n.toNat 0)).GetDim4 = (st0 (tgt.getD n.toNat 0)).GetDim4 := by
        unfold CellVariable.GetDim4 CellVariable.GetDim
        rw [(skelStore_dim hsk _).1]
      have hp := pointLoops_writes kb jb ib ((st (tgt.getD n.toNat 0)).GetDim4)
        (tgt.getD n.toNat 0)
        (fun st l k j i => g ((st (srcA.getD n.toNat 0)).data.val l k j i)
          ((st (srcB.getD n.toNat 0)).data.val l k j i))
        (by
          intro st1 st2 l k j i _ hag
          simp only [hag])
        st
      refine hp.congr ?_ ?_
      · intro c
        unfold mapRegion
        rw [hdim]
      · intro c hc
        have hca : tgt.indexOf c.a = n.toNat := by
          rw [hc.1]
          exact indexOf_getD_of_nodup hnodup hnlt
        simp only [hca])
    (by
      intro x y c hx1 hx2 hy1 hy2 hne hcx hcy
      apply hne
      have hxy : x.toNat = y.toNat :=
        getD_inj_of_nodup hnodup (by omega) (by omega) (hcx.1.symm.trans hcy.1)
      omega)
    (by
      intro x hx1 hx2 st hsk hag c hc
      have hxlt : x.toNat < tgt.length := by omega
      have hca : tgt.indexOf c.a = x.toNat := by
        rw [hc.1]
        exact indexOf_getD_of_nodup hnodup hxlt
      simp only [hca]
      have hA := hag ⟨srcA.getD x.toNat 0, c.l, c.k, c.j, c.i⟩ (by
        intro y hy1 hy2 hne hy
        have hne2 : y.toNat ≠ x.toNat := by omega
        exact (halias y.toNat x.toNat (by omega) (by omega) hne2).1 hy.1.symm)
      have hB := hag ⟨srcB.getD x.toNat 0, c.l, c.k, c.j, c.i⟩ (by
        intro y hy1 hy2 hne hy
        have hne2 : y.toNat ≠ x.toNat := by omega
        exact (halias y.toNat x.toNat (by omega) (by omega) hne2).2 hy.1.symm)
      unfold rdCell at hA hB
      simp only at hA hB
      rw [hA, hB])
  unfold mapKernel
  refine key.congr ?_ (fun _ _ => rfl)
  intro c
  constructor
  · rintro ⟨n, hn, hc⟩
    exact ⟨(n : Int), by omega, by omega, by simpa using hc⟩
  · rintro ⟨x, hx1, hx2, hc⟩
    exact ⟨x.toNat, by omega, hc⟩

/-! ## `UpdateContainer` and `AverageContainers` -/

theorem mapKernel_elem {R : Type} [Zero R] (kb jb ib : IndexRange)
    (tgt srcA srcB : List Nat) (nvars : Nat) (g : R → R → R) (st0 : VarStore R)
    (hlen : nvars ≤ tgt.length) (hnodup : tgt.Nodup)
    (halias : ∀ n m, n < nvars → m < nvars → n ≠ m →
      tgt.getD n 0 ≠ srcA.getD m 0 ∧ tgt.getD n 0 ≠ srcB.getD m 0)
    (n : Nat) (l k j i : Int) (hn : n < nvars)
    (hl : 0 ≤ l ∧ l < (st0 (tgt.getD n 0)).GetDim4)
    (hk : kb.s ≤ k ∧ k ≤ kb.e) (hj : jb.s ≤ j ∧ j ≤ jb.e) (hi : ib.s ≤ i ∧ i ≤ ib.e) :
    (mapKernel kb jb ib tgt srcA srcB (nvars : Int) g st0 (tgt.getD n 0)).data.val l k j i
      = g ((st0 (srcA.getD n 0)).data.val l k j i) ((st0 (srcB.getD n 0)).data.val l k j i) := by
  have hw := mapKernel_writes kb jb ib tgt srcA srcB nvars g st0 hlen hnodup halias
  have h := hw.inside ⟨tgt.getD n 0, l, k, j, i⟩
    ⟨n, hn, rfl, ⟨hl.1, by have := hl.2; show l ≤ _ - 1; omega⟩, hk, hj, hi⟩
  have hidx : tgt.indexOf (tgt.getD n 0) = n :=
    indexOf_getD_of_nodup hnodup (Nat.lt_of_lt_of_le hn hlen)
  simp only [hidx] at h
  exact h

theorem UpdateContainer_eq_mapKernel {R : Type} [HAdd R R R] [HMul R R R]
    (st0 : VarStore R)
    (in_ dudt_cont : Container R) (dt : R) (out : Container R)
    (hin : (ContainerIterator st0 out [MetadataFlag.Independent]).length ≤ (ContainerIterator st0 in_ [MetadataFlag.Independent]).length)
    (hrate : (ContainerIterator st0 out [MetadataFlag.Independent]).length ≤ (ContainerIterator st0 dudt_cont [MetadataFlag.Independent]).length) :
    Update.UpdateContainer st0 in_ dudt_cont dt out
      = some (mapKernel in_.pmy_block.cellbounds.GetBoundsK in_.pmy_block.cellbounds.GetBoundsJ
          in_.pmy_block.cellbounds.GetBoundsI (ContainerIterator st0 out [MetadataFlag.Independent]) (ContainerIterator st0 in_ [MetadataFlag.Independent]) (ContainerIterator st0 dudt_cont [MetadataFlag.Independent]) ((ContainerIterator st0 out [MetadataFlag.Independent]).length : Int)
          (fun u v => u + dt * v) st0) := by
  unfold Update.UpdateContainer
  simp only [hin, hrate, and_self, if_true]
  rfl

theorem AverageContainers_eq_mapKernel {R : Type} [HAdd R R R] [HMul R R R] [HSub R R R]
    [One R]
    (st0 : VarStore R)
    (c1 c2 : Container R) (wgt1 : R)
    (hlen : (ContainerIterator st0 c2 [MetadataFlag.Independent]).length ≤ (ContainerIterator st0 c1 [MetadataFlag.Independent]).length) :
    Update.AverageContainers st0 c1 c2 wgt1
      = some (mapKernel c1.pmy_block.cellbounds.GetBoundsK c1.pmy_block.cellbounds.GetBoundsJ
          c1.pmy_block.cellbounds.GetBoundsI (ContainerIterator st0 c1 [MetadataFlag.Independent]) (ContainerIterator st0 c1 [MetadataFlag.Independent]) (ContainerIterator st0 c2 [MetadataFlag.Independent]) ((ContainerIterator st0 c2 [MetadataFlag.Independent]).length : Int)
          (fun u v => wgt1 * u + (1 - wgt1) * v) st0) := by
  unfold Update.AverageContainers
  simp only [hlen, if_true]
  rfl

/-- C14 (UpdateContainer formula): for containers whose iterators over the independent
variables match (the iterators of `in` and `rate` are at least as long as that of `out`,
the variables of `out` are distinct, and a variable of `out` is not the variable of `in` or
`rate` of another position), `UpdateContainer(in, rate, dt, out)` returns, and afterwards,
at every position `n`, every component `l` below the 4th dimension and every interior index
`(k, j, i)`, the `n`-th independent variable of `out` holds `in + dt * rate`, computed from
the elements of the `n`-th independent variables of `in` and `rate` before the call. -/
theorem UpdateContainer_formula {R : Type} [Field R] (st0 : VarStore R)
    (in_ dudt_cont : Container R) (dt : R) (out : Container R)
    (hin : (ContainerIterator st0 out [MetadataFlag.Independent]).length ≤ (ContainerIterator st0 in_ [MetadataFlag.Independent]).length)
    (hrate : (ContainerIterator st0 out [MetadataFlag.Independent]).length ≤ (ContainerIterator st0 dudt_cont [MetadataFlag.Independent]).length)
    (hnodup : (ContainerIterator st0 out [MetadataFlag.Independent]).Nodup)
    (halias : ∀ n m, n < (ContainerIterator st0 out [MetadataFlag.Independent]).length → m < (ContainerIterator st0 out [MetadataFlag.Independent]).length → n ≠ m →
      (ContainerIterator st0 out [MetadataFlag.Independent]).getD n 0 ≠ (ContainerIterator st0 in_ [MetadataFlag.Independent]).getD m 0 ∧ (ContainerIterator st0 out [MetadataFlag.Independent]).getD n 0 ≠ (ContainerIterator st0 dudt_cont [MetadataFlag.Independent]).getD m 0) :
    ∃ st1 : VarStore R,
      Update.UpdateContainer st0 in_ dudt_cont dt out = some st1 ∧
      ∀ (n : Nat) (l k j i : Int), n < (ContainerIterator st0 out [MetadataFlag.Independent]).length →
        0 ≤ l ∧ l < (st0 ((ContainerIterator st0 out [MetadataFlag.Independent]).getD n 0)).GetDim4 →
        in_.pmy_block.cellbounds.GetBoundsK.s ≤ k ∧ k ≤ in_.pmy_block.cellbounds.GetBoundsK.e →
        in_.pmy_block.cellbounds.GetBoundsJ.s ≤ j ∧ j ≤ in_.pmy_block.cellbounds.GetBoundsJ.e →
        in_.pmy_block.cellbounds.GetBoundsI.s ≤ i ∧ i ≤ in_.pmy_block.cellbounds.GetBoundsI.e →
        (st1 ((ContainerIterator st0 out [MetadataFlag.Independent]).getD n 0)).data.val l k j i
          = (st0 ((ContainerIterator st0 in_ [MetadataFlag.Independent]).getD n 0)).data.val l k j i
            + dt * (st0 ((ContainerIterator st0 dudt_cont [MetadataFlag.Independent]).getD n 0)).data.val l k j i := by
  refine ⟨_, UpdateContainer_eq_mapKernel st0 in_ dudt_cont dt out hin hrate, ?_⟩
  intro n l k j i hn hl hk hj hi
  exact mapKernel_elem _ _ _ _ _ _ _ (fun u v => u + dt * v) st0 (Nat.le_refl _) hnodup halias
    n l k j i hn hl hk hj hi

theorem AverageContainers_alias {R : Type} (st0 : VarStore R)
    (c1 c2 : Container R)
    (hlen : (ContainerIterator st0 c2 [MetadataFlag.Independent]).length ≤ (ContainerIterator st0 c1 [MetadataFlag.Independent]).length)
    (hnodup : (ContainerIterator st0 c1 [MetadataFlag.Independent]).Nodup)
    (halias : ∀ n m, n < (ContainerIterator st0 c2 [MetadataFlag.Independent]).length → m < (ContainerIterator st0 c2 [MetadataFlag.Independent]).length → n ≠ m →
      (ContainerIterator st0 c1 [MetadataFlag.Independent]).getD n 0 ≠ (ContainerIterator st0 c2 [MetadataFlag.Independent]).getD m 0) :
    ∀ n m, n < (ContainerIterator st0 c2 [MetadataFlag.Independent]).length → m < (ContainerIterator st0 c2 [MetadataFlag.Independent]).length → n ≠ m →
      (ContainerIterator st0 c1 [MetadataFlag.Independent]).getD n 0 ≠ (ContainerIterator st0 c1 [MetadataFlag.Independent]).getD m 0 ∧ (ContainerIterator st0 c1 [MetadataFlag.Independent]).getD n 0 ≠ (ContainerIterator st0 c2 [MetadataFlag.Independent]).getD m 0 := by
  intro n m hn hm hne
  refine ⟨?_, halias n m hn hm hne⟩
  intro heq
  exact hne (getD_inj_of_nodup hnodup (Nat.lt_of_lt_of_le hn hlen)
    (Nat.lt_of_lt_of_le hm hlen) heq)

theorem UpdateContainer_formula_witness :
    ∃ st1 : VarStore ℚ,
      Update.UpdateContainer sampleVars sampleIn sampleRate (1 / 2 : ℚ) sampleOut = some st1 ∧
      ∀ (n : Nat) (l k j i : Int), n < (ContainerIterator sampleVars sampleOut [MetadataFlag.Independent]).length →
        0 ≤ l ∧ l < (sampleVars ((ContainerIterator sampleVars sampleOut [MetadataFlag.Independent]).getD n 0)).GetDim4 →
        sampleIn.pmy_block.cellbounds.GetBoundsK.s ≤ k ∧ k ≤ sampleIn.pmy_block.cellbounds.GetBoundsK.e →
        sampleIn.pmy_block.cellbounds.GetBoundsJ.s ≤ j ∧ j ≤ sampleIn.pmy_block.cellbounds.GetBoundsJ.e →
        sampleIn.pmy_block.cellbounds.GetBoundsI.s ≤ i ∧ i ≤ sampleIn.pmy_block.cellbounds.GetBoundsI.e →
        (st1 ((ContainerIterator sampleVars sampleOut [MetadataFlag.Independent]).getD n 0)).data.val l k j i
          = (sampleVars ((ContainerIterator sampleVars sampleIn [MetadataFlag.Independent]).getD n 0)).data.val l k j i
            + (1 / 2 : ℚ) * (sampleVars ((ContainerIterator sampleVars sampleRate [MetadataFlag.Independent]).getD n 0)).data.val l k j i :=
  UpdateContainer_formula sampleVars sampleIn sampleRate (1 / 2 : ℚ) sampleOut
    (by decide) (by decide) (by decide)
    (by
      have hl : (ContainerIterator sampleVars sampleOut [MetadataFlag.Independent]).length = 1 := by
        decide
      intro n m hn hm hne
      rw [hl] at hn hm
      omega)

theorem EstimateTimestep_fold {C R : Type} [LinearOrder R]
    (registry : List (String × StateDescriptor C R)) (acc : R × C) :
    (registry.foldl
      (fun (acc : R × C) pkg =>
        let desc := pkg.2
        match desc.EstimateTimestep with
        | some estimate => (min acc.1 (estimate acc.2).1, (estimate acc.2).2)
        | none => acc)
      acc).1 = (returnedEstimates registry acc.2).foldl min acc.1 := by
  induction registry generalizing acc with
  | nil => rfl
  | cons pkg rest ih =>
    rw [List.foldl_cons, ih]
    cases h : pkg.2.EstimateTimestep with
    | none => simp [returnedEstimates, h]
    | some estimate => simp [returnedEstimates, h]

theorem foldl_min_le {R : Type} [LinearOrder R] (l : List R) (a : R) :
    l.foldl min a ≤ a ∧ ∀ x ∈ l, l.foldl min a ≤ x := by
  induction l generalizing a with
  | nil => simp
  | cons y rest ih =>
    rw [List.foldl_cons]
    obtain ⟨h1, h2⟩ := ih (min a y)
    refine ⟨le_trans h1 (min_le_left a y), ?_⟩
    intro x hx
    rcases List.mem_cons.mp hx with hx | hx
    · rw [hx]
      exact le_trans h1 (min_le_right a y)
    · exact h2 x hx

theorem foldl_min_mem {R : Type} [LinearOrder R] (l : List R) (a : R) :
    l.foldl min a = a ∨ l.foldl min a ∈ l := by
  induction l generalizing a with
  | nil => simp
  | cons y rest ih =>
    rw [List.foldl_cons]
    rcases ih (min a y) with h | h
    · rcases min_choice a y with hm | hm
      · left
        rw [h, hm]
      · right
        rw [h, hm]
        exact List.mem_cons_self _ _
    · right
      exact List.mem_cons_of_mem _ h

theorem returnedEstimates_of_none {C R : Type}
    (registry : List (String × StateDescriptor C R)) (rc : C)
    (h : ∀ pkg ∈ registry, pkg.2.EstimateTimestep = none) :
    returnedEstimates registry rc = [] := by
  induction registry with
  | nil => rfl
  | cons pkg rest ih =>
    have h1 : pkg.2.EstimateTimestep = none := h pkg (List.mem_cons_self _ _)
    simp only [returnedEstimates, h1]
    exact ih (fun p hp => h p (List.mem_cons_of_mem _ hp))

theorem returnedEstimates_of_pure {C R : Type}
    (registry : List (String × StateDescriptor C R)) (rc : C)
    (h : ∀ pkg ∈ registry, ∀ estimate, pkg.2.EstimateTimestep = some estimate →
      ∀ x, (estimate x).2 = x) :
    returnedEstimates registry rc
      = registry.filterMap (fun pkg => pkg.2.EstimateTimestep.map (fun estimate => (estimate rc).1)) := by
  induction registry with
  | nil => rfl
  | cons pkg rest ih =>
    have ih2 := ih (fun p hp => h p (List.mem_cons_of_mem _ hp))
    cases hp : pkg.2.EstimateTimestep with
    | none => simp [returnedEstimates, hp, ih2]
    | some estimate =>
      have hpure := h pkg (List.mem_cons_self _ _) estimate hp rc
      simp [returnedEstimates, hp, hpure, ih2]

/-- C19 (EstimateTimestep): for every container, the value returned is the minimum of the
maximum representable value and the values returned by the estimators of exactly the
registered packages that have one, called in the order of the registry: it is the fold of
`min` over these values, it is one of them or the maximum representable value, it is at
most the maximum representable value and at most every returned estimate, and it is the
maximum representable value when the registry is empty or no package has an estimator (the
container is then untouched).  When the estimators leave the container as it is, the
values are those of the estimators applied to the container itself. -/
theorem EstimateTimestep_min {C R : Type} [LinearOrder R]
    (packages : C → List (String × StateDescriptor C R)) (numeric_limits_max : R) (rc : C) :
    (Update.EstimateTimestep packages numeric_limits_max rc).1
      = (returnedEstimates (packages rc) rc).foldl min numeric_limits_max ∧
    ((Update.EstimateTimestep packages numeric_limits_max rc).1 = numeric_limits_max ∨
      (Update.EstimateTimestep packages numeric_limits_max rc).1
        ∈ returnedEstimates (packages rc) rc) ∧
    (Update.EstimateTimestep packages numeric_limits_max rc).1 ≤ numeric_limits_max ∧
    (∀ dt ∈ returnedEstimates (packages rc) rc,
      (Update.EstimateTimestep packages numeric_limits_max rc).1 ≤ dt) ∧
    (packages rc = [] →
      Update.EstimateTimestep packages numeric_limits_max rc = (numeric_limits_max, rc)) ∧
    ((∀ pkg ∈ packages rc, pkg.2.EstimateTimestep = none) →
      (Update.EstimateTimestep packages numeric_limits_max rc).1 = numeric_limits_max) ∧
    ((∀ pkg ∈ packages rc, ∀ estimate, pkg.2.EstimateTimestep = some estimate →
        ∀ x, (estimate x).2 = x) →
      returnedEstimates (packages rc) rc
        = (packages rc).filterMap
            (fun pkg => pkg.2.EstimateTimestep.map (fun estimate => (estimate rc).1))) := by
  have hfold : (Update.EstimateTimestep packages numeric_limits_max rc).1
      = (returnedEstimates (packages rc) rc).foldl min numeric_limits_max :=
    EstimateTimestep_fold (packages rc) (numeric_limits_max, rc)
  refine ⟨hfold, ?_, ?_, ?_, ?_, ?_, ?_⟩
  · rw [hfold]
    exact foldl_min_mem _ _
  · rw [hfold]
    exact (foldl_min_le _ _).1
  · rw [hfold]
    exact (foldl_min_le _ _).2
  · intro h
    simp [Update.EstimateTimestep, h]
  · intro h
    rw [hfold, returnedEstimates_of_none _ _ h]
    rfl
  · intro h
    exact returnedEstimates_of_pure _ _ h

theorem FillDerived_fold {C R : Type} (registry : List (String × StateDescriptor C R))
    (rc : C) :
    registry.foldl
      (fun rc pkg =>
        let desc := pkg.2
        match desc.FillDerived with
        | some fill => fill rc
        | none => rc)
      rc
      = (registry.filterMap (fun pkg => pkg.2.FillDerived)).foldl (fun st f => f st) rc := by
  induction registry generalizing rc with
  | nil => rfl
  | cons pkg rest ih =>
    rw [List.foldl_cons, ih]
    cases h : pkg.2.FillDerived with
    | none => simp [List.filterMap_cons, h]
    | some fill => simp [List.filterMap_cons, h]

/-- C20 (FillDerived call order): for every container and every setting of the two slots,
`FillDerived` leaves the container that results from invoking, one after the other and each
once, the callbacks of `callSequence`: the pre callback if it is set, then the derived-fill
callback of each package that has one, in the order of the registry (read after the pre
callback), then the post callback if it is set; unset slots and packages without a callback
contribute no call, so the number of calls is the number of callbacks present; and
`SetFillDerivedFunctions(pre, post)` replaces both slots, whatever they held. -/
theorem FillDerived_call_order {C R : Type} (slots : FillDerivedVariables.Slots C)
    (packages : C → List (String × StateDescriptor C R)) (rc : C) :
    FillDerivedVariables.FillDerived slots packages rc
      = (FillDerivedVariables.callSequence slots
          (packages ((slots._pre_package_fill.toList).foldl (fun st f => f st) rc))).foldl
          (fun st f => f st) rc ∧
    (∀ registry : List (String × StateDescriptor C R),
      (FillDerivedVariables.callSequence slots registry).length
        = (if slots._pre_package_fill.isSome then 1 else 0)
          + (registry.filter (fun pkg => pkg.2.FillDerived.isSome)).length
          + (if slots._post_package_fill.isSome then 1 else 0)) ∧
    (∀ pre post : Option (C → C),
      (FillDerivedVariables.SetFillDerivedFunctions slots pre post)._pre_package_fill = pre ∧
      (FillDerivedVariables.SetFillDerivedFunctions slots pre post)._post_package_fill = post) ∧
    (FillDerivedVariables.Slots.initial C)._pre_package_fill.isNone = true ∧
    (FillDerivedVariables.Slots.initial C)._post_package_fill.isNone = true := by
  refine ⟨?_, ?_, fun pre post => ⟨rfl, rfl⟩, rfl, rfl⟩
  · unfold FillDerivedVariables.FillDerived FillDerivedVariables.callSequence
    simp only [FillDerived_fold, List.foldl_append]
    cases hpre : slots._pre_package_fill <;> cases hpost : slots._post_package_fill <;> rfl
  · intro registry
    unfold FillDerivedVariables.callSequence
    have hcount : (registry.filterMap (fun pkg => pkg.2.FillDerived)).length
        = (registry.filter (fun pkg => pkg.2.FillDerived.isSome)).length := by
      induction registry with
      | nil => rfl
      | cons pkg rest ih =>
        cases h : pkg.2.FillDerived with
        | none => simp [List.filterMap_cons, List.filter_cons, h, ih]
        | some fill => simp [List.filterMap_cons, List.filter_cons, h, ih]
    simp only [List.length_append, hcount]
    cases hpre : slots._pre_package_fill <;> cases hpost : slots._post_package_fill <;> simp

/-- On `sampleRegistry`, whose callbacks log their names: `FillDerived` with both slots set
logs pre, a, c, post; `EstimateTimestep` returns the smaller estimate. -/
theorem FillDerived_sample_log :
    FillDerivedVariables.FillDerived
        (FillDerivedVariables.SetFillDerivedFunctions (FillDerivedVariables.Slots.initial _)
          (some (fun log => log ++ ["pre"])) (some (fun log => log ++ ["post"])))
        (fun _ => sampleRegistry) []
      = ["pre", "a", "c", "post"] ∧
    FillDerivedVariables.FillDerived (FillDerivedVariables.Slots.initial _)
        (fun _ => sampleRegistry) [] = ["a", "c"] ∧
    (Update.EstimateTimestep (fun _ => sampleRegistry) (1000 : ℚ) []).2 = ["dt a", "dt c"] ∧
    (Update.EstimateTimestep (fun _ => sampleRegistry) (1000 : ℚ) []).1 = 1 / 2 := by
  refine ⟨by decide, by decide, by decide, ?_⟩
  norm_num [Update.EstimateTimestep, sampleRegistry]

/-! ## `FluxDivergence` -/

theorem duLoop_writes {R : Type} (a b : Int) (v : FluxState R → Int → R)
    (hv : ∀ (s s2 : FluxState R) (i : Int), skelNoDu s = skelNoDu s2 → s.du i = s2.du i →
      v s i = v s2 i)
    (s0 : FluxState R) :
    Writes (fun (s : FluxState R) (i : Int) => s.du i) skelNoDu
      (forRange a b (fun i s => { s with du := Function.update s.du i (v s i) }) s0) s0
      (fun i => a ≤ i ∧ i ≤ b) (v s0) := by
  have key := forRange_writes_proj (fun (s : FluxState R) (i : Int) => s.du i) skelNoDu a b
    (fun i s => { s with du := Function.update s.du i (v s i) })
    (fun x c => c = x) (fun s c => v s c) s0 id
    (by
      intro x _ _ s _
      refine { skel_eq := rfl, inside := ?_, outside := ?_ }
      · intro c hc
        subst hc
        simp
      · intro c hc
        simp [Function.update_noteq hc])
    (by
      intro x c hc
      exact hc)
    (by
      intro s c hsk hag
      exact hv s s0 c hsk (hag c rfl))
  refine key.congr ?_ (fun _ _ => rfl)
  intro c
  constructor
  · rintro ⟨h1, h2⟩
    exact ⟨c, h1, h2, rfl⟩
  · rintro ⟨x, h1, h2, hc⟩
    subst hc
    exact ⟨h1, h2⟩

/-- A loop of `FluxDivergence_row` that adds a term to `du`, run only when `cond` holds. -/
theorem duLoop_gated {R : Type} [Field R] (cond : Prop) [Decidable cond] (a b : Int)
    (t : FluxState R → Int → R)
    (ht : ∀ (s s2 : FluxState R) (i : Int), skelNoDu s = skelNoDu s2 → t s i = t s2 i)
    (s0 : FluxState R) :
    skelNoDu (if cond then
        forRange a b (fun i s => { s with du := Function.update s.du i (s.du i + t s i) }) s0
      else s0) = skelNoDu s0 ∧
    ∀ i, a ≤ i ∧ i ≤ b →
      (if cond then
        forRange a b (fun i s => { s with du := Function.update s.du i (s.du i + t s i) }) s0
      else s0).du i = s0.du i + (if cond then t s0 i else 0) := by
  by_cases hc : cond
  · simp only [hc, if_true]
    have h := duLoop_writes a b (fun s i => s.du i + t s i)
      (by
        intro s s2 i hsk hdu
        simp only [hdu, ht s s2 i hsk])
      s0
    exact ⟨h.skel_eq, fun i hi => h.inside i hi⟩
  · refine ⟨by rw [if_neg hc], fun i _ => ?_⟩
    rw [if_neg hc, if_neg hc, add_zero]

theorem skelAreas_of_skelNoDu {R : Type} [Zero R] {s s2 : FluxState R}
    (h : skelNoDu s = skelNoDu s2) : skelAreas s = skelAreas s2 := by
  simp only [skelNoDu, Prod.mk.injEq] at h
  obtain ⟨h1, h2, h3, h4, h5, h6, h7⟩ := h
  simp only [skelAreas, h1, h2, h3, h4, h5, h6, h7]

theorem FluxDivergence_store_writes {R : Type} [Field R] (ib : IndexRange) (dudt : Nat)
    (l k j : Int) (s0 : FluxState R) :
    Writes rdF skelFull (Update.FluxDivergence_store ib dudt l k j s0) s0
      (fun c => ∃ i, ib.s ≤ i ∧ i ≤ ib.e ∧ c = ⟨dudt, l, k, j, i⟩)
      (fun c => -(s0.du c.i) / s0.vol c.i) := by
  unfold Update.FluxDivergence_store
  apply forRange_writes_proj rdF skelFull ib.s ib.e _ (fun i c => c = ⟨dudt, l, k, j, i⟩)
    (fun (s : FluxState R) c => -(s.du c.i) / s.vol c.i) s0 Cell.i
  · intro i _ _ s _
    have hw := writeData_writes s.st dudt l k j i (-(s.du i) / s.vol i)
    refine { skel_eq := ?_, inside := ?_, outside := ?_ }
    · simp only [skelFull, skelAreas, hw.skel_eq]
    · intro c hc
      have := hw.inside c hc
      subst hc
      exact this
    · intro c hc
      exact hw.outside c hc
  · intro i c hc
    subst hc
    rfl
  · intro s c hsk _
    simp only [skelFull, skelAreas, Prod.mk.injEq] at hsk
    obtain ⟨⟨_, _, _, _, _, _, hvol⟩, hdu⟩ := hsk
    rw [hvol, hdu]

theorem FluxDivergence_du_value {R : Type} [Field R] (ndim : Int) (ib : IndexRange)
    (q : Nat) (l k j : Int) (s : FluxState R) :
    skelNoDu (Update.FluxDivergence_x3 ndim ib q l k j
      (Update.FluxDivergence_x2 ndim ib q l k j
        (Update.FluxDivergence_x1 ib q l k j { s with du := fun _ => 0 }))) = skelNoDu s ∧
    ∀ i, ib.s ≤ i ∧ i ≤ ib.e →
      -((Update.FluxDivergence_x3 ndim ib q l k j
        (Update.FluxDivergence_x2 ndim ib q l k j
          (Update.FluxDivergence_x1 ib q l k j { s with du := fun _ => 0 }))).du i) / s.vol i
        = rowValue ndim (s.st q) s l k j i := by
  have h1 := duLoop_writes ib.s ib.e
    (fun (s : FluxState R) i => s.x1area (i + 1) * ((s.st q).flux 0).val l k j (i + 1)
      - s.x1area i * ((s.st q).flux 0).val l k j i)
    (by
      intro s s2 i hsk _
      simp only [skelNoDu, Prod.mk.injEq] at hsk
      obtain ⟨e1, e2, _⟩ := hsk
      simp only [e1, e2])
    { s with du := fun _ => 0 }
  have h2 := duLoop_gated (ndim ≥ 2) ib.s ib.e
    (fun (s : FluxState R) i => s.x2area1 i * ((s.st q).flux 1).val l k (j + 1) i
      - s.x2area0 i * ((s.st q).flux 1).val l k j i)
    (by
      intro s s2 i hsk
      simp only [skelNoDu, Prod.mk.injEq] at hsk
      obtain ⟨e1, _, e3, e4, _⟩ := hsk
      simp only [e1, e3, e4])
    (Update.FluxDivergence_x1 ib q l k j { s with du := fun _ => 0 })
  have h3 := duLoop_gated (ndim ≥ 3) ib.s ib.e
    (fun (s : FluxState R) i => s.x3area1 i * ((s.st q).flux 2).val l (k + 1) j i
      - s.x3area0 i * ((s.st q).flux 2).val l k j i)
    (by
      intro s s2 i hsk
      simp only [skelNoDu, Prod.mk.injEq] at hsk
      obtain ⟨e1, _, _, _, e5, e6, _⟩ := hsk
      simp only [e1, e5, e6])
    (Update.FluxDivergence_x2 ndim ib q l k j
      (Update.FluxDivergence_x1 ib q l k j { s with du := fun _ => 0 }))
  have k1 : skelNoDu (Update.FluxDivergence_x1 ib q l k j { s with du := fun _ => 0 })
      = skelNoDu s := h1.skel_eq
  have k2 : skelNoDu (Update.FluxDivergence_x2 ndim ib q l k j
      (Update.FluxDivergence_x1 ib q l k j { s with du := fun _ => 0 })) = skelNoDu s :=
    h2.1.trans k1
  have k3 : skelNoDu (Update.FluxDivergence_x3 ndim ib q l k j
      (Update.FluxDivergence_x2 ndim ib q l k j
        (Update.FluxDivergence_x1 ib q l k j { s with du := fun _ => 0 }))) = skelNoDu s :=
    h3.1.trans k2
  refine ⟨k3, ?_⟩
  intro i hi
  have d1 := h1.inside i hi
  have d2 := h2.2 i hi
  have d3 := h3.2 i hi
  simp only [skelNoDu, Prod.mk.injEq] at k1 k2
  obtain ⟨a1, a2, a3, a4, a5, a6, a7⟩ := k1
  obtain ⟨b1, b2, b3, b4, b5, b6, b7⟩ := k2
  unfold Update.FluxDivergence_x3 Update.FluxDivergence_x2
  unfold Update.FluxDivergence_x2 at d3 b1 b2 b3 b4 b5 b6 b7
  rw [d3, d2]
  unfold Update.FluxDivergence_x1
  unfold Update.FluxDivergence_x1 at a1 a2 a3 a4 a5 a6 a7 b1 b2 b3 b4 b5 b6 b7
  rw [d1]
  simp only [a1, a2, a3, a4, b1, b5, b6]
  rfl

theorem rowValue_congr {R : Type} [Field R] (ndim : Int) (q : Nat) (l k j i : Int)
    {s s2 : FluxState R} (h : skelAreas s = skelAreas s2) :
    rowValue ndim (s.st q) s l k j i = rowValue ndim (s2.st q) s2 l k j i := by
  simp only [skelAreas, Prod.mk.injEq] at h
  obtain ⟨h0, h1, h2, h3, h4, h5, h6⟩ := h
  have hflux : (s.st q).flux = (s2.st q).flux := (skelStore_dim h0 q).2.1
  simp only [rowValue, h1, h2, h3, h4, h5, h6, hflux]

/-- The body of the loop over `l` writes, at the interior indices `i` of the row `(k, j)` of
component `l` of the output variable, `rowValue` of the local arrays. -/
theorem FluxDivergence_row_writes {R : Type} [Field R] (ndim : Int) (ib : IndexRange)
    (q dudt : Nat) (l k j : Int) (s : FluxState R) :
    Writes rdF skelAreas (Update.FluxDivergence_row ndim ib q dudt l k j s) s
      (fun c => ∃ i, ib.s ≤ i ∧ i ≤ ib.e ∧ c = ⟨dudt, l, k, j, i⟩)
      (fun c => rowValue ndim (s.st q) s l k j c.i) := by
  have hw := FluxDivergence_store_writes ib dudt l k j
    (Update.FluxDivergence_x3 ndim ib q l k j
      (Update.FluxDivergence_x2 ndim ib q l k j
        (Update.FluxDivergence_x1 ib q l k j { s with du := fun _ => 0 })))
  obtain ⟨hsk, hval⟩ := FluxDivergence_du_value ndim ib q l k j s
  have hsk2 := hsk
  simp only [skelNoDu, Prod.mk.injEq] at hsk2
  obtain ⟨e0, _, _, _, _, _, e6⟩ := hsk2
  refine { skel_eq := ?_, inside := ?_, outside := ?_ }
  · have h1 := congrArg Prod.fst hw.skel_eq
    exact h1.trans (skelAreas_of_skelNoDu hsk)
  · rintro c ⟨i, hi1, hi2, hc⟩
    have h1 := hw.inside c ⟨i, hi1, hi2, hc⟩
    subst hc
    unfold Update.FluxDivergence_row
    rw [h1, e6]
    exact hval i ⟨hi1, hi2⟩
  · intro c hc
    have h1 := hw.outside c hc
    unfold Update.FluxDivergence_row
    rw [h1]
    unfold rdF
    rw [e0]

theorem FluxDivergence_l_writes {R : Type} [Field R] (ndim : Int) (ib : IndexRange)
    (q dudt : Nat) (dim4 k j : Int) (s1 : FluxState R) :
    Writes rdF skelAreas
      (forRange 0 (dim4 - 1) (fun l s => Update.FluxDivergence_row ndim ib q dudt l k j s) s1)
      s1
      (fun c => ∃ l, 0 ≤ l ∧ l ≤ dim4 - 1 ∧ ∃ i, ib.s ≤ i ∧ i ≤ ib.e ∧ c = ⟨dudt, l, k, j, i⟩)
      (fun c => rowValue ndim (s1.st q) s1 c.l k j c.i) := by
  apply forRange_writes_proj rdF skelAreas 0 (dim4 - 1) _
    (fun l c => ∃ i, ib.s ≤ i ∧ i ≤ ib.e ∧ c = ⟨dudt, l, k, j, i⟩)
    (fun (s : FluxState R) c => rowValue ndim (s.st q) s c.l k j c.i) s1 Cell.l
  · intro l _ _ s _
    refine (FluxDivergence_row_writes ndim ib q dudt l k j s).congr (fun _ => Iff.rfl) ?_
    rintro c ⟨i, _, _, hc⟩
    subst hc
    rfl
  · rintro l c ⟨i, _, _, hc⟩
    subst hc
    rfl
  · intro s c hsk _
    exact rowValue_congr ndim q c.l k j c.i hsk

theorem FluxDivergence_n_writes {R : Type} [Field R] (ndim : Int) (ib : IndexRange)
    (cin cout : List Nat) (nvars : Nat) (k j : Int) (s1 : FluxState R)
    (hlen : nvars ≤ cout.length) (hnodup : cout.Nodup) :
    Writes rdF skelAreas
      (forRange 0 ((nvars : Int) - 1) (fun n s =>
        let q := cin.getD n.toNat 0
        let dudt := cout.getD n.toNat 0
        forRange 0 ((s.st q).GetDim4 - 1) (fun l s =>
          Update.FluxDivergence_row ndim ib q dudt l k j s) s) s1)
      s1
      (fun c => ∃ n, n < nvars ∧ fluxSlice ib cin cout s1.st k j n c)
      (fun c => rowValue ndim (s1.st (cin.getD (cout.indexOf c.a) 0)) s1 c.l k j c.i) := by
  have key := forRange_writes rdF skelAreas 0 ((nvars : Int) - 1)
    (fun n s =>
      let q := cin.getD n.toNat 0
      let dudt := cout.getD n.toNat 0
      forRange 0 ((s.st q).GetDim4 - 1) (fun l s =>
        Update.FluxDivergence_row ndim ib q dudt l k j s) s)
    (fun n c => fluxSlice ib cin cout s1.st k j n.toNat c)
    (fun (s : FluxState R) c =>
      rowValue ndim (s.st (cin.getD (cout.indexOf c.a) 0)) s c.l k j c.i) s1
    (by
      intro n hn1 hn2 s hsk
      have hnlt : n.toNat < cout.length := by omega
      have hst : skelStore s.st = skelStore s1.st := by
        have := congrArg Prod.fst hsk
        exact this
      have hdim : (s.st (cin.getD n.toNat 0)).GetDim4 = (s1.st (cin.getD n.toNat 0)).GetDim4 := by
        unfold CellVariable.GetDim4 CellVariable.GetDim
        rw [(skelStore_dim hst _).1]
      refine (FluxDivergence_l_writes ndim ib (cin.getD n.toNat 0) (cout.getD n.toNat 0)
        ((s.st (cin.getD n.toNat 0)).GetDim4) k j s).congr ?_ ?_
      · intro c
        unfold fluxSlice
        rw [hdim]
        constructor
        · rintro ⟨ha, ⟨hl1, hl2⟩, hk, hj, hi1, hi2⟩
          refine ⟨c.l, hl1, hl2, c.i, hi1, hi2, ?_⟩
          cases c
          simp_all
        · rintro ⟨l, hl1, hl2, i, hi1, hi2, hc⟩
          subst hc
          exact ⟨rfl, ⟨hl1, hl2⟩, rfl, rfl, hi1, hi2⟩
      · rintro c ⟨l, _, _, i, _, _, hc⟩
        subst hc
        have hca : cout.indexOf (cout.getD n.toNat 0) = n.toNat :=
          indexOf_getD_of_nodup hnodup hnlt
        simp only [hca])
    (by
      intro x y c hx1 hx2 hy1 hy2 hne hcx hcy
      apply hne
      have hxy : x.toNat = y.toNat :=
        getD_inj_of_nodup hnodup (by omega) (by omega) (hcx.1.symm.trans hcy.1)
      omega)
    (by
      intro x _ _ s hsk _ c _
      exact rowValue_congr ndim _ c.l k j c.i hsk)
  refine key.congr ?_ (fun _ _ => rfl)
  intro c
  constructor
  · rintro ⟨n, hn, hc⟩
    exact ⟨(n : Int), by omega, by omega, by simpa using hc⟩
  · rintro ⟨x, hx1, hx2, hc⟩
    exact ⟨x.toNat, by omega, hc⟩

theorem FluxDivergence_areas_st {R : Type} (pmb : Block R) (k j : Int) (s : FluxState R) :
    (Update.FluxDivergence_areas pmb k j s).st = s.st := by
  unfold Update.FluxDivergence_areas
  by_cases h2 : pmb.ndim ≥ 2 <;> by_cases h3 : pmb.ndim ≥ 3 <;> simp [h2, h3]

theorem rowValue_areas {R : Type} [Field R] (pmb : Block R) (q : CellVariable R)
    (l k j i : Int) (s : FluxState R)
    (hi : pmb.cellbounds.GetBoundsI.s ≤ i ∧ i ≤ pmb.cellbounds.GetBoundsI.e) :
    rowValue pmb.ndim q (Update.FluxDivergence_areas pmb k j s) l k j i
      = fluxDivergenceFormula pmb q l k j i := by
  have hi1 : pmb.cellbounds.GetBoundsI.s ≤ i + 1 ∧ i + 1 ≤ pmb.cellbounds.GetBoundsI.e + 1 := by
    omega
  have hi2 : pmb.cellbounds.GetBoundsI.s ≤ i ∧ i ≤ pmb.cellbounds.GetBoundsI.e + 1 := by
    omega
  unfold rowValue fluxDivergenceFormula fluxDifference1 fluxDifference2 fluxDifference3
    Update.FluxDivergence_areas
  by_cases h2 : pmb.ndim ≥ 2 <;> by_cases h3 : pmb.ndim ≥ 3 <;>
    simp [h2, h3, fillRow, hi, hi1, hi2]

theorem fluxDivergenceFormula_congr {R : Type} [Field R] (pmb : Block R) (q : Nat)
    (l k j i : Int) {st st2 : VarStore R} (h : skelStore st = skelStore st2) :
    fluxDivergenceFormula pmb (st q) l k j i = fluxDivergenceFormula pmb (st2 q) l k j i := by
  have hflux : (st q).flux = (st2 q).flux := (skelStore_dim h q).2.1
  simp only [fluxDivergenceFormula, fluxDifference1, fluxDifference2, fluxDifference3, hflux]

theorem fluxSlice_congr {R : Type} [Zero R] (ib : IndexRange) (cin cout : List Nat)
    {st st2 : VarStore R} (h : skelStore st = skelStore st2) (k j : Int) (n : Nat) (c : Cell) :
    fluxSlice ib cin cout st k j n c ↔ fluxSlice ib cin cout st2 k j n c := by
  have hdim : (st (cin.getD n 0)).GetDim4 = (st2 (cin.getD n 0)).GetDim4 := by
    unfold CellVariable.GetDim4 CellVariable.GetDim
    rw [(skelStore_dim h _).1]
  unfold fluxSlice
  rw [hdim]

theorem FluxDivergence_j_body_writes {R : Type} [Field R] (pmb : Block R)
    (cin cout : List Nat) (nvars : Nat) (k j : Int) (s : FluxState R)
    (hlen : nvars ≤ cout.length) (hnodup : cout.Nodup) :
    Writes rdF skelSt
      (forRange 0 ((nvars : Int) - 1) (fun n s =>
        let q := cin.getD n.toNat 0
        let dudt := cout.getD n.toNat 0
        forRange 0 ((s.st q).GetDim4 - 1) (fun l s =>
          Update.FluxDivergence_row pmb.ndim pmb.cellbounds.GetBoundsI q dudt l k j s) s)
        (Update.FluxDivergence_areas pmb k j s))
      s
      (fun c => ∃ n, n < nvars ∧ fluxSlice pmb.cellbounds.GetBoundsI cin cout s.st k j n c)
      (fun c => fluxDivergenceFormula pmb (s.st (cin.getD (cout.indexOf c.a) 0))
        c.l c.k c.j c.i) := by
  have hw := FluxDivergence_n_writes pmb.ndim pmb.cellbounds.GetBoundsI cin cout nvars k j
    (Update.FluxDivergence_areas pmb k j s) hlen hnodup
  have hst := FluxDivergence_areas_st pmb k j s
  rw [hst] at hw
  refine { skel_eq := ?_, inside := ?_, outside := ?_ }
  · have h1 := congrArg Prod.fst hw.skel_eq
    simp only [skelAreas] at h1
    rw [hst] at h1
    exact h1
  · rintro c ⟨n, hn, hc⟩
    rw [hw.inside c ⟨n, hn, hc⟩]
    obtain ⟨_, _, hk, hj, hi⟩ := hc
    rw [rowValue_areas pmb _ c.l k j c.i s hi, hk, hj]
  · intro c hc
    rw [hw.outside c hc]
    unfold rdF
    rw [hst]

theorem FluxDivergence_j_writes {R : Type} [Field R] (pmb : Block R)
    (cin cout : List Nat) (nvars : Nat) (k : Int) (s0 : FluxState R)
    (hlen : nvars ≤ cout.length) (hnodup : cout.Nodup) :
    Writes rdF skelSt
      (forRange pmb.cellbounds.GetBoundsJ.s pmb.cellbounds.GetBoundsJ.e (fun j s =>
        forRange 0 ((nvars : Int) - 1) (fun n s =>
          let q := cin.getD n.toNat 0
          let dudt := cout.getD n.toNat 0
          forRange 0 ((s.st q).GetDim4 - 1) (fun l s =>
            Update.FluxDivergence_row pmb.ndim pmb.cellbounds.GetBoundsI q dudt l k j s) s)
          (Update.FluxDivergence_areas pmb k j s)) s0)
      s0
      (fun c => ∃ j, pmb.cellbounds.GetBoundsJ.s ≤ j ∧ j ≤ pmb.cellbounds.GetBoundsJ.e ∧
        ∃ n, n < nvars ∧ fluxSlice pmb.cellbounds.GetBoundsI cin cout s0.st k j n c)
      (fun c => fluxDivergenceFormula pmb (s0.st (cin.getD (cout.indexOf c.a) 0))
        c.l c.k c.j c.i) := by
  apply forRange_writes_proj rdF skelSt pmb.cellbounds.GetBoundsJ.s
    pmb.cellbounds.GetBoundsJ.e _
    (fun j c => ∃ n, n < nvars ∧ fluxSlice pmb.cellbounds.GetBoundsI cin cout s0.st k j n c)
    (fun (s : FluxState R) c =>
      fluxDivergenceFormula pmb (s.st (cin.getD (cout.indexOf c.a) 0)) c.l c.k c.j c.i)
    s0 Cell.j
  · intro j _ _ s hsk
    refine (FluxDivergence_j_body_writes pmb cin cout nvars k j s hlen hnodup).congr ?_
      (fun _ _ => rfl)
    intro c
    constructor
    · rintro ⟨n, hn, hc⟩
      exact ⟨n, hn, (fluxSlice_congr _ cin cout hsk k j n c).mpr hc⟩
    · rintro ⟨n, hn, hc⟩
      exact ⟨n, hn, (fluxSlice_congr _ cin cout hsk k j n c).mp hc⟩
  · rintro j c ⟨n, _, hc⟩
    exact hc.2.2.2.1
  · intro s c hsk _
    exact fluxDivergenceFormula_congr pmb _ c.l c.k c.j c.i hsk

theorem FluxDivergence_k_writes {R : Type} [Field R] (pmb : Block R)
    (cin cout : List Nat) (nvars : Nat) (s0 : FluxState R)
    (hlen : nvars ≤ cout.length) (hnodup : cout.Nodup) :
    Writes rdF skelSt
      (forRange pmb.cellbounds.GetBoundsK.s pmb.cellbounds.GetBoundsK.e (fun k s =>
        forRange pmb.cellbounds.GetBoundsJ.s pmb.cellbounds.GetBoundsJ.e (fun j s =>
          forRange 0 ((nvars : Int) - 1) (fun n s =>
            let q := cin.getD n.toNat 0
            let dudt := cout.getD n.toNat 0
            forRange 0 ((s.st q).GetDim4 - 1) (fun l s =>
              Update.FluxDivergence_row pmb.ndim pmb.cellbounds.GetBoundsI q dudt l k j s) s)
            (Update.FluxDivergence_areas pmb k j s)) s) s0)
      s0
      (fun c => ∃ n, n < nvars ∧ fluxRegion pmb.cellbounds.GetBoundsK
        pmb.cellbounds.GetBoundsJ pmb.cellbounds.GetBoundsI cin cout s0.st n c)
      (fun c => fluxDivergenceFormula pmb (s0.st (cin.getD (cout.indexOf c.a) 0))
        c.l c.k c.j c.i) := by
  have key := forRange_writes_proj rdF skelSt pmb.cellbounds.GetBoundsK.s
    pmb.cellbounds.GetBoundsK.e
    (fun k s =>
      forRange pmb.cellbounds.GetBoundsJ.s pmb.cellbounds.GetBoundsJ.e (fun j s =>
        forRange 0 ((nvars : Int) - 1) (fun n s =>
          let q := cin.getD n.toNat 0
          let dudt := cout.getD n.toNat 0
          forRange 0 ((s.st q).GetDim4 - 1) (fun l s =>
            Update.FluxDivergence_row pmb.ndim pmb.cellbounds.GetBoundsI q dudt l k j s) s)
          (Update.FluxDivergence_areas pmb k j s)) s)
    (fun k c => ∃ j, pmb.cellbounds.GetBoundsJ.s ≤ j ∧ j ≤ pmb.cellbounds.GetBoundsJ.e ∧
        ∃ n, n < nvars ∧ fluxSlice pmb.cellbounds.GetBoundsI cin cout s0.st k j n c)
    (fun (s : FluxState R) c =>
      fluxDivergenceFormula pmb (s.st (cin.getD (cout.indexOf c.a) 0)) c.l c.k c.j c.i)
    s0 Cell.k
    (by
      intro k _ _ s hsk
      refine (FluxDivergence_j_writes pmb cin cout nvars k s hlen hnodup).congr ?_
        (fun _ _ => rfl)
      intro c
      constructor
      · rintro ⟨j, hj1, hj2, n, hn, hc⟩
        exact ⟨j, hj1, hj2, n, hn, (fluxSlice_congr _ cin cout hsk k j n c).mpr hc⟩
      · rintro ⟨j, hj1, hj2, n, hn, hc⟩
        exact ⟨j, hj1, hj2, n, hn, (fluxSlice_congr _ cin cout hsk k j n c).mp hc⟩)
    (by
      rintro k c ⟨j, _, _, n, _, hc⟩
      exact hc.2.2.1)
    (by
      intro s c hsk _
      exact fluxDivergenceFormula_congr pmb _ c.l c.k c.j c.i hsk)
  refine key.congr ?_ (fun _ _ => rfl)
  intro c
  constructor
  · rintro ⟨n, hn, ha, hl, ⟨hk1, hk2⟩, ⟨hj1, hj2⟩, hi⟩
    exact ⟨c.k, hk1, hk2, c.j, hj1, hj2, n, hn, ha, hl, rfl, rfl, hi⟩
  · rintro ⟨k, hk1, hk2, j, hj1, hj2, n, hn, ha, hl, hk, hj, hi⟩
    subst hk
    subst hj
    exact ⟨n, hn, ha, hl, ⟨hk1, hk2⟩, ⟨hj1, hj2⟩, hi⟩

/-- The whole kernel: `FluxDivergence` returns, writes the flux divergence of the
specification to the cells of `fluxRegion`, and writes nothing else. -/
theorem FluxDivergence_writes {R : Type} [Field R] (st0 : VarStore R)
    (in_ dudt_cont : Container R)
    (hlen : (ContainerIterator st0 dudt_cont [MetadataFlag.Independent]).length
      ≤ (ContainerIterator st0 in_ [MetadataFlag.Independent]).length)
    (hnodup : (ContainerIterator st0 dudt_cont [MetadataFlag.Independent]).Nodup) :
    ∃ st1 : VarStore R, Update.FluxDivergence st0 in_ dudt_cont = some st1 ∧
      Writes rdCell skelStore st1 st0
        (fun c => ∃ n, n < (ContainerIterator st0 dudt_cont [MetadataFlag.Independent]).length ∧
          fluxRegion in_.pmy_block.cellbounds.GetBoundsK in_.pmy_block.cellbounds.GetBoundsJ
            in_.pmy_block.cellbounds.GetBoundsI
            (ContainerIterator st0 in_ [MetadataFlag.Independent])
            (ContainerIterator st0 dudt_cont [MetadataFlag.Independent]) st0 n c)
        (fun c => fluxDivergenceFormula in_.pmy_block
          (st0 ((ContainerIterator st0 in_ [MetadataFlag.Independent]).getD
            ((ContainerIterator st0 dudt_cont [MetadataFlag.Independent]).indexOf c.a) 0))
          c.l c.k c.j c.i) := by
  have hw := FluxDivergence_k_writes in_.pmy_block
    (ContainerIterator st0 in_ [MetadataFlag.Independent])
    (ContainerIterator st0 dudt_cont [MetadataFlag.Independent])
    (ContainerIterator st0 dudt_cont [MetadataFlag.Independent]).length
    { st := st0, x1area := fun _ => 0, x2area0 := fun _ => 0, x2area1 := fun _ => 0,
      x3area0 := fun _ => 0, x3area1 := fun _ => 0, vol := fun _ => 0, du := fun _ => 0 }
    (Nat.le_refl _) hnodup
  unfold Update.FluxDivergence
  simp only [hlen, if_true]
  refine ⟨_, rfl, ?_⟩
  exact { skel_eq := hw.skel_eq, inside := hw.inside, outside := hw.outside }

theorem ContainerIterator_congr {R : Type} [Zero R] {st st2 : VarStore R}
    (h : skelStore st = skelStore st2) (c : Container R) (flags : List MetadataFlag) :
    ContainerIterator st c flags = ContainerIterator st2 c flags := by
  unfold ContainerIterator
  congr 1
  funext a
  have hm : (st a)._m = (st2 a)._m := (skelStore_dim h a).2.2.1
  simp only [CellVariable.isSet, hm]

theorem FluxDivergence_elem {R : Type} [Field R] (st0 : VarStore R)
    (in_ dudt_cont : Container R)
    (hlen : (ContainerIterator st0 dudt_cont [MetadataFlag.Independent]).length ≤ (ContainerIterator st0 in_ [MetadataFlag.Independent]).length)
    (hnodup : (ContainerIterator st0 dudt_cont [MetadataFlag.Independent]).Nodup) :
    ∃ st1 : VarStore R, Update.FluxDivergence st0 in_ dudt_cont = some st1 ∧
      ∀ (n : Nat) (l k j i : Int), n < (ContainerIterator st0 dudt_cont [MetadataFlag.Independent]).length →
        0 ≤ l ∧ l < (st0 ((ContainerIterator st0 in_ [MetadataFlag.Independent]).getD n 0)).GetDim4 →
        in_.pmy_block.cellbounds.GetBoundsK.s ≤ k ∧ k ≤ in_.pmy_block.cellbounds.GetBoundsK.e →
        in_.pmy_block.cellbounds.GetBoundsJ.s ≤ j ∧ j ≤ in_.pmy_block.cellbounds.GetBoundsJ.e →
        in_.pmy_block.cellbounds.GetBoundsI.s ≤ i ∧ i ≤ in_.pmy_block.cellbounds.GetBoundsI.e →
        (st1 ((ContainerIterator st0 dudt_cont [MetadataFlag.Independent]).getD n 0)).data.val l k j i
          = fluxDivergenceFormula in_.pmy_block (st0 ((ContainerIterator st0 in_ [MetadataFlag.Independent]).getD n 0)) l k j i := by
  obtain ⟨st1, hrun, hw⟩ := FluxDivergence_writes st0 in_ dudt_cont hlen hnodup
  refine ⟨st1, hrun, ?_⟩
  intro n l k j i hn hl hk hj hi
  have h := hw.inside ⟨(ContainerIterator st0 dudt_cont [MetadataFlag.Independent]).getD n 0, l, k, j, i⟩
    ⟨n, hn, rfl, ⟨hl.1, by have := hl.2; show l ≤ _ - 1; omega⟩, hk, hj, hi⟩
  have hidx : (ContainerIterator st0 dudt_cont [MetadataFlag.Independent]).indexOf ((ContainerIterator st0 dudt_cont [MetadataFlag.Independent]).getD n 0) = n := indexOf_getD_of_nodup hnodup hn
  simp only [hidx] at h
  exact h

/-- C17 (FluxDivergence formula): when the iterator over the independent variables of the
input is at least as long as that of the output and the output variables are distinct,
`FluxDivergence(in, out)` returns, and afterwards, at every position `n`, every component
`l` below the 4th dimension and every interior index `(k, j, i)`, the `n`-th independent
variable of the output holds `-(D1 + D2 + D3) / vol(k, j, i)`, where
`D1 = A1(k,j,i+1) * F1(l,k,j,i+1) - A1(k,j,i) * F1(l,k,j,i)`,
`D2 = A2(k,j+1,i) * F2(l,k,j+1,i) - A2(k,j,i) * F2(l,k,j,i)` if the dimensionality is at
least 2 and 0 otherwise, and
`D3 = A3(k+1,j,i) * F3(l,k+1,j,i) - A3(k,j,i) * F3(l,k,j,i)` if the dimensionality is at
least 3 and 0 otherwise, `F1..F3` being the flux arrays of the `n`-th independent variable
of the input; and the same values are written from every store that differs only in the
elements of the data arrays, so they do not depend on what the output held before. -/
theorem FluxDivergence_formula {R : Type} [Field R] (st0 : VarStore R)
    (in_ dudt_cont : Container R)
    (hlen : (ContainerIterator st0 dudt_cont [MetadataFlag.Independent]).length ≤ (ContainerIterator st0 in_ [MetadataFlag.Independent]).length)
    (hnodup : (ContainerIterator st0 dudt_cont [MetadataFlag.Independent]).Nodup) :
    ∃ st1 : VarStore R, Update.FluxDivergence st0 in_ dudt_cont = some st1 ∧
      (∀ (n : Nat) (l k j i : Int), n < (ContainerIterator st0 dudt_cont [MetadataFlag.Independent]).length →
        0 ≤ l ∧ l < (st0 ((ContainerIterator st0 in_ [MetadataFlag.Independent]).getD n 0)).GetDim4 →
        in_.pmy_block.cellbounds.GetBoundsK.s ≤ k ∧ k ≤ in_.pmy_block.cellbounds.GetBoundsK.e →
        in_.pmy_block.cellbounds.GetBoundsJ.s ≤ j ∧ j ≤ in_.pmy_block.cellbounds.GetBoundsJ.e →
        in_.pmy_block.cellbounds.GetBoundsI.s ≤ i ∧ i ≤ in_.pmy_block.cellbounds.GetBoundsI.e →
        (st1 ((ContainerIterator st0 dudt_cont [MetadataFlag.Independent]).getD n 0)).data.val l k j i
          = -((in_.pmy_block.pcoord.Face1Area k j (i + 1)
                  * ((st0 ((ContainerIterator st0 in_ [MetadataFlag.Independent]).getD n 0)).flux 0).val l k j (i + 1)
                - in_.pmy_block.pcoord.Face1Area k j i
                  * ((st0 ((ContainerIterator st0 in_ [MetadataFlag.Independent]).getD n 0)).flux 0).val l k j i)
              + (if in_.pmy_block.ndim ≥ 2 then
                  in_.pmy_block.pcoord.Face2Area k (j + 1) i
                    * ((st0 ((ContainerIterator st0 in_ [MetadataFlag.Independent]).getD n 0)).flux 1).val l k (j + 1) i
                  - in_.pmy_block.pcoord.Face2Area k j i
                    * ((st0 ((ContainerIterator st0 in_ [MetadataFlag.Independent]).getD n 0)).flux 1).val l k j i
                else 0)
              + (if in_.pmy_block.ndim ≥ 3 then
                  in_.pmy_block.pcoord.Face3Area (k + 1) j i
                    * ((st0 ((ContainerIterator st0 in_ [MetadataFlag.Independent]).getD n 0)).flux 2).val l (k + 1) j i
                  - in_.pmy_block.pcoord.Face3Area k j i
                    * ((st0 ((ContainerIterator st0 in_ [MetadataFlag.Independent]).getD n 0)).flux 2).val l k j i
                else 0))
            / in_.pmy_block.pcoord.CellVolume k j i) ∧
      (∀ st0b : VarStore R, skelStore st0b = skelStore st0 →
        ∃ st1b : VarStore R, Update.FluxDivergence st0b in_ dudt_cont = some st1b ∧
          ∀ (n : Nat) (l k j i : Int), n < (ContainerIterator st0 dudt_cont [MetadataFlag.Independent]).length →
        0 ≤ l ∧ l < (st0 ((ContainerIterator st0 in_ [MetadataFlag.Independent]).getD n 0)).GetDim4 →
        in_.pmy_block.cellbounds.GetBoundsK.s ≤ k ∧ k ≤ in_.pmy_block.cellbounds.GetBoundsK.e →
        in_.pmy_block.cellbounds.GetBoundsJ.s ≤ j ∧ j ≤ in_.pmy_block.cellbounds.GetBoundsJ.e →
        in_.pmy_block.cellbounds.GetBoundsI.s ≤ i ∧ i ≤ in_.pmy_block.cellbounds.GetBoundsI.e →
            (st1b ((ContainerIterator st0 dudt_cont [MetadataFlag.Independent]).getD n 0)).data.val l k j i
              = (st1 ((ContainerIterator st0 dudt_cont [MetadataFlag.Independent]).getD n 0)).data.val l k j i) := by
  obtain ⟨st1, hrun, helem⟩ := FluxDivergence_elem st0 in_ dudt_cont hlen hnodup
  refine ⟨st1, hrun, ?_, ?_⟩
  · intro n l k j i hn hl hk hj hi
    rw [helem n l k j i hn hl hk hj hi]
    rfl
  · intro st0b hsk
    have e1 : (ContainerIterator st0b dudt_cont [MetadataFlag.Independent]) = (ContainerIterator st0 dudt_cont [MetadataFlag.Independent]) := ContainerIterator_congr hsk dudt_cont _
    have e2 : (ContainerIterator st0b in_ [MetadataFlag.Independent]) = (ContainerIterator st0 in_ [MetadataFlag.Independent]) := ContainerIterator_congr hsk in_ _
    obtain ⟨st1b, hrunb, helemb⟩ := FluxDivergence_elem st0b in_ dudt_cont
      (by rw [e1, e2]; exact hlen) (by rw [e1]; exact hnodup)
    refine ⟨st1b, hrunb, ?_⟩
    intro n l k j i hn hl hk hj hi
    rw [e1, e2] at helemb
    have hdim : (st0b ((ContainerIterator st0 in_ [MetadataFlag.Independent]).getD n 0)).GetDim4 = (st0 ((ContainerIterator st0 in_ [MetadataFlag.Independent]).getD n 0)).GetDim4 := by
      unfold CellVariable.GetDim4 CellVariable.GetDim
      rw [(skelStore_dim hsk _).1]
    rw [helemb n l k j i hn (by rw [hdim]; exact hl) hk hj hi,
      helem n l k j i hn hl hk hj hi]
    exact fluxDivergenceFormula_congr _ _ l k j i hsk

/-- C18 (FluxDivergence in one dimension): on a block of dimensionality 1 whose `x1` face
areas and cell volumes are all 1, when the `x1` flux of every independent variable of the
input is `x1flux(l, k, j, i) = i`, the divergence written at every component below the 4th
dimension and every interior index is `-(x1flux(i+1) - x1flux(i)) = -1`, whatever the `x2`
and `x3` flux arrays and face areas hold. -/
theorem FluxDivergence_one_dimension {R : Type} [Field R] (st0 : VarStore R)
    (in_ dudt_cont : Container R)
    (hlen : (ContainerIterator st0 dudt_cont [MetadataFlag.Independent]).length ≤ (ContainerIterator st0 in_ [MetadataFlag.Independent]).length)
    (hnodup : (ContainerIterator st0 dudt_cont [MetadataFlag.Independent]).Nodup)
    (hdim : in_.pmy_block.ndim = 1)
    (harea : ∀ k j i : Int, in_.pmy_block.pcoord.Face1Area k j i = 1)
    (hvol : ∀ k j i : Int, in_.pmy_block.pcoord.CellVolume k j i = 1)
    (hflux : ∀ a, a ∈ (ContainerIterator st0 in_ [MetadataFlag.Independent]) → ∀ l k j i : Int, ((st0 a).flux 0).val l k j i = (i : R)) :
    ∃ st1 : VarStore R, Update.FluxDivergence st0 in_ dudt_cont = some st1 ∧
      ∀ (n : Nat) (l k j i : Int), n < (ContainerIterator st0 dudt_cont [MetadataFlag.Independent]).length →
        0 ≤ l ∧ l < (st0 ((ContainerIterator st0 in_ [MetadataFlag.Independent]).getD n 0)).GetDim4 →
        in_.pmy_block.cellbounds.GetBoundsK.s ≤ k ∧ k ≤ in_.pmy_block.cellbounds.GetBoundsK.e →
        in_.pmy_block.cellbounds.GetBoundsJ.s ≤ j ∧ j ≤ in_.pmy_block.cellbounds.GetBoundsJ.e →
        in_.pmy_block.cellbounds.GetBoundsI.s ≤ i ∧ i ≤ in_.pmy_block.cellbounds.GetBoundsI.e →
        (st1 ((ContainerIterator st0 dudt_cont [MetadataFlag.Independent]).getD n 0)).data.val l k j i
            = -(((st0 ((ContainerIterator st0 in_ [MetadataFlag.Independent]).getD n 0)).flux 0).val l k j (i + 1)
                - ((st0 ((ContainerIterator st0 in_ [MetadataFlag.Independent]).getD n 0)).flux 0).val l k j i) ∧
        (st1 ((ContainerIterator st0 dudt_cont [MetadataFlag.Independent]).getD n 0)).data.val l k j i = -1 := by
  obtain ⟨st1, hrun, helem⟩ := FluxDivergence_elem st0 in_ dudt_cont hlen hnodup
  refine ⟨st1, hrun, ?_⟩
  intro n l k j i hn hl hk hj hi
  have hmem : (ContainerIterator st0 in_ [MetadataFlag.Independent]).getD n 0 ∈ (ContainerIterator st0 in_ [MetadataFlag.Independent]) := by
    rw [List.getD_eq_getElem _ 0 (Nat.lt_of_lt_of_le hn hlen)]
    exact List.getElem_mem _
  have h2 : ¬ in_.pmy_block.ndim ≥ 2 := by omega
  have h3 : ¬ in_.pmy_block.ndim ≥ 3 := by omega
  have hval : (st1 ((ContainerIterator st0 dudt_cont [MetadataFlag.Independent]).getD n 0)).data.val l k j i
      = -(((st0 ((ContainerIterator st0 in_ [MetadataFlag.Independent]).getD n 0)).flux 0).val l k j (i + 1)
          - ((st0 ((ContainerIterator st0 in_ [MetadataFlag.Independent]).getD n 0)).flux 0).val l k j i) := by
    rw [helem n l k j i hn hl hk hj hi]
    simp only [fluxDivergenceFormula, fluxDifference1, h2, h3, if_false, harea, hvol, one_mul,
      add_zero, div_one]
  refine ⟨hval, ?_⟩
  rw [hval, hflux _ hmem, hflux _ hmem]
  push_cast
  ring

theorem FluxDivergence_formula_witness :
    ∃ st1 : VarStore ℚ, Update.FluxDivergence sampleVars sampleIn sampleOut = some st1 ∧
      (∀ (n : Nat) (l k j i : Int), n < (ContainerIterator sampleVars sampleOut [MetadataFlag.Independent]).length →
        0 ≤ l ∧ l < (sampleVars ((ContainerIterator sampleVars sampleIn [MetadataFlag.Independent]).getD n 0)).GetDim4 →
        sampleIn.pmy_block.cellbounds.GetBoundsK.s ≤ k ∧ k ≤ sampleIn.pmy_block.cellbounds.GetBoundsK.e →
        sampleIn.pmy_block.cellbounds.GetBoundsJ.s ≤ j ∧ j ≤ sampleIn.pmy_block.cellbounds.GetBoundsJ.e →
        sampleIn.pmy_block.cellbounds.GetBoundsI.s ≤ i ∧ i ≤ sampleIn.pmy_block.cellbounds.GetBoundsI.e →
        (st1 ((ContainerIterator sampleVars sampleOut [MetadataFlag.Independent]).getD n 0)).data.val l k j i
          = -((sampleIn.pmy_block.pcoord.Face1Area k j (i + 1)
                  * ((sampleVars ((ContainerIterator sampleVars sampleIn [MetadataFlag.Independent]).getD n 0)).flux 0).val l k j (i + 1)
                - sampleIn.pmy_block.pcoord.Face1Area k j i
                  * ((sampleVars ((ContainerIterator sampleVars sampleIn [MetadataFlag.Independent]).getD n 0)).flux 0).val l k j i)
              + (if sampleIn.pmy_block.ndim ≥ 2 then
                  sampleIn.pmy_block.pcoord.Face2Area k (j + 1) i
                    * ((sampleVars ((ContainerIterator sampleVars sampleIn [MetadataFlag.Independent]).getD n 0)).flux 1).val l k (j + 1) i
                  - sampleIn.pmy_block.pcoord.Face2Area k j i
                    * ((sampleVars ((ContainerIterator sampleVars sampleIn [MetadataFlag.Independent]).getD n 0)).flux 1).val l k j i
                else 0)
              + (if sampleIn.pmy_block.ndim ≥ 3 then
                  sampleIn.pmy_block.pcoord.Face3Area (k + 1) j i
                    * ((sampleVars ((ContainerIterator sampleVars sampleIn [MetadataFlag.Independent]).getD n 0)).flux 2).val l (k + 1) j i
                  - sampleIn.pmy_block.pcoord.Face3Area k j i
                    * ((sampleVars ((ContainerIterator sampleVars sampleIn [MetadataFlag.Independent]).getD n 0)).flux 2).val l k j i
                else 0))
            / sampleIn.pmy_block.pcoord.CellVolume k j i) ∧
      (∀ st0b : VarStore ℚ, skelStore st0b = skelStore sampleVars →
        ∃ st1b : VarStore ℚ, Update.FluxDivergence st0b sampleIn sampleOut = some st1b ∧
          ∀ (n : Nat) (l k j i : Int), n < (ContainerIterator sampleVars sampleOut [MetadataFlag.Independent]).length →
        0 ≤ l ∧ l < (sampleVars ((ContainerIterator sampleVars sampleIn [MetadataFlag.Independent]).getD n 0)).GetDim4 →
        sampleIn.pmy_block.cellbounds.GetBoundsK.s ≤ k ∧ k ≤ sampleIn.pmy_block.cellbounds.GetBoundsK.e →
        sampleIn.pmy_block.cellbounds.GetBoundsJ.s ≤ j ∧ j ≤ sampleIn.pmy_block.cellbounds.GetBoundsJ.e →
        sampleIn.pmy_block.cellbounds.GetBoundsI.s ≤ i ∧ i ≤ sampleIn.pmy_block.cellbounds.GetBoundsI.e →
            (st1b ((ContainerIterator sampleVars sampleOut [MetadataFlag.Independent]).getD n 0)).data.val l k j i
              = (st1 ((ContainerIterator sampleVars sampleOut [MetadataFlag.Independent]).getD n 0)).data.val l k j i) :=
  FluxDivergence_formula sampleVars sampleIn sampleOut (by decide) (by decide)

theorem FluxDivergence_one_dimension_witness :
    ∃ st1 : VarStore ℚ, Update.FluxDivergence sampleVars sampleIn sampleOut = some st1 ∧
      ∀ (n : Nat) (l k j i : Int), n < (ContainerIterator sampleVars sampleOut [MetadataFlag.Independent]).length →
        0 ≤ l ∧ l < (sampleVars ((ContainerIterator sampleVars sampleIn [MetadataFlag.Independent]).getD n 0)).GetDim4 →
        sampleIn.pmy_block.cellbounds.GetBoundsK.s ≤ k ∧ k ≤ sampleIn.pmy_block.cellbounds.GetBoundsK.e →
        sampleIn.pmy_block.cellbounds.GetBoundsJ.s ≤ j ∧ j ≤ sampleIn.pmy_block.cellbounds.GetBoundsJ.e →
        sampleIn.pmy_block.cellbounds.GetBoundsI.s ≤ i ∧ i ≤ sampleIn.pmy_block.cellbounds.GetBoundsI.e →
        (st1 ((ContainerIterator sampleVars sampleOut [MetadataFlag.Independent]).getD n 0)).data.val l k j i
            = -(((sampleVars ((ContainerIterator sampleVars sampleIn [MetadataFlag.Independent]).getD n 0)).flux 0).val l k j (i + 1)
                - ((sampleVars ((ContainerIterator sampleVars sampleIn [MetadataFlag.Independent]).getD n 0)).flux 0).val l k j i) ∧
        (st1 ((ContainerIterator sampleVars sampleOut [MetadataFlag.Independent]).getD n 0)).data.val l k j i = -1 :=
  FluxDivergence_one_dimension sampleVars sampleIn sampleOut (by decide) (by decide) rfl
    (fun _ _ _ => rfl) (fun _ _ _ => rfl)
    (by
      have hl : ContainerIterator sampleVars sampleIn [MetadataFlag.Independent] = [0] := by
        decide
      intro a ha l k j i
      rw [hl] at ha
      have h1 : a = 0 := by simpa using ha
      subst h1
      rfl)

/-! ## Face-variable direction accessors -/

theorem assert_enabled (expr : String) (cond : Bool) :
    assert false expr cond = if cond then .ok () else .error (.assertion_failed expr) := by
  simp [assert]

theorem assert_disabled (expr : String) (cond : Bool) : assert true expr cond = .ok () := by
  simp [assert]

/-- C21 (as stated, refuted): in a build with `NDEBUG` defined the direction `0` is not
rejected by `Get` and the direction `4` is not rejected by `operator()`: both accessors
return the `x3f` component (whose elements are `3` in `sampleFace`). -/
theorem FaceVariable_out_of_range_unrejected :
    FaceVariable.Get true sampleFace 0 = .ok sampleFace.data.x3f ∧
    (∀ e, FaceVariable.Get true sampleFace 0 ≠ .error e) ∧
    FaceVariable.call true sampleFace 4 0 0 0 0 = .ok 3 ∧
    (∀ e, FaceVariable.call true sampleFace 4 0 0 0 0 ≠ .error e) := by
  refine ⟨rfl, ?_, rfl, ?_⟩
  · intro e h
    have h2 : FaceVariable.Get true sampleFace 0 = .ok sampleFace.data.x3f := rfl
    rw [h2] at h
    cases h
  · intro e h
    have h2 : FaceVariable.call true sampleFace 4 0 0 0 0 = .ok 3 := rfl
    rw [h2] at h
    cases h

/-- C21 (amended): for every face variable, `Get(dir)` and `operator()(dir, ...)` select
`x1f` for direction 1, `x2f` for direction 2 and `x3f` for direction 3, in every build; a
direction outside `1..3` fails the assertion when assertions are compiled in, and when they
are compiled out (`NDEBUG`) it is served from the `x3f` component. -/
theorem FaceVariable_direction_accessors {R : Type} (NDEBUG : Bool) (v : FaceVariable R)
    (dir l k j i : Int) :
    (dir = 1 → FaceVariable.Get NDEBUG v dir = .ok v.data.x1f ∧
      FaceVariable.call NDEBUG v dir l k j i = .ok (v.data.x1f.val l k j i)) ∧
    (dir = 2 → FaceVariable.Get NDEBUG v dir = .ok v.data.x2f ∧
      FaceVariable.call NDEBUG v dir l k j i = .ok (v.data.x2f.val l k j i)) ∧
    (dir = 3 → FaceVariable.Get NDEBUG v dir = .ok v.data.x3f ∧
      FaceVariable.call NDEBUG v dir l k j i = .ok (v.data.x3f.val l k j i)) ∧
    (¬ (1 ≤ dir ∧ dir ≤ 3) → NDEBUG = false →
      FaceVariable.Get NDEBUG v dir = .error (.assertion_failed "1 <= i && i <= 3") ∧
      FaceVariable.call NDEBUG v dir l k j i =
        .error (.assertion_failed "1 <= dir && dir <= 3")) ∧
    (¬ (1 ≤ dir ∧ dir ≤ 3) → NDEBUG = true →
      FaceVariable.Get NDEBUG v dir = .ok v.data.x3f ∧
      FaceVariable.call NDEBUG v dir l k j i = .ok (v.data.x3f.val l k j i)) := by
  refine ⟨?_, ?_, ?_, ?_, ?_⟩
  · intro h
    subst h
    cases NDEBUG <;> simp [FaceVariable.Get, FaceVariable.call, assert]
  · intro h
    subst h
    cases NDEBUG <;> simp [FaceVariable.Get, FaceVariable.call, assert]
  · intro h
    subst h
    cases NDEBUG <;> simp [FaceVariable.Get, FaceVariable.call, assert]
  · intro h hn
    subst hn
    have hc : (decide (1 ≤ dir) && decide (dir ≤ 3)) = false := by
      simpa using h
    simp [FaceVariable.Get, FaceVariable.call, assert, hc]
  · intro h hn
    subst hn
    have h1 : dir ≠ 1 := by intro h1; apply h; omega
    have h2 : dir ≠ 2 := by intro h2; apply h; omega
    simp [FaceVariable.Get, FaceVariable.call, assert, h1, h2]

/-! ## The partition cache: ids that name no partition -/

theorem digitChar_ne_minus (d : Nat) (h : d < 10) : Nat.digitChar d ≠ '-' := by
  interval_cases d <;> decide

theorem toDigitsCore_no_minus (fuel : Nat) :
    ∀ (n : Nat) (ds : List Char), (∀ c ∈ ds, c ≠ '-') →
      ∀ c ∈ Nat.toDigitsCore 10 fuel n ds, c ≠ '-' := by
  induction fuel with
  | zero =>
    intro n ds hds c hc
    exact hds c (by simpa [Nat.toDigitsCore] using hc)
  | succ fuel ih =>
    intro n ds hds c hc
    have hcons : ∀ c ∈ Nat.digitChar (n % 10) :: ds, c ≠ '-' := by
      intro c hc
      rcases List.mem_cons.mp hc with h | h
      · rw [h]
        exact digitChar_ne_minus _ (Nat.mod_lt _ (by norm_num))
      · exact hds c h
    by_cases h0 : n / 10 = 0
    · apply hcons c
      simpa [Nat.toDigitsCore, h0] using hc
    · apply ih (n / 10) _ hcons c
      simpa [Nat.toDigitsCore, h0] using hc

theorem toString_nat_no_minus (i : Nat) : '-' ∉ (toString i).data := by
  intro h
  have e : (toString i).data = Nat.toDigitsCore 10 (i + 1) i [] := by
    show (Nat.toDigits 10 i).asString.data = _
    simp [Nat.toDigits, List.asString]
  rw [e] at h
  exact toDigitsCore_no_minus (i + 1) i [] (by simp) '-' h rfl

theorem toString_negSucc_data (m : Nat) :
    (toString (Int.negSucc m)).data = '-' :: (toString (m + 1)).data := rfl

/-- The key of a negative partition id is the key of no partition number. -/
theorem partLabel_negSucc_ne (label : String) (m i : Nat) :
    label ++ "_part-" ++ toString (Int.negSucc m) ≠ label ++ "_part-" ++ toString i := by
  intro h
  have hd := congrArg String.data h
  simp only [String.data_append, List.append_cancel_left_eq] at hd
  apply toString_nat_no_minus i
  rw [← hd, toString_negSucc_data]
  exact List.mem_cons_self _ _

/-- The key of a partition id outside `0 .. count - 1` is the key of no partition number
below `count`. -/
theorem partLabel_out_of_range (label : String) (partition_id : Int) (count : Nat)
    (hout : ¬ (0 ≤ partition_id ∧ partition_id < (count : Int))) :
    ∀ i, i < count →
      label ++ "_part-" ++ toString partition_id ≠ label ++ "_part-" ++ toString (0 + i) := by
  intro i hi heq
  rw [Nat.zero_add] at heq
  cases partition_id with
  | ofNat m =>
    have hm : m = i := partLabel_injective label m i heq
    apply hout
    subst hm
    exact ⟨Int.ofNat_nonneg _, Int.ofNat_lt.mpr hi⟩
  | negSucc m => exact partLabel_negSucc_ne label m i heq

/-- C22 (partition id that names no partition): with the mesh pointer set, for every
label and every partition id `k` whose key `label + "_part-" + k` is not cached,
`GetOrAddByPartition(label, k)` raises no error and leaves the returned handle registered
under the key, so that the same call repeated is a cache hit returning the same handle
and changing nothing; the returned handle is a real partition if and only if
`0 <= k < ceil(N/P)`; and when `k` is outside that range (negative, at least
`ceil(N/P)`, or any `k` for an empty block list) the handle returned, registered and
returned again is the null handle, which points to no container. -/
theorem GetOrAddByPartition_out_of_range {T : Type} (ops : ContainerOps T) (s : State T)
    (mbd_label : String) (partition_id : Int) (mesh : Mesh)
    (hmiss : StdMap.find s.dc.containers_ (mbd_label ++ "_part-" ++ toString partition_id)
      = none)
    (hmesh : s.dc.pmy_mesh_ = some mesh) :
    ∃ (r : Ptr) (s1 : State T),
      GetOrAddByPartition ops s mbd_label partition_id = (.ok r, s1) ∧
      StdMap.find s1.dc.containers_ (mbd_label ++ "_part-" ++ toString partition_id)
        = some r ∧
      GetOrAddByPartition ops s1 mbd_label partition_id = (.ok r, s1) ∧
      (r ≠ none ↔ (0 ≤ partition_id ∧ partition_id <
        (((mesh.block_list.length + mesh.DefaultPackSize - 1) / mesh.DefaultPackSize : Nat)
          : Int))) ∧
      (¬ (0 ≤ partition_id ∧ partition_id <
        (((mesh.block_list.length + mesh.DefaultPackSize - 1) / mesh.DefaultPackSize : Nat)
          : Int)) →
        r = none ∧ deref s1.heap r = none ∧
        StdMap.find s1.dc.containers_ (mbd_label ++ "_part-" ++ toString partition_id)
          = some none ∧
        GetOrAddByPartition ops s1 mbd_label partition_id = (.ok none, s1)) ∧
      (mesh.block_list = [] → 1 ≤ mesh.DefaultPackSize → r = none) := by
  have hlen := ToSizeN_length mesh.block_list mesh.DefaultPackSize
  obtain ⟨_, f2, f3⟩ := GetOrAddByPartition_fold_spec ops mbd_label
    (ToSizeN mesh.block_list mesh.DefaultPackSize) 0 (s.heap, s.dc.containers_)
  rw [hlen] at f2 f3
  have hreg := StdMap.find_subscript
    ((ToSizeN mesh.block_list mesh.DefaultPackSize).enum.foldl
      (GetOrAddByPartition_step ops mbd_label) (s.heap, s.dc.containers_)).2
    (mbd_label ++ "_part-" ++ toString partition_id)
  have hnull : ¬ (0 ≤ partition_id ∧ partition_id <
      (((mesh.block_list.length + mesh.DefaultPackSize - 1) / mesh.DefaultPackSize : Nat)
        : Int)) →
      (StdMap.subscript
        ((ToSizeN mesh.block_list mesh.DefaultPackSize).enum.foldl
          (GetOrAddByPartition_step ops mbd_label) (s.heap, s.dc.containers_)).2
        (mbd_label ++ "_part-" ++ toString partition_id)).2 = none := by
    intro hout
    have hfind := f3 _ (partLabel_out_of_range mbd_label partition_id _ hout)
    rw [show (s.heap, s.dc.containers_).2 = s.dc.containers_ from rfl, hmiss] at hfind
    unfold StdMap.subscript
    rw [List.enum, hfind]
  have hsecond := GetOrAddByPartition_of_hit ops
    (GetOrAddByPartition ops s mbd_label partition_id).2 mbd_label partition_id
  rw [GetOrAddByPartition_of_miss ops s mbd_label partition_id mesh hmiss hmesh] at hsecond
  refine ⟨_, _, GetOrAddByPartition_of_miss ops s mbd_label partition_id mesh hmiss hmesh,
    hreg, hsecond _ hreg, ⟨?_, ?_⟩, ?_, ?_⟩
  · intro hr
    by_contra hout
    exact hr (hnull hout)
  · rintro ⟨h0, hlt⟩
    obtain ⟨i, rfl⟩ := Int.eq_ofNat_of_zero_le h0
    have hi := f2 i (Int.ofNat_lt.mp hlt)
    rw [Nat.zero_add] at hi
    have hkey : toString ((i : Nat) : Int) = toString i := rfl
    rw [hkey, List.enum, StdMap.subscript_of_find hi]
    simp
  · intro hout
    have hr := hnull hout
    refine ⟨hr, ?_, ?_, ?_⟩
    · rw [hr]
      rfl
    · rw [← hr]
      exact hreg
    · have h2 := hsecond _ hreg
      rw [hr] at h2
      exact h2
  · intro hN hP
    apply hnull
    rintro ⟨h0, hlt⟩
    have hz : (mesh.block_list.length + mesh.DefaultPackSize - 1) / mesh.DefaultPackSize
        = 0 := by
      rw [hN]
      apply Nat.div_eq_of_lt
      simp only [List.length_nil]
      omega
    rw [hz] at hlt
    omega

theorem GetOrAddByPartition_out_of_range_witness :
    ∃ (r : Ptr) (s1 : State FieldList),
      GetOrAddByPartition (fieldListOps true) sampleOddState "base" (-1 : Int) = (.ok r, s1) ∧
      StdMap.find s1.dc.containers_ ("base" ++ "_part-" ++ toString (-1 : Int))
        = some r ∧
      GetOrAddByPartition (fieldListOps true) s1 "base" (-1 : Int) = (.ok r, s1) ∧
      (r ≠ none ↔ (0 ≤ (-1 : Int) ∧ (-1 : Int) <
        (((sampleOddMesh.block_list.length + sampleOddMesh.DefaultPackSize - 1) / sampleOddMesh.DefaultPackSize : Nat)
          : Int))) ∧
      (¬ (0 ≤ (-1 : Int) ∧ (-1 : Int) <
        (((sampleOddMesh.block_list.length + sampleOddMesh.DefaultPackSize - 1) / sampleOddMesh.DefaultPackSize : Nat)
          : Int)) →
        r = none ∧ deref s1.heap r = none ∧
        StdMap.find s1.dc.containers_ ("base" ++ "_part-" ++ toString (-1 : Int))
          = some none ∧
        GetOrAddByPartition (fieldListOps true) s1 "base" (-1 : Int) = (.ok none, s1)) ∧
      (sampleOddMesh.block_list = [] → 1 ≤ sampleOddMesh.DefaultPackSize → r = none) :=
  GetOrAddByPartition_out_of_range (fieldListOps true) sampleOddState "base" (-1) sampleOddMesh
    (by decide) (by decide)

/-! ## The frame of the update kernels -/

theorem forRange_inv {σ : Type} (P : σ → Prop) (s e : Int) (body : Int → σ → σ) (st0 : σ)
    (h0 : P st0) (hbody : ∀ x, s ≤ x → x ≤ e → ∀ st, P st → P (body x st)) :
    P (forRange s e body st0) := by
  unfold forRange
  have key : ∀ m : Nat, m ≤ (e + 1 - s).toNat →
      P ((List.range m).foldl (fun st (n : Nat) => body (s + (n : Int)) st) st0) := by
    intro m
    induction m with
    | zero =>
      intro _
      simpa using h0
    | succ m ih =>
      intro hm
      rw [List.range_succ, List.foldl_append]
      simp only [List.foldl_cons, List.foldl_nil]
      exact hbody _ (by omega) (by omega) _ (ih (by omega))
  exact key _ (Nat.le_refl _)

theorem FrameOf.refl {R : Type} [Zero R] (W : Cell → Prop) (st0 : VarStore R) :
    FrameOf W st0 st0 := ⟨rfl, fun _ _ => rfl⟩

theorem writeData_frame {R : Type} [Zero R] {W : Cell → Prop} {st0 st : VarStore R}
    (h : FrameOf W st0 st) (a : Nat) (l k j i : Int) (v : R) (hW : W ⟨a, l, k, j, i⟩) :
    FrameOf W st0 (writeData st a l k j i v) := by
  have hw := writeData_writes st a l k j i v
  refine ⟨hw.skel_eq.trans h.1, ?_⟩
  intro c hc
  have hne : ¬ c = ⟨a, l, k, j, i⟩ := by
    intro heq
    apply hc
    rw [heq]
    exact hW
  rw [hw.outside c hne]
  exact h.2 c hc

theorem FrameOf.dim4 {R : Type} [Zero R] {W : Cell → Prop} {st0 st : VarStore R}
    (h : FrameOf W st0 st) (a : Nat) : (st a).GetDim4 = (st0 a).GetDim4 := by
  unfold CellVariable.GetDim4 CellVariable.GetDim
  rw [(skelStore_dim h.1 a).1]

/-- The loops of `UpdateContainer` and `AverageContainers` write only to cells of
`mapRegion`, whatever variables the lists share. -/
theorem mapKernel_frame {R : Type} [Zero R] (kb jb ib : IndexRange)
    (tgt srcA srcB : List Nat) (nvars : Nat) (g : R → R → R) (st0 : VarStore R) :
    FrameOf (fun c => ∃ n, n < nvars ∧ mapRegion kb jb ib tgt st0 n c) st0
      (mapKernel kb jb ib tgt srcA srcB (nvars : Int) g st0) := by
  unfold mapKernel
  refine forRange_inv (FrameOf (fun c => ∃ n, n < nvars ∧ mapRegion kb jb ib tgt st0 n c) st0)
    _ _ _ _ (FrameOf.refl _ _) ?_
  intro n hn0 hn1 st hP
  dsimp only
  refine forRange_inv (FrameOf (fun c => ∃ n, n < nvars ∧ mapRegion kb jb ib tgt st0 n c) st0)
    _ _ _ _ hP ?_
  intro l hl0 hl1 st2 hP2
  refine forRange_inv (FrameOf (fun c => ∃ n, n < nvars ∧ mapRegion kb jb ib tgt st0 n c) st0)
    _ _ _ _ hP2 ?_
  intro k hk0 hk1 st3 hP3
  refine forRange_inv (FrameOf (fun c => ∃ n, n < nvars ∧ mapRegion kb jb ib tgt st0 n c) st0)
    _ _ _ _ hP3 ?_
  intro j hj0 hj1 st4 hP4
  refine forRange_inv (FrameOf (fun c => ∃ n, n < nvars ∧ mapRegion kb jb ib tgt st0 n c) st0)
    _ _ _ _ hP4 ?_
  intro i hi0 hi1 st5 hP5
  apply writeData_frame hP5
  rw [hP.dim4] at hl1
  exact ⟨n.toNat, by omega, rfl, ⟨hl0, hl1⟩, ⟨hk0, hk1⟩, ⟨hj0, hj1⟩, ⟨hi0, hi1⟩⟩

theorem FluxDivergence_row_frame {R : Type} [Field R] {W : Cell → Prop} {st0 : VarStore R}
    (ndim : Int) (ib : IndexRange) (q dudt : Nat) (l k j : Int) (s : FluxState R)
    (h : FrameOf W st0 s.st) (hW : ∀ i, ib.s ≤ i → i ≤ ib.e → W ⟨dudt, l, k, j, i⟩) :
    FrameOf W st0 (Update.FluxDivergence_row ndim ib q dudt l k j s).st := by
  have hst := congrArg Prod.fst (FluxDivergence_du_value ndim ib q l k j s).1
  simp only [skelNoDu] at hst
  unfold Update.FluxDivergence_row Update.FluxDivergence_store
  refine forRange_inv (fun s : FluxState R => FrameOf W st0 s.st) _ _ _ _ ?_ ?_
  · show FrameOf W st0 _
    rw [hst]
    exact h
  · intro i hi0 hi1 s2 hP
    exact writeData_frame hP dudt l k j i _ (hW i hi0 hi1)

/-- The loops of `FluxDivergence` write only to cells of `fluxRegion`, whatever variables
the lists share. -/
theorem FluxDivergence_loops_frame {R : Type} [Field R] (pmb : Block R)
    (cin cout : List Nat) (nvars : Nat) (s0 : FluxState R) :
    FrameOf (fun c => ∃ n, n < nvars ∧ fluxRegion pmb.cellbounds.GetBoundsK
        pmb.cellbounds.GetBoundsJ pmb.cellbounds.GetBoundsI cin cout s0.st n c) s0.st
      (forRange pmb.cellbounds.GetBoundsK.s pmb.cellbounds.GetBoundsK.e (fun k s =>
        forRange pmb.cellbounds.GetBoundsJ.s pmb.cellbounds.GetBoundsJ.e (fun j s =>
          forRange 0 ((nvars : Int) - 1) (fun n s =>
            let q := cin.getD n.toNat 0
            let dudt := cout.getD n.toNat 0
            forRange 0 ((s.st q).GetDim4 - 1) (fun l s =>
              Update.FluxDivergence_row pmb.ndim pmb.cellbounds.GetBoundsI q dudt l k j s) s)
            (Update.FluxDivergence_areas pmb k j s)) s) s0).st := by
  refine forRange_inv (fun s : FluxState R =>
    FrameOf (fun c => ∃ n, n < nvars ∧ fluxRegion pmb.cellbounds.GetBoundsK
      pmb.cellbounds.GetBoundsJ pmb.cellbounds.GetBoundsI cin cout s0.st n c) s0.st s.st)
    _ _ _ _ (FrameOf.refl _ _) ?_
  intro k hk0 hk1 s1 hP1
  refine forRange_inv (fun s : FluxState R =>
    FrameOf (fun c => ∃ n, n < nvars ∧ fluxRegion pmb.cellbounds.GetBoundsK
      pmb.cellbounds.GetBoundsJ pmb.cellbounds.GetBoundsI cin cout s0.st n c) s0.st s.st)
    _ _ _ _ hP1 ?_
  intro j hj0 hj1 s2 hP2
  refine forRange_inv (fun s : FluxState R =>
    FrameOf (fun c => ∃ n, n < nvars ∧ fluxRegion pmb.cellbounds.GetBoundsK
      pmb.cellbounds.GetBoundsJ pmb.cellbounds.GetBoundsI cin cout s0.st n c) s0.st s.st)
    _ _ _ _ ?_ ?_
  · show FrameOf _ s0.st (Update.FluxDivergence_areas pmb k j s2).st
    rw [FluxDivergence_areas_st]
    exact hP2
  intro n hn0 hn1 s3 hP3
  dsimp only
  refine forRange_inv (fun s : FluxState R =>
    FrameOf (fun c => ∃ n, n < nvars ∧ fluxRegion pmb.cellbounds.GetBoundsK
      pmb.cellbounds.GetBoundsJ pmb.cellbounds.GetBoundsI cin cout s0.st n c) s0.st s.st)
    _ _ _ _ hP3 ?_
  intro l hl0 hl1 s4 hP4
  apply FluxDivergence_row_frame _ _ _ _ _ _ _ _ hP4
  intro i hi0 hi1
  have hP3b : FrameOf _ s0.st s3.st := hP3
  rw [hP3b.dim4] at hl1
  exact ⟨n.toNat, by omega, rfl, ⟨hl0, hl1⟩, ⟨hk0, hk1⟩, ⟨hj0, hj1⟩, ⟨hi0, hi1⟩⟩

theorem FluxDivergence_frame {R : Type} [Field R] (st0 : VarStore R)
    (in_ dudt_cont : Container R)
    (hlen : (ContainerIterator st0 dudt_cont [MetadataFlag.Independent]).length
      ≤ (ContainerIterator st0 in_ [MetadataFlag.Independent]).length) :
    ∃ st1 : VarStore R, Update.FluxDivergence st0 in_ dudt_cont = some st1 ∧
      FrameOf
        (fun c => ∃ n, n < (ContainerIterator st0 dudt_cont [MetadataFlag.Independent]).length ∧
          fluxRegion in_.pmy_block.cellbounds.GetBoundsK in_.pmy_block.cellbounds.GetBoundsJ
            in_.pmy_block.cellbounds.GetBoundsI
            (ContainerIterator st0 in_ [MetadataFlag.Independent])
            (ContainerIterator st0 dudt_cont [MetadataFlag.Independent]) st0 n c)
        st0 st1 := by
  have hw := FluxDivergence_loops_frame in_.pmy_block
    (ContainerIterator st0 in_ [MetadataFlag.Independent])
    (ContainerIterator st0 dudt_cont [MetadataFlag.Independent])
    (ContainerIterator st0 dudt_cont [MetadataFlag.Independent]).length
    { st := st0, x1area := fun _ => 0, x2area0 := fun _ => 0, x2area1 := fun _ => 0,
      x3area0 := fun _ => 0, x3area1 := fun _ => 0, vol := fun _ => 0, du := fun _ => 0 }
  unfold Update.FluxDivergence
  simp only [hlen, if_true]
  exact ⟨_, rfl, hw⟩

theorem CellVariable.eq_of_skeleton {R : Type} [Zero R] {v1 v2 : CellVariable R}
    (hs : skeleton v1 = skeleton v2)
    (hv : ∀ l k j i, v1.data.val l k j i = v2.data.val l k j i) : v1 = v2 := by
  obtain ⟨⟨dim1, val1⟩, flux1, m1, label1⟩ := v1
  obtain ⟨⟨dim2, val2⟩, flux2, m2, label2⟩ := v2
  simp only [skeleton, CellVariable.mk.injEq, ParArrayND.mk.injEq, and_true] at hs
  obtain ⟨h1, h2, h3, h4⟩ := hs
  have h5 : val1 = val2 := by
    funext l k j i
    exact hv l k j i
  subst h1 h2 h3 h4 h5
  rfl

theorem FrameOf.var_eq {R : Type} [Zero R] {W : Cell → Prop} {st0 st1 : VarStore R}
    (h : FrameOf W st0 st1) (a : Nat) (ha : ∀ l k j i, ¬ W ⟨a, l, k, j, i⟩) :
    st1 a = st0 a :=
  CellVariable.eq_of_skeleton (congrFun h.1 a) (fun l k j i => h.2 ⟨a, l, k, j, i⟩ (ha l k j i))

theorem mem_ContainerIterator {R : Type} {st : VarStore R} {c : Container R} {a : Nat}
    (h : a ∈ ContainerIterator st c [MetadataFlag.Independent]) :
    a ∈ c.vars ∧ (st a).isSet MetadataFlag.Independent = true := by
  unfold ContainerIterator at h
  simpa using h

theorem getD_mem_of_lt {l : List Nat} {n : Nat} (h : n < l.length) : l.getD n 0 ∈ l := by
  rw [List.getD_eq_getElem l 0 h]
  exact List.getElem_mem h

/-- What a frame over cells of the independent variables of a container, at interior
indices, says of ghost indices, of variables not flagged independent and of variables the
container does not hold. -/
theorem FrameOf.consequences {R : Type} [Zero R] {W : Cell → Prop} {st0 st1 : VarStore R}
    (kb jb ib : IndexRange) (tgt : Container R) (h : FrameOf W st0 st1)
    (hW : ∀ c, W c → c.a ∈ ContainerIterator st0 tgt [MetadataFlag.Independent] ∧
      (kb.s ≤ c.k ∧ c.k ≤ kb.e) ∧ (jb.s ≤ c.j ∧ c.j ≤ jb.e) ∧ (ib.s ≤ c.i ∧ c.i ≤ ib.e)) :
    (∀ (a : Nat) (l k j i : Int),
      ¬ ((kb.s ≤ k ∧ k ≤ kb.e) ∧ (jb.s ≤ j ∧ j ≤ jb.e) ∧ (ib.s ≤ i ∧ i ≤ ib.e)) →
      (st1 a).data.val l k j i = (st0 a).data.val l k j i) ∧
    (∀ a : Nat, (st0 a).isSet MetadataFlag.Independent = false → st1 a = st0 a) ∧
    (∀ a : Nat, a ∉ tgt.vars → st1 a = st0 a) := by
  refine ⟨?_, ?_, ?_⟩
  · intro a l k j i hghost
    exact h.2 ⟨a, l, k, j, i⟩ (fun hc => hghost (hW _ hc).2)
  · intro a hflag
    apply h.var_eq
    intro l k j i hc
    have hm := (mem_ContainerIterator (hW _ hc).1).2
    rw [hflag] at hm
    cases hm
  · intro a hnot
    apply h.var_eq
    intro l k j i hc
    exact hnot (mem_ContainerIterator (hW _ hc).1).1

/-- The frame of the loops of `UpdateContainer` and `AverageContainers` over the
independent variables of the container `tgt`. -/
theorem mapKernel_frame_all {R : Type} [Zero R] (kb jb ib : IndexRange) (tgt : Container R)
    (srcA srcB : List Nat) (nvars : Nat) (g : R → R → R) (st0 st1 : VarStore R)
    (hn : nvars ≤ (ContainerIterator st0 tgt [MetadataFlag.Independent]).length)
    (hst : st1 = mapKernel kb jb ib (ContainerIterator st0 tgt [MetadataFlag.Independent])
      srcA srcB (nvars : Int) g st0) :
    skelStore st1 = skelStore st0 ∧
    (∀ c : Cell,
      ¬ (∃ n, n < nvars ∧
        mapRegion kb jb ib (ContainerIterator st0 tgt [MetadataFlag.Independent]) st0 n c) →
      rdCell st1 c = rdCell st0 c) ∧
    (∀ (a : Nat) (l k j i : Int),
      ¬ ((kb.s ≤ k ∧ k ≤ kb.e) ∧ (jb.s ≤ j ∧ j ≤ jb.e) ∧ (ib.s ≤ i ∧ i ≤ ib.e)) →
      (st1 a).data.val l k j i = (st0 a).data.val l k j i) ∧
    (∀ (a : Nat) (l k j i : Int), ¬ (0 ≤ l ∧ l < (st0 a).GetDim4) →
      (st1 a).data.val l k j i = (st0 a).data.val l k j i) ∧
    (∀ a : Nat, (st0 a).isSet MetadataFlag.Independent = false → st1 a = st0 a) ∧
    (∀ a : Nat, a ∉ tgt.vars → st1 a = st0 a) := by
  subst hst
  have hf := mapKernel_frame kb jb ib (ContainerIterator st0 tgt [MetadataFlag.Independent])
    srcA srcB nvars g st0
  have hreg : ∀ c : Cell,
      (∃ n, n < nvars ∧
        mapRegion kb jb ib (ContainerIterator st0 tgt [MetadataFlag.Independent]) st0 n c) →
      c.a ∈ ContainerIterator st0 tgt [MetadataFlag.Independent] ∧
      (kb.s ≤ c.k ∧ c.k ≤ kb.e) ∧ (jb.s ≤ c.j ∧ c.j ≤ jb.e) ∧ (ib.s ≤ c.i ∧ c.i ≤ ib.e) := by
    rintro c ⟨n, hlt, ha, _, hk, hj, hi⟩
    refine ⟨?_, hk, hj, hi⟩
    rw [ha]
    exact getD_mem_of_lt (Nat.lt_of_lt_of_le hlt hn)
  obtain ⟨g1, g2, g3⟩ := hf.consequences kb jb ib tgt hreg
  refine ⟨hf.1, hf.2, g1, ?_, g2, g3⟩
  intro a l k j i hl
  apply hf.2 ⟨a, l, k, j, i⟩
  rintro ⟨n, _, ha, hl2, _⟩
  apply hl
  have ha2 : a = (ContainerIterator st0 tgt [MetadataFlag.Independent]).getD n 0 := ha
  have hl3 : 0 ≤ l ∧ l ≤ (st0 ((ContainerIterator st0 tgt
      [MetadataFlag.Independent]).getD n 0)).GetDim4 - 1 := hl2
  rw [ha2]
  omega

/-- C23 (kernel frame): whatever variables the containers share, each of
`UpdateContainer(in, rate, dt, out)`, `AverageContainers(c1, c2, wgt1)` and
`FluxDivergence(in, out)` returns (when the iterators it indexes are long enough) and
writes only to data elements of the independent variables of its target container (`out`,
`c1`, the output container), at components `l` below the 4th dimension and interior indices
`(k, j, i)`: dimensions, flux arrays, metadata and labels of every variable are unchanged;
every data element outside that region is unchanged, in particular every element at a
ghost index, every element at a component outside the 4th dimension, every variable that
is not flagged independent, and every variable that the target container does not hold
(so every variable of the input containers that is not shared with the target). -/
theorem kernels_write_only_interior {R : Type} [Field R] (st0 : VarStore R)
    (in_ dudt_cont out c1 c2 fin fout : Container R) (dt wgt1 : R)
    (hin : (ContainerIterator st0 out [MetadataFlag.Independent]).length ≤ (ContainerIterator st0 in_ [MetadataFlag.Independent]).length)
    (hrate : (ContainerIterator st0 out [MetadataFlag.Independent]).length ≤ (ContainerIterator st0 dudt_cont [MetadataFlag.Independent]).length)
    (havg : (ContainerIterator st0 c2 [MetadataFlag.Independent]).length ≤ (ContainerIterator st0 c1 [MetadataFlag.Independent]).length)
    (hflux : (ContainerIterator st0 fout [MetadataFlag.Independent]).length ≤ (ContainerIterator st0 fin [MetadataFlag.Independent]).length) :
    (∃ st1 : VarStore R, Update.UpdateContainer st0 in_ dudt_cont dt out = some st1 ∧
      skelStore st1 = skelStore st0 ∧
      (∀ c : Cell,
        ¬ (∃ n, n < (ContainerIterator st0 out [MetadataFlag.Independent]).length ∧
          mapRegion in_.pmy_block.cellbounds.GetBoundsK in_.pmy_block.cellbounds.GetBoundsJ
            in_.pmy_block.cellbounds.GetBoundsI
            (ContainerIterator st0 out [MetadataFlag.Independent]) st0 n c) →
        rdCell st1 c = rdCell st0 c) ∧
      (∀ (a : Nat) (l k j i : Int),
        ¬ ((in_.pmy_block.cellbounds.GetBoundsK.s ≤ k ∧ k ≤ in_.pmy_block.cellbounds.GetBoundsK.e) ∧
          (in_.pmy_block.cellbounds.GetBoundsJ.s ≤ j ∧ j ≤ in_.pmy_block.cellbounds.GetBoundsJ.e) ∧
          (in_.pmy_block.cellbounds.GetBoundsI.s ≤ i ∧ i ≤ in_.pmy_block.cellbounds.GetBoundsI.e)) →
        (st1 a).data.val l k j i = (st0 a).data.val l k j i) ∧
      (∀ (a : Nat) (l k j i : Int), ¬ (0 ≤ l ∧ l < (st0 a).GetDim4) →
        (st1 a).data.val l k j i = (st0 a).data.val l k j i) ∧
      (∀ a : Nat, (st0 a).isSet MetadataFlag.Independent = false → st1 a = st0 a) ∧
      (∀ a : Nat, a ∉ out.vars → st1 a = st0 a)) ∧
    (∃ st1 : VarStore R, Update.AverageContainers st0 c1 c2 wgt1 = some st1 ∧
      skelStore st1 = skelStore st0 ∧
      (∀ c : Cell,
        ¬ (∃ n, n < (ContainerIterator st0 c2 [MetadataFlag.Independent]).length ∧
          mapRegion c1.pmy_block.cellbounds.GetBoundsK c1.pmy_block.cellbounds.GetBoundsJ
            c1.pmy_block.cellbounds.GetBoundsI
            (ContainerIterator st0 c1 [MetadataFlag.Independent]) st0 n c) →
        rdCell st1 c = rdCell st0 c) ∧
      (∀ (a : Nat) (l k j i : Int),
        ¬ ((c1.pmy_block.cellbounds.GetBoundsK.s ≤ k ∧ k ≤ c1.pmy_block.cellbounds.GetBoundsK.e) ∧
          (c1.pmy_block.cellbounds.GetBoundsJ.s ≤ j ∧ j ≤ c1.pmy_block.cellbounds.GetBoundsJ.e) ∧
          (c1.pmy_block.cellbounds.GetBoundsI.s ≤ i ∧ i ≤ c1.pmy_block.cellbounds.GetBoundsI.e)) →
        (st1 a).data.val l k j i = (st0 a).data.val l k j i) ∧
      (∀ (a : Nat) (l k j i : Int), ¬ (0 ≤ l ∧ l < (st0 a).GetDim4) →
        (st1 a).data.val l k j i = (st0 a).data.val l k j i) ∧
      (∀ a : Nat, (st0 a).isSet MetadataFlag.Independent = false → st1 a = st0 a) ∧
      (∀ a : Nat, a ∉ c1.vars → st1 a = st0 a)) ∧
    (∃ st1 : VarStore R, Update.FluxDivergence st0 fin fout = some st1 ∧
      skelStore st1 = skelStore st0 ∧
      (∀ c : Cell,
        ¬ (∃ n, n < (ContainerIterator st0 fout [MetadataFlag.Independent]).length ∧
          fluxRegion fin.pmy_block.cellbounds.GetBoundsK fin.pmy_block.cellbounds.GetBoundsJ
            fin.pmy_block.cellbounds.GetBoundsI
            (ContainerIterator st0 fin [MetadataFlag.Independent])
            (ContainerIterator st0 fout [MetadataFlag.Independent]) st0 n c) →
        rdCell st1 c = rdCell st0 c) ∧
      (∀ (a : Nat) (l k j i : Int),
        ¬ ((fin.pmy_block.cellbounds.GetBoundsK.s ≤ k ∧ k ≤ fin.pmy_block.cellbounds.GetBoundsK.e) ∧
          (fin.pmy_block.cellbounds.GetBoundsJ.s ≤ j ∧ j ≤ fin.pmy_block.cellbounds.GetBoundsJ.e) ∧
          (fin.pmy_block.cellbounds.GetBoundsI.s ≤ i ∧ i ≤ fin.pmy_block.cellbounds.GetBoundsI.e)) →
        (st1 a).data.val l k j i = (st0 a).data.val l k j i) ∧
      (∀ (a : Nat) (l k j i : Int),
        (∀ n, n < (ContainerIterator st0 fout [MetadataFlag.Independent]).length →
          a = (ContainerIterator st0 fout [MetadataFlag.Independent]).getD n 0 →
          ¬ (0 ≤ l ∧ l < (st0 ((ContainerIterator st0 fin [MetadataFlag.Independent]).getD n 0)).GetDim4)) →
        (st1 a).data.val l k j i = (st0 a).data.val l k j i) ∧
      (∀ a : Nat, (st0 a).isSet MetadataFlag.Independent = false → st1 a = st0 a) ∧
      (∀ a : Nat, a ∉ fout.vars → st1 a = st0 a)) := by
  refine ⟨?_, ?_, ?_⟩
  · exact ⟨_, UpdateContainer_eq_mapKernel st0 in_ dudt_cont dt out hin hrate,
      mapKernel_frame_all _ _ _ out _ _ _ _ st0 _ (Nat.le_refl _) rfl⟩
  · exact ⟨_, AverageContainers_eq_mapKernel st0 c1 c2 wgt1 havg,
      mapKernel_frame_all _ _ _ c1 _ _ _ _ st0 _ havg rfl⟩
  · obtain ⟨st1, hK, hf⟩ := FluxDivergence_frame st0 fin fout hflux
    have hreg : ∀ c : Cell,
        (∃ n, n < (ContainerIterator st0 fout [MetadataFlag.Independent]).length ∧
          fluxRegion fin.pmy_block.cellbounds.GetBoundsK fin.pmy_block.cellbounds.GetBoundsJ
            fin.pmy_block.cellbounds.GetBoundsI
            (ContainerIterator st0 fin [MetadataFlag.Independent])
            (ContainerIterator st0 fout [MetadataFlag.Independent]) st0 n c) →
        c.a ∈ ContainerIterator st0 fout [MetadataFlag.Independent] ∧
        (fin.pmy_block.cellbounds.GetBoundsK.s ≤ c.k ∧
          c.k ≤ fin.pmy_block.cellbounds.GetBoundsK.e) ∧
        (fin.pmy_block.cellbounds.GetBoundsJ.s ≤ c.j ∧
          c.j ≤ fin.pmy_block.cellbounds.GetBoundsJ.e) ∧
        (fin.pmy_block.cellbounds.GetBoundsI.s ≤ c.i ∧
          c.i ≤ fin.pmy_block.cellbounds.GetBoundsI.e) := by
      rintro c ⟨n, hlt, ha, _, hk, hj, hi⟩
      refine ⟨?_, hk, hj, hi⟩
      rw [ha]
      exact getD_mem_of_lt hlt
    obtain ⟨g1, g2, g3⟩ := hf.consequences _ _ _ fout hreg
    refine ⟨st1, hK, hf.1, hf.2, g1, ?_, g2, g3⟩
    intro a l k j i hl
    apply hf.2 ⟨a, l, k, j, i⟩
    rintro ⟨n, hlt, ha, hl2, _⟩
    apply hl n hlt ha
    have hl3 : 0 ≤ l ∧ l ≤ (st0 ((ContainerIterator st0 fin
        [MetadataFlag.Independent]).getD n 0)).GetDim4 - 1 := hl2
    omega

theorem kernels_write_only_interior_witness :
    (∃ st1 : VarStore ℚ, Update.UpdateContainer sampleVars sampleIn sampleRate (1 / 2 : ℚ) sampleOut = some st1 ∧
      skelStore st1 = skelStore sampleVars ∧
      (∀ c : Cell,
        ¬ (∃ n, n < (ContainerIterator sampleVars sampleOut [MetadataFlag.Independent]).length ∧
          mapRegion sampleIn.pmy_block.cellbounds.GetBoundsK sampleIn.pmy_block.cellbounds.GetBoundsJ
            sampleIn.pmy_block.cellbounds.GetBoundsI
            (ContainerIterator sampleVars sampleOut [MetadataFlag.Independent]) sampleVars n c) →
        rdCell st1 c = rdCell sampleVars c) ∧
      (∀ (a : Nat) (l k j i : Int),
        ¬ ((sampleIn.pmy_block.cellbounds.GetBoundsK.s ≤ k ∧ k ≤ sampleIn.pmy_block.cellbounds.GetBoundsK.e) ∧
          (sampleIn.pmy_block.cellbounds.GetBoundsJ.s ≤ j ∧ j ≤ sampleIn.pmy_block.cellbounds.GetBoundsJ.e) ∧
          (sampleIn.pmy_block.cellbounds.GetBoundsI.s ≤ i ∧ i ≤ sampleIn.pmy_block.cellbounds.GetBoundsI.e)) →
        (st1 a).data.val l k j i = (sampleVars a).data.val l k j i) ∧
      (∀ (a : Nat) (l k j i : Int), ¬ (0 ≤ l ∧ l < (sampleVars a).GetDim4) →
        (st1 a).data.val l k j i = (sampleVars a).data.val l k j i) ∧
      (∀ a : Nat, (sampleVars a).isSet MetadataFlag.Independent = false → st1 a = sampleVars a) ∧
      (∀ a : Nat, a ∉ sampleOut.vars → st1 a = sampleVars a)) ∧
    (∃ st1 : VarStore ℚ, Update.AverageContainers sampleVars sampleOut sampleIn (1 / 3 : ℚ) = some st1 ∧
      skelStore st1 = skelStore sampleVars ∧
      (∀ c : Cell,
        ¬ (∃ n, n < (ContainerIterator sampleVars sampleIn [MetadataFlag.Independent]).length ∧
          mapRegion sampleOut.pmy_block.cellbounds.GetBoundsK sampleOut.pmy_block.cellbounds.GetBoundsJ
            sampleOut.pmy_block.cellbounds.GetBoundsI
            (ContainerIterator sampleVars sampleOut [MetadataFlag.Independent]) sampleVars n c) →
        rdCell st1 c = rdCell sampleVars c) ∧
      (∀ (a : Nat) (l k j i : Int),
        ¬ ((sampleOut.pmy_block.cellbounds.GetBoundsK.s ≤ k ∧ k ≤ sampleOut.pmy_block.cellbounds.GetBoundsK.e) ∧
          (sampleOut.pmy_block.cellbounds.GetBoundsJ.s ≤ j ∧ j ≤ sampleOut.pmy_block.cellbounds.GetBoundsJ.e) ∧
          (sampleOut.pmy_block.cellbounds.GetBoundsI.s ≤ i ∧ i ≤ sampleOut.pmy_block.cellbounds.GetBoundsI.e)) →
        (st1 a).data.val l k j i = (sampleVars a).data.val l k j i) ∧
      (∀ (a : Nat) (l k j i : Int), ¬ (0 ≤ l ∧ l < (sampleVars a).GetDim4) →
        (st1 a).data.val l k j i = (sampleVars a).data.val l k j i) ∧
      (∀ a : Nat, (sampleVars a).isSet MetadataFlag.Independent = false → st1 a = sampleVars a) ∧
      (∀ a : Nat, a ∉ sampleOut.vars → st1 a = sampleVars a)) ∧
    (∃ st1 : VarStore ℚ, Update.FluxDivergence sampleVars sampleIn sampleOut = some st1 ∧
      skelStore st1 = skelStore sampleVars ∧
      (∀ c : Cell,
        ¬ (∃ n, n < (ContainerIterator sampleVars sampleOut [MetadataFlag.Independent]).length ∧
          fluxRegion sampleIn.pmy_block.cellbounds.GetBoundsK sampleIn.pmy_block.cellbounds.GetBoundsJ
            sampleIn.pmy_block.cellbounds.GetBoundsI
            (ContainerIterator sampleVars sampleIn [MetadataFlag.Independent])
            (ContainerIterator sampleVars sampleOut [MetadataFlag.Independent]) sampleVars n c) →
        rdCell st1 c = rdCell sampleVars c) ∧
      (∀ (a : Nat) (l k j i : Int),
        ¬ ((sampleIn.pmy_block.cellbounds.GetBoundsK.s ≤ k ∧ k ≤ sampleIn.pmy_block.cellbounds.GetBoundsK.e) ∧
          (sampleIn.pmy_block.cellbounds.GetBoundsJ.s ≤ j ∧ j ≤ sampleIn.pmy_block.cellbounds.GetBoundsJ.e) ∧
          (sampleIn.pmy_block.cellbounds.GetBoundsI.s ≤ i ∧ i ≤ sampleIn.pmy_block.cellbounds.GetBoundsI.e)) →
        (st1 a).data.val l k j i = (sampleVars a).data.val l k j i) ∧
      (∀ (a : Nat) (l k j i : Int),
        (∀ n, n < (ContainerIterator sampleVars sampleOut [MetadataFlag.Independent]).length →
          a = (ContainerIterator sampleVars sampleOut [MetadataFlag.Independent]).getD n 0 →
          ¬ (0 ≤ l ∧ l < (sampleVars ((ContainerIterator sampleVars sampleIn [MetadataFlag.Independent]).getD n 0)).GetDim4)) →
        (st1 a).data.val l k j i = (sampleVars a).data.val l k j i) ∧
      (∀ a : Nat, (sampleVars a).isSet MetadataFlag.Independent = false → st1 a = sampleVars a) ∧
      (∀ a : Nat, a ∉ sampleOut.vars → st1 a = sampleVars a)) :=
  kernels_write_only_interior sampleVars sampleIn sampleRate sampleOut sampleOut sampleIn sampleIn sampleOut
    (1 / 2 : ℚ) (1 / 3 : ℚ) (by decide) (by decide) (by decide) (by decide)

/-! ## The kernels on non-finite values -/

theorem Double.inf_mul_zero (s : Bool) : Double.inf s * (0 : Double) = Double.nan := by
  show Double.mul (.inf s) (.finite 0) = .nan
  simp [Double.mul]

theorem Double.zero_mul_inf (s : Bool) : (0 : Double) * Double.inf s = Double.nan := by
  show Double.mul (.finite 0) (.inf s) = .nan
  simp [Double.mul]

theorem Double.add_nan (x : Double) : x + Double.nan = Double.nan := by
  show Double.add x .nan = .nan
  cases x <;> rfl

theorem Double.nan_add (x : Double) : Double.nan + x = Double.nan := by
  show Double.add .nan x = .nan
  cases x <;> rfl

theorem Double.one_sub_one : (1 : Double) - 1 = 0 := by
  show Double.add (.finite 1) (Double.neg (.finite 1)) = .finite 0
  simp [Double.add, Double.neg]

end parthenon
